import Mathlib

/-!
Threaded comments and engagement counters (routes/comments.js, models/Comment.js).

A shallow embedding of the comment routes, the Comment model methods and the
mongoose `post('save')` middleware, with the Mongo collections as explicit state.

Modelling conventions
* ObjectIds are natural numbers; JS numbers that the code computes with
  (`depth`, `likeCount`, `reportCount`, `replyCount`, `commentCount`) are integers.
* A collection is a list of documents; `findById` returns the first document with
  the given `_id` and a write replaces that same document.
* `save` carries fuel: every `doc.save()` costs one unit, and `none` means that the
  chain of saves started by the middleware did not finish within the fuel.
* The `createdAt`/`updatedAt` timestamps, `images` and `mentions` are never read by
  the routes and are left out of the documents.
-/

namespace Busan

/-! ## Documents -/

/-- The `status` enum of models/Comment.js. -/
inductive CommentStatus where
  | active
  | hidden
  | deleted
  | reported
  deriving DecidableEq, Repr

/-- The `status` enum of models/Post.js. -/
inductive PostStatus where
  | active
  | closed
  | hidden
  | deleted
  deriving DecidableEq, Repr

/-- One element of `likes`. -/
structure Like where
  user : Nat
  deriving DecidableEq, Repr

/-- One element of `reports`. -/
structure Report where
  reportedBy : Nat
  reason : String
  description : Option String
  deriving DecidableEq, Repr

/-- One element of `editHistory`. -/
structure EditEntry where
  editedAt : Nat
  reason : String
  deriving DecidableEq, Repr

/-- A document of the Comment collection (commentSchema). -/
structure Comment where
  id : Nat
  content : String
  author : Nat
  post : Nat
  parentComment : Option Nat
  depth : Int
  language : String
  status : CommentStatus
  isAnonymous : Bool
  likes : List Like
  likeCount : Int
  reports : List Report
  reportCount : Int
  isEdited : Bool
  lastEditedAt : Option Nat
  editHistory : List EditEntry
  replyCount : Int
  deriving DecidableEq, Repr

/-- The part of a Post document that the comment engine reads or writes. -/
structure Post where
  id : Nat
  status : PostStatus
  commentCount : Int
  deriving DecidableEq, Repr

/-- The authenticated principal `req.user`. -/
structure User where
  id : Nat
  role : String
  deriving DecidableEq, Repr

/-- The two collections. -/
structure Store where
  comments : List Comment
  posts : List Post
  deriving DecidableEq, Repr

/-! ## Collection primitives -/

/-- The `Comment.findById(id)` query. -/
def Store.findComment (st : Store) (id : Nat) : Option Comment :=
  st.comments.find? (fun c => c.id == id)

/-- The `Post.findById(id)` query. -/
def Store.findPost (st : Store) (id : Nat) : Option Post :=
  st.posts.find? (fun p => p.id == id)

/-- Write a document by `_id`: replace the stored document with that id, or insert it. -/
def upsert (doc : Comment) : List Comment → List Comment
  | [] => [doc]
  | c :: cs => if c.id = doc.id then doc :: cs else c :: upsert doc cs

/-- Persist a comment document. -/
def Store.writeComment (st : Store) (doc : Comment) : Store :=
  { st with comments := upsert doc st.comments }

/-- Apply `f` to the stored comment with the given id (`findByIdAndUpdate`). -/
def updateById (id : Nat) (f : Comment → Comment) : List Comment → List Comment
  | [] => []
  | c :: cs => if c.id = id then f c :: cs else c :: updateById id f cs

/-- The update `Post.findByIdAndUpdate(id, { $inc: { commentCount: delta } })`. -/
def incPost (id : Nat) (delta : Int) : List Post → List Post
  | [] => []
  | p :: ps =>
    if p.id = id then { p with commentCount := p.commentCount + delta } :: ps
    else p :: incPost id delta ps

/-- Increment a post counter in the store. -/
def Store.incCommentCount (st : Store) (id : Nat) (delta : Int) : Store :=
  { st with posts := incPost id delta st.posts }

/-- The query `countDocuments({ parentComment: id, status: 'active' })`. -/
def Store.countActiveChildren (st : Store) (id : Nat) : Nat :=
  (st.comments.filter
    (fun c => c.parentComment == some id && c.status == CommentStatus.active)).length

/-- The query `Comment.countDocuments({ post: id, status: 'active' })` of Post.updateCommentCount. -/
def Store.countActiveOnPost (st : Store) (id : Nat) : Nat :=
  (st.comments.filter (fun c => c.post == id && c.status == CommentStatus.active)).length

/-! ## Model methods (models/Comment.js) -/

/-- The in-memory part of `commentSchema.methods.toggleLike` (before `this.save()`). -/
def Comment.toggleLike (c : Comment) (userId : Nat) : Comment :=
  match c.likes.find? (fun like => like.user == userId) with
  | some _ =>
    { c with
      likes := c.likes.filter (fun like => like.user != userId)
      likeCount := max 0 (c.likeCount - 1) }
  | none =>
    { c with
      likes := c.likes ++ [{ user := userId }]
      likeCount := c.likeCount + 1 }

/-- The in-memory part of `commentSchema.methods.addReport` (before `this.save()`). -/
def Comment.addReport (c : Comment) (reportedBy : Nat) (reason : String)
    (description : Option String) : Comment :=
  match c.reports.find? (fun report => report.reportedBy == reportedBy) with
  | some _ => c
  | none =>
    let c1 : Comment :=
      { c with
        reports := c.reports ++
          [{ reportedBy := reportedBy, reason := reason, description := description }]
        reportCount := c.reportCount + 1 }
    if c1.reportCount ≥ 5 then { c1 with status := CommentStatus.reported } else c1

/-- The call `doc.save()` with the `post('save')` middleware and `updateReplyCount`:
the document is written; if it is active its post gets `$inc commentCount 1` and, when
it names a parent that exists, the parent recomputes `replyCount` and is saved in turn. -/
def save : Nat → Store → Comment → Option Store
  | 0, _, _ => none
  | fuel + 1, st, doc =>
    let st1 := st.writeComment doc
    if doc.status = CommentStatus.active then
      let st2 := st1.incCommentCount doc.post 1
      match doc.parentComment with
      | none => some st2
      | some pid =>
        match st2.findComment pid with
        | none => some st2
        | some parentComment =>
          save fuel st2
            { parentComment with replyCount := st2.countActiveChildren parentComment.id }
    else some st1

/-! ## Request validation (express-validator chains and schema validators) -/

/-- Code points matched by the JS regular expression class `\s`. -/
def isJsSpace (c : Char) : Bool :=
  let n := c.toNat
  (9 ≤ n && n ≤ 13) || n == 32 || n == 160 || n == 5760 || (8192 ≤ n && n ≤ 8202)
    || n == 8232 || n == 8233 || n == 8239 || n == 8287 || n == 12288 || n == 65279

/-- The sanitizer `trim()`. -/
def jsTrim (s : String) : String :=
  String.mk ((s.toList.dropWhile isJsSpace).reverse.dropWhile isJsSpace).reverse

/-- The JS `String.prototype.length`: UTF-16 code units. -/
def utf16Length (s : String) : Nat :=
  (s.toList.map (fun c => if c.toNat < 65536 then 1 else 2)).sum

/-- The variation selectors U+FE0E and U+FE0F. -/
def isSelector (c : Char) : Bool :=
  c.toNat == 65038 || c.toNat == 65039

/-- The number of matches of `/[^\uFE0F\uFE0E][\uFE0F\uFE0E]/g` in validator's `isLength`:
the variation selectors that directly follow a code unit that is not one. -/
def presentationSequences : List Char → Nat
  | a :: b :: rest =>
    (if !isSelector a && isSelector b then 1 else 0) + presentationSequences (b :: rest)
  | _ => 0

/-- The number of matches of `/[\uD800-\uDBFF][\uDC00-\uDFFF]/g` in validator's
`isLength`: the code points above U+FFFF. -/
def surrogatePairs (cs : List Char) : Nat :=
  (cs.filter (fun c => decide (65536 ≤ c.toNat))).length

/-- The length that validator's `isLength` compares with its bounds:
`str.length - presentationSequences.length - surrogatePairs.length`. -/
def validatorLength (s : String) : Nat :=
  utf16Length s - presentationSequences s.toList - surrogatePairs s.toList

/-- The validator `isLength({ min, max })`. -/
def isLength (s : String) (min max : Nat) : Bool :=
  decide (min ≤ validatorLength s) && decide (validatorLength s ≤ max)

/-- The chain `body('content').trim().isLength({ min: 1, max: 1000 })`. -/
def contentValid (content : String) : Bool :=
  isLength (jsTrim content) 1 1000

/-- The `language` enum of commentSchema. -/
def languages : List String :=
  ["korean", "english", "tagalog", "vietnamese", "thai",
   "indonesian", "burmese", "khmer", "lao", "bengali",
   "urdu", "nepali", "sinhala", "uzbek", "kazakh",
   "mongolian", "chinese", "japanese", "mixed"]

/-- The `reason` enum checked by `isIn` in the report route. -/
def reportReasons : List String :=
  ["spam", "abuse", "inappropriate", "harassment", "other"]

/-- Schema validation run by `save()` on a new comment: `content` required with
`maxlength: 1000`, `depth` with `max: 3`, `language` in its enum. -/
def schemaValid (c : Comment) : Bool :=
  c.content != "" && utf16Length c.content ≤ 1000 && c.depth ≤ 3
    && languages.contains c.language

/-- The JS expression `value || fallback` on an optional string: a missing or empty
string is falsy. -/
def orDefault (value : Option String) (fallback : String) : String :=
  match value with
  | none => fallback
  | some v => if v = "" then fallback else v

/-! ## Responses -/

/-- The `code` strings of the error responses. -/
inductive Code where
  | VALIDATION_ERROR
  | POST_NOT_FOUND
  | PARENT_COMMENT_NOT_FOUND
  | MAX_DEPTH_EXCEEDED
  | COMMENT_CREATION_ERROR
  | RESOURCE_NOT_FOUND
  | ACCESS_DENIED
  | COMMENT_UPDATE_ERROR
  | COMMENT_NOT_FOUND
  | CANNOT_REPORT_OWN_COMMENT
  deriving DecidableEq, Repr

/-- What a route sends back. -/
inductive Response where
  | created (comment : Comment)
  | updated (comment : Option Comment)
  | commentDeleted
  | liked (isLiked : Bool) (likeCount : Int)
  | commentReported
  | error (httpStatus : Nat) (code : Code)
  deriving DecidableEq, Repr

/-! ## Routes (routes/comments.js) and checkOwnership (middleware/auth.js) -/

/-- The body of `POST /comments`. Only `content`, `post`, `parentComment`, `language`
and `isAnonymous` are destructured by the handler; `depth` stands for a client-sent
field of that name. -/
structure PostCommentBody where
  content : String
  post : Nat
  parentComment : Option Nat
  language : Option String
  isAnonymous : Option Bool
  depth : Option Int
  deriving DecidableEq, Repr

/-- The document `new Comment(commentData)` of the route `router.post('/')`, schema
defaults filled in; `content` is the sanitized (trimmed) body field. -/
def commentData (user : User) (body : PostCommentBody) (newId : Nat) (depth : Int) : Comment :=
  { id := newId
    content := jsTrim body.content
    author := user.id
    post := body.post
    parentComment := body.parentComment
    depth := depth
    language := orDefault body.language "korean"
    status := CommentStatus.active
    isAnonymous := body.isAnonymous.getD false
    likes := []
    likeCount := 0
    reports := []
    reportCount := 0
    isEdited := false
    lastEditedAt := none
    editHistory := []
    replyCount := 0 }

/-- Lines 98-119 of the route `router.post('/')`: `depth` is 0 without a parent; with a
parent it is `parent.depth + 1`, after the parent was found active and the bound checked.
An error is the HTTP status and code of the early return. -/
def resolveDepth (st : Store) (parentComment : Option Nat) : Except (Nat × Code) Int :=
  match parentComment with
  | none => Except.ok 0
  | some pid =>
    match st.findComment pid with
    | none => Except.error (404, Code.PARENT_COMMENT_NOT_FOUND)
    | some parent =>
      if parent.status ≠ CommentStatus.active then
        Except.error (404, Code.PARENT_COMMENT_NOT_FOUND)
      else if parent.depth + 1 > 3 then
        Except.error (400, Code.MAX_DEPTH_EXCEEDED)
      else Except.ok (parent.depth + 1)

/-- The route `router.post('/')`. The id `newId` is the ObjectId generated for the new
document; an insert under an id already in the collection is a duplicate-key error. -/
def postComment (fuel : Nat) (st : Store) (user : User) (body : PostCommentBody)
    (newId : Nat) : Option (Response × Store) :=
  if !contentValid body.content then
    some (Response.error 400 Code.VALIDATION_ERROR, st)
  else
    match st.findPost body.post with
    | none => some (Response.error 404 Code.POST_NOT_FOUND, st)
    | some post =>
      if post.status ≠ PostStatus.active then
        some (Response.error 404 Code.POST_NOT_FOUND, st)
      else
        match resolveDepth st body.parentComment with
        | Except.error (status, code) => some (Response.error status code, st)
        | Except.ok depth =>
          let comment := commentData user body newId depth
          if !schemaValid comment || (st.findComment newId).isSome then
            some (Response.error 500 Code.COMMENT_CREATION_ERROR, st)
          else
            match save fuel st comment with
            | none => none
            | some st1 => some (Response.created comment, st1)

/-- The middleware `checkOwnership(Comment)`: `none` lets the request through. -/
def checkOwnership (st : Store) (user : User) (id : Nat) : Option Response :=
  match st.findComment id with
  | none => some (Response.error 404 Code.RESOURCE_NOT_FOUND)
  | some resource =>
    if user.role = "admin" then none
    else if resource.author ≠ user.id then some (Response.error 403 Code.ACCESS_DENIED)
    else none

/-- The body of `PUT /comments/:id`. -/
structure EditCommentBody where
  content : String
  editReason : Option String
  deriving DecidableEq, Repr

/-- The route `router.put('/:id')`; `now` is `new Date()`. -/
def editComment (st : Store) (user : User) (id : Nat) (body : EditCommentBody)
    (now : Nat) : Response × Store :=
  match checkOwnership st user id with
  | some r => (r, st)
  | none =>
    if !contentValid body.content then (Response.error 400 Code.VALIDATION_ERROR, st)
    else
      let content := jsTrim body.content
      if utf16Length content > 1000 then (Response.error 500 Code.COMMENT_UPDATE_ERROR, st)
      else
        let reason := orDefault body.editReason "내용 수정"
        let st1 : Store :=
          { st with
            comments := updateById id
              (fun c =>
                { c with
                  content := content
                  isEdited := true
                  lastEditedAt := some now
                  editHistory := c.editHistory ++ [{ editedAt := now, reason := reason }] })
              st.comments }
        (Response.updated (st1.findComment id), st1)

/-- The route `router.delete('/:id')`. -/
def deleteComment (st : Store) (user : User) (id : Nat) : Response × Store :=
  match checkOwnership st user id with
  | some r => (r, st)
  | none =>
    (Response.commentDeleted,
      { st with
        comments := updateById id (fun c => { c with status := CommentStatus.deleted })
          st.comments })

/-- The route `router.post('/:id/like')`. -/
def toggleLike (fuel : Nat) (st : Store) (user : User) (id : Nat) :
    Option (Response × Store) :=
  match st.findComment id with
  | none => some (Response.error 404 Code.COMMENT_NOT_FOUND, st)
  | some comment =>
    if comment.status ≠ CommentStatus.active then
      some (Response.error 404 Code.COMMENT_NOT_FOUND, st)
    else
      let comment1 := comment.toggleLike user.id
      match save fuel st comment1 with
      | none => none
      | some st1 =>
        some (Response.liked (comment1.likes.any (fun like => like.user == user.id))
          comment1.likeCount, st1)

/-- The body of `POST /comments/:id/report`. -/
structure ReportBody where
  reason : String
  description : Option String
  deriving DecidableEq, Repr

/-- The validation chain of the report route: `reason` in its enum and, when present,
`description` with `isLength({ max: 500 })`. -/
def reportValid (body : ReportBody) : Bool :=
  reportReasons.contains body.reason &&
    (match body.description with
     | none => true
     | some d => isLength d 0 500)

/-- The route `router.post('/:id/report')`. -/
def reportComment (fuel : Nat) (st : Store) (user : User) (id : Nat) (body : ReportBody) :
    Option (Response × Store) :=
  if !reportValid body then some (Response.error 400 Code.VALIDATION_ERROR, st)
  else
    match st.findComment id with
    | none => some (Response.error 404 Code.COMMENT_NOT_FOUND, st)
    | some comment =>
      if comment.status ≠ CommentStatus.active then
        some (Response.error 404 Code.COMMENT_NOT_FOUND, st)
      else if comment.author = user.id then
        some (Response.error 400 Code.CANNOT_REPORT_OWN_COMMENT, st)
      else
        match save fuel st (comment.addReport user.id body.reason body.description) with
        | none => none
        | some st1 => some (Response.commentReported, st1)

/-- The five mutating requests of the comment engine. -/
inductive Op where
  | postComment (user : User) (body : PostCommentBody) (newId : Nat)
  | editComment (user : User) (id : Nat) (body : EditCommentBody) (now : Nat)
  | deleteComment (user : User) (id : Nat)
  | toggleLike (user : User) (id : Nat)
  | reportComment (user : User) (id : Nat) (body : ReportBody)

/-- Run one request against the store. -/
def step (fuel : Nat) (st : Store) : Op → Option (Response × Store)
  | Op.postComment user body newId => postComment fuel st user body newId
  | Op.editComment user id body now => some (editComment st user id body now)
  | Op.deleteComment user id => some (deleteComment st user id)
  | Op.toggleLike user id => toggleLike fuel st user id
  | Op.reportComment user id body => reportComment fuel st user id body

/-! ## Example data -/

/-- A comment with content `hi`, no likes, no reports and no edits. -/
def mkComment (id author post : Nat) (parent : Option Nat) (depth : Int)
    (status : CommentStatus) (replyCount : Int) : Comment :=
  { id := id
    content := "hi"
    author := author
    post := post
    parentComment := parent
    depth := depth
    language := "korean"
    status := status
    isAnonymous := false
    likes := []
    likeCount := 0
    reports := []
    reportCount := 0
    isEdited := false
    lastEditedAt := none
    editHistory := []
    replyCount := replyCount }

/-- A request body for a comment with content `hi`. -/
def mkBody (post : Nat) (parent : Option Nat) (depth : Option Int) : PostCommentBody :=
  { content := "hi", post := post, parentComment := parent, language := none,
    isAnonymous := none, depth := depth }

/-- Post 1 (active, one comment) with the active root comment 10 written by user 1. -/
def storeA : Store :=
  { comments := [mkComment 10 1 1 none 0 CommentStatus.active 0]
    posts := [{ id := 1, status := PostStatus.active, commentCount := 1 }] }

/-! ## Invariants named by the specification -/

/-- The depth rule for one stored comment: `depth ≤ 3`, a root has depth 0, and a reply
has its parent in the collection with `depth = parent.depth + 1`. -/
def depthOk (st : Store) (c : Comment) : Bool :=
  decide (c.depth ≤ 3) &&
    (match c.parentComment with
     | none => decide (c.depth = 0)
     | some pid =>
       match st.findComment pid with
       | none => false
       | some parent => decide (c.depth = parent.depth + 1))

/-- Every stored comment satisfies the depth rule. -/
def DepthInv (st : Store) : Prop :=
  ∀ c ∈ st.comments, depthOk st c = true

instance instDecidableDepthInv (st : Store) : Decidable (DepthInv st) := by
  unfold DepthInv
  infer_instance

/-- Every post's `commentCount` is the number of active comments stored on it. -/
def CountInv (st : Store) : Prop :=
  ∀ p ∈ st.posts, p.commentCount = st.countActiveOnPost p.id

instance instDecidableCountInv (st : Store) : Decidable (CountInv st) := by
  unfold CountInv
  infer_instance

/-- Every comment's `replyCount` is the number of its active children. -/
def ReplyInv (st : Store) : Prop :=
  ∀ c ∈ st.comments, c.replyCount = st.countActiveChildren c.id

instance instDecidableReplyInv (st : Store) : Decidable (ReplyInv st) := by
  unfold ReplyInv
  infer_instance

/-- The structural part of a comment: id, parent reference and depth. -/
def Comment.skel (c : Comment) : Nat × Option Nat × Int :=
  (c.id, c.parentComment, c.depth)

/-- A comment with its `replyCount` blanked: everything `save` never changes on a
stored document other than the one being saved. -/
def Comment.core (c : Comment) : Comment :=
  { c with replyCount := 0 }

/-- The stored comment `id` carries the live number of its active children. -/
def replyOk (st : Store) (id : Nat) : Prop :=
  ∃ c, st.findComment id = some c ∧ c.replyCount = st.countActiveChildren id

/-! ## Example stores -/

/-- The reply 11 of user 2 to comment 10. -/
def replyB : Comment := mkComment 11 2 1 (some 10) 1 CommentStatus.active 0

/-- The store `storeA` after user 2 replied to comment 10 with the new id 11. -/
def storeAReplied : Store :=
  { comments := [mkComment 10 1 1 none 0 CommentStatus.active 1, replyB]
    posts := [{ id := 1, status := PostStatus.active, commentCount := 3 }] }

/-- Post 1 with a chain of four active comments 1, 2, 3, 4 at depths 0, 1, 2, 3. -/
def storeDeep : Store :=
  { comments :=
      [mkComment 1 1 1 none 0 CommentStatus.active 1,
       mkComment 2 1 1 (some 1) 1 CommentStatus.active 1,
       mkComment 3 1 1 (some 2) 2 CommentStatus.active 1,
       mkComment 4 1 1 (some 3) 3 CommentStatus.active 0]
    posts := [{ id := 1, status := PostStatus.active, commentCount := 4 }] }

/-- The store `storeA` with its post closed. -/
def storeClosed : Store :=
  { comments := [mkComment 10 1 1 none 0 CommentStatus.active 0]
    posts := [{ id := 1, status := PostStatus.closed, commentCount := 1 }] }

/-- The targets of a `postComment` request are usable: the post exists and is active and,
when a parent is named, the parent exists and is active. -/
def postTargetsOk (st : Store) (body : PostCommentBody) : Bool :=
  (match st.findPost body.post with
   | none => false
   | some post => decide (post.status = PostStatus.active)) &&
  (match body.parentComment with
   | none => true
   | some pid =>
     match st.findComment pid with
     | none => false
     | some parent => decide (parent.status = CommentStatus.active))

/-- Post 1 (two comments counted) with root comment 10 (one reply counted) and its
active reply 11. -/
def storeAB : Store :=
  { comments := [mkComment 10 1 1 none 0 CommentStatus.active 1, replyB]
    posts := [{ id := 1, status := PostStatus.active, commentCount := 2 }] }

/-- The store `storeAB` after reply 11 was deleted through the route. -/
def storeABDeleted : Store :=
  { comments := [mkComment 10 1 1 none 0 CommentStatus.active 1,
      { replyB with status := CommentStatus.deleted }]
    posts := [{ id := 1, status := PostStatus.active, commentCount := 2 }] }

/-- The store `storeA` after user 2 liked comment 10. -/
def storeALiked : Store :=
  { comments :=
      [{ mkComment 10 1 1 none 0 CommentStatus.active 0 with
          likes := [{ user := 2 }], likeCount := 1 }]
    posts := [{ id := 1, status := PostStatus.active, commentCount := 2 }] }

/-- Four reports on one comment, by users 3, 4, 5 and 6. -/
def fourReports : List Report :=
  [{ reportedBy := 3, reason := "spam", description := none },
   { reportedBy := 4, reason := "spam", description := none },
   { reportedBy := 5, reason := "spam", description := none },
   { reportedBy := 6, reason := "spam", description := none }]

/-- The store `storeAB` with four reports on reply 11. -/
def storeAB4 : Store :=
  { comments := [mkComment 10 1 1 none 0 CommentStatus.active 1,
      { replyB with reports := fourReports, reportCount := 4 }]
    posts := [{ id := 1, status := PostStatus.active, commentCount := 2 }] }

/-- The store `storeAB4` after user 7 reported reply 11. -/
def storeAB4Reported : Store :=
  { comments := [mkComment 10 1 1 none 0 CommentStatus.active 1,
      { replyB with
          reports := fourReports ++ [{ reportedBy := 7, reason := "spam", description := none }]
          reportCount := 5
          status := CommentStatus.reported }]
    posts := [{ id := 1, status := PostStatus.active, commentCount := 2 }] }

/-! ## Like and report bookkeeping -/

/-- The test `comment.likes.some(like => like.user.toString() === userId.toString())`. -/
def Comment.isLikedBy (c : Comment) (userId : Nat) : Bool :=
  c.likes.any (fun like => like.user == userId)

/-- The like list holds each user at most once and `likeCount` is its length. -/
def LikesOk (c : Comment) : Prop :=
  (c.likes.map Like.user).Nodup ∧ c.likeCount = c.likes.length

instance instDecidableLikesOk (c : Comment) : Decidable (LikesOk c) := by
  unfold LikesOk
  infer_instance

/-- The users who have a report record on the comment, in order. -/
def Comment.reporters (c : Comment) : List Nat :=
  c.reports.map Report.reportedBy

/-- The report records have pairwise distinct reporters and `reportCount` is their number. -/
def ReportsOk (c : Comment) : Prop :=
  c.reporters.Nodup ∧ c.reportCount = c.reports.length

instance instDecidableReportsOk (c : Comment) : Decidable (ReportsOk c) := by
  unfold ReportsOk
  infer_instance

/-- Report requests against one comment, run one after the other; `none` when one of
them does not return. -/
def runReports (fuel : Nat) (id : Nat) : Store → List (User × ReportBody) →
    Option (List Response × Store)
  | st, [] => some ([], st)
  | st, (user, body) :: rest =>
    match reportComment fuel st user id body with
    | none => none
    | some (r, st1) =>
      match runReports fuel id st1 rest with
      | none => none
      | some (rs, st2) => some (r :: rs, st2)

/-- The store `storeA` after user 2 liked comment 10 and then took the like back. -/
def storeAUnliked : Store :=
  { comments := [mkComment 10 1 1 none 0 CommentStatus.active 0]
    posts := [{ id := 1, status := PostStatus.active, commentCount := 3 }] }

/-- Post 1 (one comment counted) with root comment 10, written by user 1 and reported
once, by user 3. -/
def storeR : Store :=
  { comments :=
      [{ mkComment 10 1 1 none 0 CommentStatus.active 0 with
          reports := [{ reportedBy := 3, reason := "spam", description := none }]
          reportCount := 1 }]
    posts := [{ id := 1, status := PostStatus.active, commentCount := 1 }] }

/-- The store `storeR` after user 3 reported comment 10 a second time. -/
def storeRAgain : Store :=
  { comments := storeR.comments
    posts := [{ id := 1, status := PostStatus.active, commentCount := 2 }] }

/-- The store `storeA` with comment 10 deleted. -/
def storeADeleted : Store :=
  { comments := [mkComment 10 1 1 none 0 CommentStatus.deleted 0]
    posts := [{ id := 1, status := PostStatus.active, commentCount := 1 }] }

/-- The ids of the users behind a list of report requests, in order. -/
def actors (reqs : List (User × ReportBody)) : List Nat :=
  reqs.map (fun q => q.1.id)

/-- A report request by the given user with reason `spam`. -/
def spamBy (u : Nat) : User × ReportBody :=
  (⟨u, "user"⟩, ⟨"spam", none⟩)

/-- The store `storeA` after users 3, 4, 3 again, 5, 6 and 7 reported comment 10. -/
def storeAFive : Store :=
  { comments :=
      [{ mkComment 10 1 1 none 0 CommentStatus.active 0 with
          reports := fourReports ++ [{ reportedBy := 7, reason := "spam", description := none }]
          reportCount := 5
          status := CommentStatus.reported }]
    posts := [{ id := 1, status := PostStatus.active, commentCount := 6 }] }

/-- A store without posts and without comments. -/
def storeEmpty : Store :=
  { comments := [], posts := [] }

/-- Posts 1 and 2, both active and counting one and no comment, with root comment 10 on
post 1. -/
def storeTwoPosts : Store :=
  { comments := [mkComment 10 1 1 none 0 CommentStatus.active 0]
    posts := [{ id := 1, status := PostStatus.active, commentCount := 1 },
      { id := 2, status := PostStatus.active, commentCount := 0 }] }

/-- The store `storeTwoPosts` after user 2 posted comment 11 on post 2 as a reply to
comment 10 of post 1. -/
def storeTwoPostsReplied : Store :=
  { comments := [mkComment 10 1 1 none 0 CommentStatus.active 1,
      mkComment 11 2 2 (some 10) 1 CommentStatus.active 0]
    posts := [{ id := 1, status := PostStatus.active, commentCount := 2 },
      { id := 2, status := PostStatus.active, commentCount := 1 }] }

/-- The store `storeAB` after user 1 liked reply 11. -/
def storeABLiked : Store :=
  { comments := [mkComment 10 1 1 none 0 CommentStatus.active 1,
      { replyB with likes := [{ user := 1 }], likeCount := 1 }]
    posts := [{ id := 1, status := PostStatus.active, commentCount := 4 }] }

/-- The store `storeAB4Reported` after the author, user 2, deleted the reported reply 11. -/
def storeAB4ReportedDeleted : Store :=
  { comments := [mkComment 10 1 1 none 0 CommentStatus.active 1,
      { replyB with
          reports := fourReports ++ [{ reportedBy := 7, reason := "spam", description := none }]
          reportCount := 5
          status := CommentStatus.deleted }]
    posts := [{ id := 1, status := PostStatus.active, commentCount := 2 }] }

/-! ## The cascade of saves -/

/-- The function `save` with a log: the ids of the documents written by the chain of
`doc.save()` calls, in order, next to the resulting store. -/
def saveLog : Nat → Store → Comment → Option (List Nat × Store)
  | 0, _, _ => none
  | fuel + 1, st, doc =>
    let st1 := st.writeComment doc
    if doc.status = CommentStatus.active then
      let st2 := st1.incCommentCount doc.post 1
      match doc.parentComment with
      | none => some ([doc.id], st2)
      | some pid =>
        match st2.findComment pid with
        | none => some ([doc.id], st2)
        | some parentComment =>
          match saveLog fuel st2
              { parentComment with replyCount := st2.countActiveChildren parentComment.id } with
          | none => none
          | some (ids, st3) => some (doc.id :: ids, st3)
    else some ([doc.id], st1)

/-- A comment with this id is stored. -/
def Store.stored (st : Store) (id : Nat) : Bool :=
  (st.findComment id).isSome

/-- The stored comment with this id is active. -/
def Store.activeAt (st : Store) (id : Nat) : Bool :=
  match st.findComment id with
  | none => false
  | some c => decide (c.status = CommentStatus.active)

/-- The parent reference of the stored comment with this id. -/
def Store.parentAt (st : Store) (id : Nat) : Option Nat :=
  (st.findComment id).bind Comment.parentComment

/-- The function `rank` strictly decreases from every stored comment to its stored
parent. -/
def Ranked (rank : Nat → Nat) (st : Store) : Prop :=
  ∀ id p, st.parentAt id = some p → st.stored p = true → rank p < rank id

/-- The next link of the parent chain: the parent named by the stored comment with this
id, when that parent is stored. -/
def Store.next (st : Store) (id : Nat) : Option Nat :=
  match st.parentAt id with
  | none => none
  | some p => if st.stored p then some p else none

/-- The comment reached from `id` after `k` links of the parent chain. -/
def Store.ancestor (st : Store) : Nat → Nat → Option Nat
  | 0, id => some id
  | k + 1, id => (st.next id).bind (st.ancestor k)

/-- No parent chain leads from a comment back to itself. -/
def Acyclic (st : Store) : Prop :=
  ∀ id k, st.ancestor (k + 1) id ≠ some id

/-- The number of links of the parent chain from `id`, followed for at most `n` links. -/
def Store.height (st : Store) : Nat → Nat → Nat
  | 0, _ => 0
  | n + 1, id =>
    match st.next id with
    | none => 0
    | some p => st.height n p + 1

/-- A log of saved ids is a cascade along the parent chain: every saved comment but the
last is active and has the next saved id as its stored parent, and the last one is
stored and is not active, or names no parent, or names a parent that is not stored. -/
def cascadeOk (st : Store) : List Nat → Bool
  | [] => false
  | [x] =>
    st.stored x &&
      (!st.activeAt x ||
        (match st.parentAt x with
         | none => true
         | some p => !st.stored p))
  | x :: y :: rest =>
    st.activeAt x && st.parentAt x == some y && st.stored y && cascadeOk st (y :: rest)

/-- The depth of the stored comment with this id as a natural number, 0 when there is
none. -/
def Store.depthAt (st : Store) (id : Nat) : Nat :=
  match st.findComment id with
  | none => 0
  | some c => c.depth.toNat

/-- A thousand letters `a` followed by the variation selector U+FE0F: 1001 code points
and 1001 UTF-16 code units, none of them white space. -/
def longContent : String :=
  String.mk (List.replicate 1000 'a' ++ [Char.ofNat 65039])

/-- Post 1 with three active comments 1, 2 and 3, comment 3 a reply to 2 and comment 2 a
reply to 1, all stored with depth 0. -/
def storeFlat : Store :=
  { comments :=
      [mkComment 1 1 1 none 0 CommentStatus.active 1,
       mkComment 2 1 1 (some 1) 0 CommentStatus.active 1,
       mkComment 3 1 1 (some 2) 0 CommentStatus.active 0]
    posts := [{ id := 1, status := PostStatus.active, commentCount := 3 }] }

/-- Every stored comment that names a parent has a larger id than that parent. -/
def parentsBelow (st : Store) : Bool :=
  st.comments.all
    (fun c =>
      match c.parentComment with
      | none => true
      | some p => decide (p < c.id))

/-! ## Lemmas on the collection primitives -/

theorem find_upsert_self (doc : Comment) (l : List Comment) :
    (upsert doc l).find? (fun c => c.id == doc.id) = some doc := by
  induction l with
  | nil => simp [upsert]
  | cons c cs ih =>
    by_cases h : c.id = doc.id
    · simp [upsert, h]
    · simp [upsert, h, List.find?_cons, ih]

theorem find_upsert_ne (doc : Comment) (l : List Comment) (id : Nat) (h : id ≠ doc.id) :
    (upsert doc l).find? (fun c => c.id == id) = l.find? (fun c => c.id == id) := by
  induction l with
  | nil => simp [upsert, List.find?_cons, Ne.symm h]
  | cons c cs ih =>
    by_cases hc : c.id = doc.id
    · have h1 : ¬ c.id = id := fun e => h (e ▸ hc)
      have h2 : ¬ doc.id = id := fun e => h e.symm
      simp [upsert, hc, List.find?_cons, h2]
    · simp only [upsert, hc, if_false, List.find?_cons, ih]

theorem upsert_eq_append (doc : Comment) (l : List Comment)
    (h : l.find? (fun c => c.id == doc.id) = none) : upsert doc l = l ++ [doc] := by
  induction l with
  | nil => rfl
  | cons c cs ih =>
    by_cases hc : c.id = doc.id
    · simp [List.find?_cons, hc] at h
    · have h1 : cs.find? (fun c => c.id == doc.id) = none := by
        simpa [List.find?_cons, hc] using h
      simp only [upsert, hc, if_false, List.cons_append]
      rw [ih h1]

theorem map_upsert_of_find {β : Type} (f : Comment → β) (doc c : Comment) (l : List Comment)
    (h : l.find? (fun x => x.id == doc.id) = some c) (hf : f doc = f c) :
    (upsert doc l).map f = l.map f := by
  induction l with
  | nil => simp at h
  | cons x xs ih =>
    by_cases hx : x.id = doc.id
    · have h1 : x = c := by simpa [List.find?_cons, hx] using h
      subst h1
      simp [upsert, hx, hf]
    · have h1 : xs.find? (fun x => x.id == doc.id) = some c := by
        simpa [List.find?_cons, hx] using h
      simp only [upsert, hx, if_false, List.map_cons]
      rw [ih h1]

theorem findComment_id {st : Store} {id : Nat} {c : Comment}
    (h : st.findComment id = some c) : c.id = id := by
  have := List.find?_some h
  simpa using this

theorem mem_upsert_self (doc : Comment) (l : List Comment) : doc ∈ upsert doc l :=
  List.mem_of_find?_eq_some (find_upsert_self doc l)

theorem map_updateById {β : Type} (g : Comment → β) (id : Nat) (f : Comment → Comment)
    (l : List Comment) (h : ∀ c, g (f c) = g c) :
    (updateById id f l).map g = l.map g := by
  induction l with
  | nil => rfl
  | cons x xs ih =>
    by_cases hx : x.id = id
    · simp [updateById, hx, h]
    · simp only [updateById, hx, if_false, List.map_cons, ih]

/-- Saving changes, besides the saved document itself, only `replyCount` fields: any
view of the comments that ignores `replyCount` sees the written document and nothing else. -/
theorem save_map {β : Type} (f : Comment → β)
    (hf : ∀ (c : Comment) (n : Int), f { c with replyCount := n } = f c) :
    ∀ (fuel : Nat) (st : Store) (doc : Comment) (st1 : Store),
      save fuel st doc = some st1 → st1.comments.map f = (upsert doc st.comments).map f := by
  intro fuel
  induction fuel with
  | zero => intro st doc st1 h; simp [save] at h
  | succ n ih =>
    intro st doc st1 h
    unfold save at h
    simp only at h
    split at h
    · split at h
      · injection h with h; subst h; rfl
      · rename_i pid hpid
        split at h
        · injection h with h; subst h; rfl
        · rename_i parent hfind
          have hid : parent.id = pid := findComment_id hfind
          rw [ih _ _ _ h]
          refine map_upsert_of_find f _ parent _ ?_ (hf parent _)
          have h2 := hfind
          unfold Store.findComment at h2
          rw [← hid] at h2
          exact h2
    · injection h with h; subst h; rfl

theorem findComment_core_congr {st1 st2 : Store}
    (h : st1.comments.map Comment.core = st2.comments.map Comment.core) (id : Nat) :
    (st1.findComment id).map Comment.core = (st2.findComment id).map Comment.core := by
  have h1 := congrArg (List.find? (fun c : Comment => c.id == id)) h
  rw [List.find?_map, List.find?_map] at h1
  exact h1

theorem core_replyCount (c : Comment) (n : Int) :
    Comment.core { c with replyCount := n } = Comment.core c := rfl

theorem core_depth {a b : Comment} (h : a.core = b.core) : a.depth = b.depth := by
  have h1 := congrArg Comment.depth h
  exact h1

theorem core_parentComment {a b : Comment} (h : a.core = b.core) :
    a.parentComment = b.parentComment := by
  have h1 := congrArg Comment.parentComment h
  exact h1

theorem core_status {a b : Comment} (h : a.core = b.core) : a.status = b.status := by
  have h1 := congrArg Comment.status h
  exact h1

theorem core_post {a b : Comment} (h : a.core = b.core) : a.post = b.post := by
  have h1 := congrArg Comment.post h
  exact h1

theorem core_id {a b : Comment} (h : a.core = b.core) : a.id = b.id := by
  have h1 := congrArg Comment.id h
  exact h1

/-- After a save that finished, every stored document other than by `replyCount` is what
it was right after the first write. -/
theorem save_findComment {fuel : Nat} {st st1 : Store} {doc : Comment}
    (h : save fuel st doc = some st1) (id : Nat) :
    (st1.findComment id).map Comment.core =
      ((st.writeComment doc).findComment id).map Comment.core :=
  findComment_core_congr (save_map Comment.core core_replyCount fuel st doc st1 h) id

/-- What a 201 response of `postComment` tells about the request and the store. -/
theorem postComment_created {fuel : Nat} {st st1 : Store} {user : User}
    {body : PostCommentBody} {newId : Nat} {comment : Comment}
    (h : postComment fuel st user body newId = some (Response.created comment, st1)) :
    contentValid body.content = true ∧
    (∃ post, st.findPost body.post = some post ∧ post.status = PostStatus.active) ∧
    (match body.parentComment with
     | none => comment.depth = 0
     | some pid => ∃ parent, st.findComment pid = some parent ∧
         parent.status = CommentStatus.active ∧ comment.depth = parent.depth + 1 ∧
         comment.depth ≤ 3) ∧
    comment.id = newId ∧ comment.post = body.post ∧
    comment.parentComment = body.parentComment ∧ comment.status = CommentStatus.active ∧
    comment.author = user.id ∧ comment.replyCount = 0 ∧
    st.findComment newId = none ∧ save fuel st comment = some st1 := by
  unfold postComment at h
  split at h
  · simp at h
  · rename_i hv
    split at h
    · simp at h
    · rename_i post hpost
      split at h
      · simp at h
      · rename_i hactive
        split at h
        · simp at h
        · rename_i depth hdepth
          simp only at h
          split at h
          · simp at h
          · rename_i hok
            split at h
            · simp at h
            · rename_i st2 hsave
              simp only [Option.some.injEq, Prod.mk.injEq, Response.created.injEq] at h
              obtain ⟨hc, hst⟩ := h
              subst hst
              subst hc
              simp only [Bool.not_eq_true, Bool.or_eq_true, not_or, Bool.not_eq_true,
                Option.isSome] at hok
              refine ⟨by simpa using hv, ⟨post, hpost, by simpa using hactive⟩, ?_,
                rfl, rfl, rfl, rfl, rfl, rfl, ?_, hsave⟩
              · unfold resolveDepth at hdepth
                split at hdepth
                · injection hdepth with hd
                  exact hd.symm
                · rename_i pid
                  split at hdepth
                  · simp at hdepth
                  · rename_i parent hparent
                    split at hdepth
                    · simp at hdepth
                    · rename_i hpa
                      split at hdepth
                      · simp at hdepth
                      · rename_i hle
                        injection hdepth with hd
                        refine ⟨parent, hparent, by simpa using hpa, hd.symm, ?_⟩
                        show depth ≤ 3
                        omega
              · obtain ⟨_, h2⟩ := hok
                cases hf : st.findComment newId with
                | none => rfl
                | some c => simp [hf] at h2

theorem findComment_write_self (st : Store) (doc : Comment) :
    (st.writeComment doc).findComment doc.id = some doc :=
  find_upsert_self doc st.comments

theorem findComment_write_ne (st : Store) (doc : Comment) (id : Nat) (h : id ≠ doc.id) :
    (st.writeComment doc).findComment id = st.findComment id :=
  find_upsert_ne doc st.comments id h

/-- The saved document is in the store after a save that finished, up to `replyCount`. -/
theorem save_findComment_self {fuel : Nat} {st st1 : Store} {doc : Comment}
    (h : save fuel st doc = some st1) :
    ∃ stored, st1.findComment doc.id = some stored ∧ stored.core = doc.core := by
  have h1 := save_findComment h doc.id
  have h2 : (st.writeComment doc).findComment doc.id = some doc := find_upsert_self doc _
  rw [h2] at h1
  cases hs : st1.findComment doc.id with
  | none => simp [hs] at h1
  | some stored =>
    refine ⟨stored, rfl, ?_⟩
    simpa [hs] using h1

/-- A stored document with another id is, up to `replyCount`, untouched by a save. -/
theorem save_findComment_other {fuel : Nat} {st st1 : Store} {doc : Comment}
    (h : save fuel st doc = some st1) {id : Nat} {c : Comment} (hid : id ≠ doc.id)
    (hc : st.findComment id = some c) :
    ∃ stored, st1.findComment id = some stored ∧ stored.core = c.core := by
  have h1 := save_findComment h id
  have h2 : (st.writeComment doc).findComment id = some c := by
    rw [findComment_write_ne st doc id hid]
    exact hc
  rw [h2] at h1
  cases hs : st1.findComment id with
  | none => simp [hs] at h1
  | some stored =>
    refine ⟨stored, rfl, ?_⟩
    simpa [hs] using h1

theorem countActiveChildren_congr {st1 st2 : Store}
    (h : st1.comments.map Comment.core = st2.comments.map Comment.core) (id : Nat) :
    st1.countActiveChildren id = st2.countActiveChildren id := by
  have key : ∀ l : List Comment,
      (l.filter (fun c => c.parentComment == some id && c.status == CommentStatus.active)).length
        = ((l.map Comment.core).filter
            (fun c => c.parentComment == some id && c.status == CommentStatus.active)).length := by
    intro l
    rw [List.filter_map, List.length_map]
    rfl
  unfold Store.countActiveChildren
  rw [key st1.comments, key st2.comments, h]

theorem replyOk_write_parent (st : Store) (parent : Comment) (x : Nat)
    (hfind : st.findComment parent.id = some parent)
    (hx : x = parent.id ∨ replyOk st x) :
    replyOk (st.writeComment { parent with replyCount := st.countActiveChildren parent.id })
      x := by
  have hmap : (st.writeComment
      { parent with replyCount := st.countActiveChildren parent.id }).comments.map Comment.core
      = st.comments.map Comment.core :=
    map_upsert_of_find Comment.core _ parent _ hfind rfl
  have hcount := countActiveChildren_congr hmap
  by_cases hxp : x = parent.id
  · subst hxp
    exact ⟨_, findComment_write_self st
      { parent with replyCount := st.countActiveChildren parent.id }, by rw [hcount]⟩
  · rcases hx with hx | ⟨c, hc, hr⟩
    · exact absurd hx hxp
    · refine ⟨c, ?_, ?_⟩
      · have := findComment_write_ne st
          { parent with replyCount := st.countActiveChildren parent.id } x hxp
        rw [this]
        exact hc
      · rw [hcount]; exact hr

/-- A save that finished keeps every correct `replyCount` correct. -/
theorem save_replyOk : ∀ (fuel : Nat) (st : Store) (doc : Comment) (st1 : Store) (x : Nat),
    save fuel st doc = some st1 → replyOk (st.writeComment doc) x → replyOk st1 x := by
  intro fuel
  induction fuel with
  | zero => intro st doc st1 x h; simp [save] at h
  | succ n ih =>
    intro st doc st1 x h hx
    unfold save at h
    simp only at h
    split at h
    · split at h
      · injection h with h; subst h; exact hx
      · rename_i pid hpid
        split at h
        · injection h with h; subst h; exact hx
        · rename_i parent hfind
          have hid : parent.id = pid := findComment_id hfind
          rw [← hid] at hfind
          exact ih _ _ _ x h (replyOk_write_parent _ parent x hfind (Or.inr hx))
    · injection h with h; subst h; exact hx

/-- Saving an active reply whose parent is stored leaves the parent with the live count. -/
theorem save_parent_replyOk {fuel : Nat} {st st1 : Store} {doc parent : Comment} {pid : Nat}
    (h : save fuel st doc = some st1) (hact : doc.status = CommentStatus.active)
    (hp : doc.parentComment = some pid)
    (hfind : (st.writeComment doc).findComment pid = some parent) : replyOk st1 pid := by
  cases fuel with
  | zero => simp [save] at h
  | succ n =>
    unfold save at h
    simp only [hact, if_true, hp] at h
    have hfind2 : ((st.writeComment doc).incCommentCount doc.post 1).findComment pid
        = some parent := hfind
    simp only [hfind2] at h
    have hid : parent.id = pid := findComment_id hfind
    rw [← hid] at hfind2 ⊢
    exact save_replyOk _ _ _ _ _ h (replyOk_write_parent _ parent parent.id hfind2 (Or.inl rfl))

/-! ## Comment creation -/

/-- C1: after a successful `postComment` the stored comment has depth 0 when the request
names no parent and `parent.depth + 1` when it does, for the parent as stored before and
after the call, whatever `depth` field the request body carries. -/
theorem postComment_depth_server_side (fuel : Nat) (st st1 : Store) (user : User)
    (body : PostCommentBody) (newId : Nat) (comment : Comment)
    (h : postComment fuel st user body newId = some (Response.created comment, st1)) :
    ∃ stored, st1.findComment newId = some stored ∧
      match body.parentComment with
      | none => stored.depth = 0
      | some pid => ∃ parent parent1, st.findComment pid = some parent ∧
          st1.findComment pid = some parent1 ∧ parent1.depth = parent.depth ∧
          stored.depth = parent.depth + 1 := by
  obtain ⟨_, _, hdepth, hid, _, _, _, _, _, hnew, hsave⟩ := postComment_created h
  obtain ⟨stored, hstored, hcore⟩ := save_findComment_self hsave
  rw [hid] at hstored
  have hd : stored.depth = comment.depth := core_depth hcore
  refine ⟨stored, hstored, ?_⟩
  split
  · rename_i hnone
    rw [hnone] at hdepth
    rw [hd]; exact hdepth
  · rename_i pid hsome
    rw [hsome] at hdepth
    obtain ⟨parent, hparent, _, hpd, _⟩ := hdepth
    have hne : pid ≠ comment.id := by
      intro e
      rw [e, hid, hnew] at hparent
      exact Option.noConfusion hparent
    obtain ⟨parent1, hp1, hc1⟩ := save_findComment_other hsave hne hparent
    exact ⟨parent, parent1, hparent, hp1, core_depth hc1, by rw [hd]; exact hpd⟩

theorem postComment_depth_server_side_witness :
    postComment 5 storeA ⟨2, "user"⟩ (mkBody 1 (some 10) (some 7)) 11
      = some (Response.created replyB, storeAReplied) ∧
    ∃ stored, storeAReplied.findComment 11 = some stored ∧
      ∃ parent parent1, storeA.findComment 10 = some parent ∧
        storeAReplied.findComment 10 = some parent1 ∧ parent1.depth = parent.depth ∧
        stored.depth = parent.depth + 1 :=
  ⟨by decide,
   postComment_depth_server_side 5 storeA storeAReplied ⟨2, "user"⟩
     (mkBody 1 (some 10) (some 7)) 11 replyB (by decide)⟩

/-- C3: with an active post and an active parent at depth 3, `postComment` naming that
parent returns an error and leaves the whole store (comments, `commentCount`, every
`replyCount`) as it was; when the content passes validation the error is
400 MAX_DEPTH_EXCEEDED. -/
theorem postComment_max_depth (fuel : Nat) (st : Store) (user : User)
    (body : PostCommentBody) (newId pid : Nat) (post : Post) (parent : Comment)
    (hpost : st.findPost body.post = some post) (hpa : post.status = PostStatus.active)
    (hp : body.parentComment = some pid) (hparent : st.findComment pid = some parent)
    (hact : parent.status = CommentStatus.active) (hdepth : parent.depth = 3) :
    (∃ status code,
      postComment fuel st user body newId = some (Response.error status code, st)) ∧
    (contentValid body.content = true →
      postComment fuel st user body newId
        = some (Response.error 400 Code.MAX_DEPTH_EXCEEDED, st)) := by
  have hr : resolveDepth st body.parentComment = Except.error (400, Code.MAX_DEPTH_EXCEEDED) := by
    simp [resolveDepth, hp, hparent, hact, hdepth]
  by_cases hv : contentValid body.content = true
  · have : postComment fuel st user body newId
        = some (Response.error 400 Code.MAX_DEPTH_EXCEEDED, st) := by
      simp [postComment, hv, hpost, hpa, hr]
    exact ⟨⟨_, _, this⟩, fun _ => this⟩
  · refine ⟨⟨400, Code.VALIDATION_ERROR, ?_⟩, fun h => absurd h hv⟩
    simp [postComment, hv]

theorem postComment_max_depth_witness :
    (∃ status code,
      postComment 0 storeDeep ⟨2, "user"⟩ (mkBody 1 (some 4) none) 5
        = some (Response.error status code, storeDeep)) ∧
    (contentValid (mkBody 1 (some 4) none).content = true →
      postComment 0 storeDeep ⟨2, "user"⟩ (mkBody 1 (some 4) none) 5
        = some (Response.error 400 Code.MAX_DEPTH_EXCEEDED, storeDeep)) :=
  postComment_max_depth 0 storeDeep ⟨2, "user"⟩ (mkBody 1 (some 4) none) 5 4
    { id := 1, status := PostStatus.active, commentCount := 4 }
    (mkComment 4 1 1 (some 3) 3 CommentStatus.active 0)
    (by decide) (by decide) (by decide) (by decide) (by decide) (by decide)

/-- C4: a successful `postComment` implies that the post exists and is active and that a
named parent exists and is active; whenever that fails the call returns an error
response and the store is unchanged. -/
theorem postComment_requires_active_targets (fuel : Nat) (st : Store) (user : User)
    (body : PostCommentBody) (newId : Nat) :
    (∀ comment st1,
      postComment fuel st user body newId = some (Response.created comment, st1) →
      postTargetsOk st body = true) ∧
    (postTargetsOk st body = false →
      ∃ status code,
        postComment fuel st user body newId = some (Response.error status code, st)) := by
  constructor
  · intro comment st1 h
    obtain ⟨_, ⟨post, hpost, hpa⟩, hdepth, _⟩ := postComment_created h
    unfold postTargetsOk
    rw [hpost]
    cases hp : body.parentComment with
    | none => simp [hpa]
    | some pid =>
      rw [hp] at hdepth
      obtain ⟨parent, hparent, hact, _⟩ := hdepth
      simp [hpa, hparent, hact]
  · intro hbad
    by_cases hv : contentValid body.content = true
    · unfold postTargetsOk at hbad
      cases hpost : st.findPost body.post with
      | none => exact ⟨404, Code.POST_NOT_FOUND, by simp [postComment, hv, hpost]⟩
      | some post =>
        by_cases hpa : post.status = PostStatus.active
        · rw [hpost] at hbad
          cases hp : body.parentComment with
          | none => simp [hpa, hp] at hbad
          | some pid =>
            rw [hp] at hbad
            cases hparent : st.findComment pid with
            | none =>
              exact ⟨404, Code.PARENT_COMMENT_NOT_FOUND,
                by simp [postComment, hv, hpost, hpa, resolveDepth, hp, hparent]⟩
            | some parent =>
              have hna : parent.status ≠ CommentStatus.active := by
                simpa [hpa, hparent] using hbad
              exact ⟨404, Code.PARENT_COMMENT_NOT_FOUND,
                by simp [postComment, hv, hpost, hpa, resolveDepth, hp, hparent, hna]⟩
        · exact ⟨404, Code.POST_NOT_FOUND, by simp [postComment, hv, hpost, hpa]⟩
    · exact ⟨400, Code.VALIDATION_ERROR, by simp [postComment, hv]⟩

theorem postComment_requires_active_targets_witness :
    postTargetsOk storeA (mkBody 1 (some 10) none) = true ∧
    postTargetsOk storeClosed (mkBody 1 none none) = false ∧
    ∃ status code,
      postComment 5 storeClosed ⟨2, "user"⟩ (mkBody 1 none none) 11
        = some (Response.error status code, storeClosed) :=
  ⟨(postComment_requires_active_targets 5 storeA ⟨2, "user"⟩
      (mkBody 1 (some 10) none) 11).1 replyB storeAReplied (by decide),
   by decide,
   (postComment_requires_active_targets 5 storeClosed ⟨2, "user"⟩
      (mkBody 1 none none) 11).2 (by decide)⟩

/-- C6: after a successful `postComment` that names a parent, the stored parent's
`replyCount` equals the number of stored comments whose `parentComment` is that parent
and whose status is active, the new reply being one of them, whatever `replyCount` the
parent had before. -/
theorem postComment_parent_replyCount (fuel : Nat) (st st1 : Store) (user : User)
    (body : PostCommentBody) (newId pid : Nat) (comment : Comment)
    (h : postComment fuel st user body newId = some (Response.created comment, st1))
    (hp : body.parentComment = some pid) :
    ∃ parent reply, st1.findComment pid = some parent ∧
      parent.replyCount = st1.countActiveChildren pid ∧
      st1.findComment newId = some reply ∧ reply.parentComment = some pid ∧
      reply.status = CommentStatus.active := by
  obtain ⟨_, _, hdepth, hid, _, hpc, hact, _, _, hnew, hsave⟩ := postComment_created h
  rw [hp] at hdepth hpc
  obtain ⟨parent, hparent, _, _, _⟩ := hdepth
  have hne : pid ≠ comment.id := by
    intro e
    rw [e, hid, hnew] at hparent
    exact Option.noConfusion hparent
  have hfind : (st.writeComment comment).findComment pid = some parent := by
    rw [findComment_write_ne st comment pid hne]; exact hparent
  obtain ⟨p1, hp1, hcount⟩ := save_parent_replyOk hsave hact hpc hfind
  obtain ⟨stored, hstored, hcore⟩ := save_findComment_self hsave
  rw [hid] at hstored
  refine ⟨p1, stored, hp1, hcount, hstored, ?_, ?_⟩
  · rw [← hpc]; exact core_parentComment hcore
  · rw [← hact]; exact core_status hcore

theorem postComment_parent_replyCount_witness :
    ∃ parent reply, storeAReplied.findComment 10 = some parent ∧
      parent.replyCount = storeAReplied.countActiveChildren 10 ∧
      storeAReplied.findComment 11 = some reply ∧ reply.parentComment = some 10 ∧
      reply.status = CommentStatus.active :=
  postComment_parent_replyCount 5 storeA storeAReplied ⟨2, "user"⟩
    (mkBody 1 (some 10) (some 7)) 11 10 replyB (by decide) (by decide)

/-! ## The depth invariant -/

theorem depthOk_iff (st : Store) (c : Comment) :
    depthOk st c = true ↔
      c.depth ≤ 3 ∧
      (match c.parentComment with
       | none => c.depth = 0
       | some pid => ∃ parent, st.findComment pid = some parent ∧
           c.depth = parent.depth + 1) := by
  unfold depthOk
  cases hp : c.parentComment with
  | none => simp
  | some pid =>
    cases hf : st.findComment pid with
    | none => simp [hf]
    | some parent => simp [hf]

theorem findComment_skel_congr {st1 st2 : Store}
    (h : st1.comments.map Comment.skel = st2.comments.map Comment.skel) (id : Nat) :
    (st1.findComment id).map Comment.skel = (st2.findComment id).map Comment.skel := by
  have h1 := congrArg (List.find? (fun s : Nat × Option Nat × Int => s.1 == id)) h
  rw [List.find?_map, List.find?_map] at h1
  exact h1

theorem skel_replyCount (c : Comment) (n : Int) :
    Comment.skel { c with replyCount := n } = Comment.skel c := rfl

/-- The depth invariant only looks at ids, parent references and depths. -/
theorem DepthInv_congr {st1 st2 : Store}
    (h : st1.comments.map Comment.skel = st2.comments.map Comment.skel)
    (hinv : DepthInv st2) : DepthInv st1 := by
  intro c hc
  have hmem : c.skel ∈ st2.comments.map Comment.skel := by
    rw [← h]; exact List.mem_map_of_mem _ hc
  obtain ⟨c2, hc2, hskel⟩ := List.mem_map.mp hmem
  have hd : c2.depth = c.depth := by
    have := congrArg (fun s : Nat × Option Nat × Int => s.2.2) hskel
    exact this
  have hpc : c2.parentComment = c.parentComment := by
    have := congrArg (fun s : Nat × Option Nat × Int => s.2.1) hskel
    exact this
  have h2 := (depthOk_iff st2 c2).mp (hinv c2 hc2)
  rw [depthOk_iff]
  rw [hd, hpc] at h2
  refine ⟨h2.1, ?_⟩
  have h3 := h2.2
  cases hp : c.parentComment with
  | none => rw [hp] at h3; exact h3
  | some pid =>
    rw [hp] at h3
    obtain ⟨parent2, hparent2, hdep⟩ := h3
    have hf := findComment_skel_congr h pid
    rw [hparent2] at hf
    cases hf1 : st1.findComment pid with
    | none => simp [hf1] at hf
    | some parent1 =>
      rw [hf1] at hf
      have hsk : parent1.skel = parent2.skel := by simpa using hf
      have hpd : parent1.depth = parent2.depth := by
        have := congrArg (fun s : Nat × Option Nat × Int => s.2.2) hsk
        exact this
      exact ⟨parent1, hf1, by rw [hpd]; exact hdep⟩

/-- Appending a document that satisfies the depth rule keeps the invariant. -/
theorem DepthInv_append (st : Store) (doc : Comment) (hinv : DepthInv st)
    (hdoc : depthOk st doc = true) :
    DepthInv { st with comments := st.comments ++ [doc] } := by
  have hfind : ∀ pid parent, st.findComment pid = some parent →
      Store.findComment { st with comments := st.comments ++ [doc] } pid = some parent := by
    intro pid parent hp
    unfold Store.findComment at hp ⊢
    simp only [List.find?_append, hp, Option.or_some]
  have hlift : ∀ c, depthOk st c = true →
      depthOk { st with comments := st.comments ++ [doc] } c = true := by
    intro c hc
    rw [depthOk_iff] at hc ⊢
    refine ⟨hc.1, ?_⟩
    have h3 := hc.2
    cases hp : c.parentComment with
    | none => rw [hp] at h3; exact h3
    | some pid =>
      rw [hp] at h3
      obtain ⟨parent, hparent, hdep⟩ := h3
      exact ⟨parent, hfind pid parent hparent, hdep⟩
  intro c hc
  have hc1 : c ∈ st.comments ++ [doc] := hc
  rcases List.mem_append.mp hc1 with h | h
  · exact hlift c (hinv c h)
  · have : c = doc := by simpa using h
    rw [this]; exact hlift doc hdoc

/-- Under the depth invariant no stored depth is negative. -/
theorem DepthInv_nonneg (st : Store) (hinv : DepthInv st) (c : Comment)
    (hc : c ∈ st.comments) : 0 ≤ c.depth := by
  have hne : st.comments.toFinset.Nonempty := ⟨c, List.mem_toFinset.mpr hc⟩
  obtain ⟨m, hm, hmin⟩ := Finset.exists_min_image st.comments.toFinset Comment.depth hne
  have hm1 : m ∈ st.comments := List.mem_toFinset.mp hm
  have h2 := (depthOk_iff st m).mp (hinv m hm1)
  have hle : m.depth ≤ c.depth := hmin c (List.mem_toFinset.mpr hc)
  have h3 := h2.2
  cases hp : m.parentComment with
  | none => rw [hp] at h3; omega
  | some pid =>
    rw [hp] at h3
    obtain ⟨parent, hparent, hdep⟩ := h3
    have hpm : parent ∈ st.comments := List.mem_of_find?_eq_some hparent
    have := hmin parent (List.mem_toFinset.mpr hpm)
    omega

/-- Under the depth invariant a save finishes within `depth + 1` saves. -/
theorem save_terminates : ∀ (fuel : Nat) (st : Store) (doc : Comment),
    DepthInv (st.writeComment doc) → doc.depth < fuel → ∃ st1, save fuel st doc = some st1 := by
  intro fuel
  induction fuel with
  | zero =>
    intro st doc hinv hlt
    have := DepthInv_nonneg _ hinv doc (mem_upsert_self doc st.comments)
    simp at hlt
    omega
  | succ n ih =>
    intro st doc hinv hlt
    unfold save
    simp only
    split
    · split
      · exact ⟨_, rfl⟩
      · rename_i pid hpid
        split
        · exact ⟨_, rfl⟩
        · rename_i parent hfind
          have hid : parent.id = pid := findComment_id hfind
          have hfind1 : (st.writeComment doc).findComment pid = some parent := hfind
          have hdoc := (depthOk_iff _ doc).mp (hinv doc (mem_upsert_self doc st.comments))
          have h3 := hdoc.2
          rw [hpid] at h3
          obtain ⟨p, hp, hdep⟩ := h3
          rw [hfind1] at hp
          have hpe : parent = p := by injection hp
          subst hpe
          apply ih
          · refine @DepthInv_congr _ (st.writeComment doc) ?_ hinv
            refine map_upsert_of_find Comment.skel _ parent _ ?_ rfl
            have h2 := hfind1
            rw [← hid] at h2
            exact h2
          · show parent.depth < (n : Int)
            push_cast at hlt
            omega
    · exact ⟨_, rfl⟩

theorem skel_toggleLike (c : Comment) (u : Nat) : (c.toggleLike u).skel = c.skel := by
  unfold Comment.toggleLike
  split <;> rfl

theorem skel_addReport (c : Comment) (u : Nat) (reason : String) (d : Option String) :
    (c.addReport u reason d).skel = c.skel := by
  unfold Comment.addReport
  split
  · rfl
  · simp only
    split <;> rfl

theorem resolveDepth_ok {st : Store} {pc : Option Nat} {d : Int}
    (h : resolveDepth st pc = Except.ok d) :
    (pc = none → d = 0) ∧
    (∀ pid, pc = some pid → ∃ parent, st.findComment pid = some parent ∧
        parent.status = CommentStatus.active ∧ d = parent.depth + 1 ∧ d ≤ 3) := by
  cases pc with
  | none =>
    refine ⟨fun _ => ?_, fun pid hp => Option.noConfusion hp⟩
    simp only [resolveDepth] at h
    injection h with hd
    exact hd.symm
  | some pid =>
    refine ⟨fun hp => Option.noConfusion hp, fun q hq => ?_⟩
    injection hq with hq
    subst hq
    simp only [resolveDepth] at h
    split at h
    · simp at h
    · rename_i parent hparent
      split at h
      · simp at h
      · rename_i hpa
        split at h
        · simp at h
        · rename_i hle
          injection h with hd
          refine ⟨parent, hparent, by simpa using hpa, hd.symm, ?_⟩
          omega

/-- The three ways `postComment` can go: an early error return that leaves the store
alone, or the save of the freshly built document under an unused id. -/
theorem postComment_cases (fuel : Nat) (st : Store) (user : User) (body : PostCommentBody)
    (newId : Nat) :
    (∃ s c, postComment fuel st user body newId = some (Response.error s c, st)) ∨
    (∃ depth, resolveDepth st body.parentComment = Except.ok depth ∧
      st.findComment newId = none ∧
      postComment fuel st user body newId
        = (save fuel st (commentData user body newId depth)).map
            (fun st1 => (Response.created (commentData user body newId depth), st1))) := by
  unfold postComment
  split
  · exact Or.inl ⟨_, _, rfl⟩
  · split
    · exact Or.inl ⟨_, _, rfl⟩
    · split
      · exact Or.inl ⟨_, _, rfl⟩
      · split
        · exact Or.inl ⟨_, _, rfl⟩
        · rename_i depth hdepth
          simp only
          split
          · exact Or.inl ⟨_, _, rfl⟩
          · rename_i hok
            refine Or.inr ⟨depth, hdepth, ?_, ?_⟩
            · cases hf : st.findComment newId with
              | none => rfl
              | some c => simp [hf] at hok
            · cases save fuel st (commentData user body newId depth) <;> rfl

/-- The two ways the like route can go. -/
theorem toggleLike_cases (fuel : Nat) (st : Store) (user : User) (id : Nat) :
    toggleLike fuel st user id = some (Response.error 404 Code.COMMENT_NOT_FOUND, st) ∨
    (∃ comment, st.findComment id = some comment ∧ comment.status = CommentStatus.active ∧
      toggleLike fuel st user id
        = (save fuel st (comment.toggleLike user.id)).map
            (fun st1 =>
              (Response.liked
                ((comment.toggleLike user.id).likes.any (fun like => like.user == user.id))
                (comment.toggleLike user.id).likeCount, st1))) := by
  unfold toggleLike
  split
  · exact Or.inl rfl
  · rename_i comment hfind
    split
    · exact Or.inl rfl
    · rename_i hact
      refine Or.inr ⟨comment, hfind, by simpa using hact, ?_⟩
      simp only
      cases save fuel st (comment.toggleLike user.id) <;> rfl

/-- The ways the report route can go. -/
theorem reportComment_cases (fuel : Nat) (st : Store) (user : User) (id : Nat)
    (body : ReportBody) :
    (∃ s c, reportComment fuel st user id body = some (Response.error s c, st)) ∨
    (∃ comment, st.findComment id = some comment ∧ comment.status = CommentStatus.active ∧
      comment.author ≠ user.id ∧
      reportComment fuel st user id body
        = (save fuel st (comment.addReport user.id body.reason body.description)).map
            (fun st1 => (Response.commentReported, st1))) := by
  unfold reportComment
  split
  · exact Or.inl ⟨_, _, rfl⟩
  · split
    · exact Or.inl ⟨_, _, rfl⟩
    · rename_i comment hfind
      split
      · exact Or.inl ⟨_, _, rfl⟩
      · rename_i hact
        split
        · exact Or.inl ⟨_, _, rfl⟩
        · rename_i hauth
          refine Or.inr ⟨comment, hfind, by simpa using hact, hauth, ?_⟩
          cases save fuel st (comment.addReport user.id body.reason body.description) <;> rfl

/-- Saving a changed copy of a stored document, its id, parent and depth kept, keeps the
depth invariant and finishes within four saves. -/
theorem save_existing_DepthInv {st : Store} {doc c : Comment}
    (hfind : st.findComment c.id = some c) (hskel : doc.skel = c.skel)
    (hinv : DepthInv st) :
    (∀ fuel st1, save fuel st doc = some st1 → DepthInv st1) ∧
    (∀ fuel, 4 ≤ fuel → ∃ st1, save fuel st doc = some st1) := by
  have hid : doc.id = c.id := by
    have := congrArg (fun s : Nat × Option Nat × Int => s.1) hskel
    exact this
  have hd : doc.depth = c.depth := by
    have := congrArg (fun s : Nat × Option Nat × Int => s.2.2) hskel
    exact this
  have hmap : (st.writeComment doc).comments.map Comment.skel
      = st.comments.map Comment.skel := by
    refine map_upsert_of_find Comment.skel doc c _ ?_ hskel
    rw [hid]; exact hfind
  have hinv1 : DepthInv (st.writeComment doc) := DepthInv_congr hmap hinv
  constructor
  · intro fuel st1 h
    have h1 := save_map Comment.skel skel_replyCount fuel st doc st1 h
    exact DepthInv_congr h1 hinv1
  · intro fuel hfuel
    have hc := (depthOk_iff st c).mp (hinv c (List.mem_of_find?_eq_some hfind))
    apply save_terminates fuel st doc hinv1
    rw [hd]
    have := hc.1
    omega

/-- Saving a new document that satisfies the depth rule keeps the depth invariant and
finishes within four saves. -/
theorem save_new_DepthInv {st : Store} {doc : Comment}
    (hnew : st.findComment doc.id = none) (hdoc : depthOk st doc = true)
    (hinv : DepthInv st) :
    (∀ fuel st1, save fuel st doc = some st1 → DepthInv st1) ∧
    (∀ fuel, 4 ≤ fuel → ∃ st1, save fuel st doc = some st1) := by
  have hw : st.writeComment doc = { st with comments := st.comments ++ [doc] } := by
    unfold Store.writeComment
    rw [upsert_eq_append doc st.comments hnew]
  have hinv1 : DepthInv (st.writeComment doc) := by
    rw [hw]; exact DepthInv_append st doc hinv hdoc
  constructor
  · intro fuel st1 h
    have h1 := save_map Comment.skel skel_replyCount fuel st doc st1 h
    exact DepthInv_congr h1 hinv1
  · intro fuel hfuel
    apply save_terminates fuel st doc hinv1
    have := ((depthOk_iff st doc).mp hdoc).1
    omega

theorem depthOk_commentData {st : Store} {user : User} {body : PostCommentBody}
    {newId : Nat} {depth : Int}
    (h : resolveDepth st body.parentComment = Except.ok depth) :
    depthOk st (commentData user body newId depth) = true := by
  have h1 := resolveDepth_ok h
  rw [depthOk_iff]
  show depth ≤ 3 ∧
    (match body.parentComment with
     | none => depth = 0
     | some pid => ∃ parent, st.findComment pid = some parent ∧ depth = parent.depth + 1)
  cases hp : body.parentComment with
  | none =>
    have := h1.1 hp
    exact ⟨by omega, this⟩
  | some pid =>
    obtain ⟨parent, hparent, _, hd, hle⟩ := h1.2 pid hp
    exact ⟨hle, parent, hparent, hd⟩

theorem DepthInv_updateById (st : Store) (id : Nat) (f : Comment → Comment)
    (hf : ∀ c, (f c).skel = c.skel) (hinv : DepthInv st) :
    DepthInv { st with comments := updateById id f st.comments } :=
  @DepthInv_congr _ st (map_updateById Comment.skel id f st.comments hf) hinv

/-- C2: if every stored comment satisfies the depth rule (depth at most 3, depth 0 for a
root, parent stored and `depth = parent.depth + 1` for a reply), then so does every stored
comment after any one request of the engine, whatever its response; and with fuel for
four saves every request does produce a response. -/
theorem depth_invariant_preserved (st : Store) (op : Op) (hinv : DepthInv st) :
    (∀ fuel r st1, step fuel st op = some (r, st1) → DepthInv st1) ∧
    (∀ fuel, 4 ≤ fuel → ∃ r st1, step fuel st op = some (r, st1)) := by
  cases op with
  | postComment user body newId =>
    constructor
    · intro fuel r st1 h
      have h1 : postComment fuel st user body newId = some (r, st1) := h
      rcases postComment_cases fuel st user body newId with ⟨s, c, he⟩ | ⟨d, hd, hn, he⟩
      · rw [he] at h1
        have : st = st1 := by
          injection h1 with h1
          exact (Prod.mk.inj h1).2
        rw [← this]; exact hinv
      · rw [he] at h1
        have hsv := @save_new_DepthInv st (commentData user body newId d)
          hn (depthOk_commentData hd) hinv
        cases hs : save fuel st (commentData user body newId d) with
        | none => simp [hs] at h1
        | some st2 =>
          simp only [hs, Option.map_some', Option.some.injEq, Prod.mk.injEq] at h1
          rw [← h1.2]; exact hsv.1 fuel st2 hs
    · intro fuel hfuel
      rcases postComment_cases fuel st user body newId with ⟨s, c, he⟩ | ⟨d, hd, hn, he⟩
      · exact ⟨_, _, he⟩
      · obtain ⟨st2, hs⟩ := (@save_new_DepthInv st (commentData user body newId d)
          hn (depthOk_commentData hd) hinv).2 fuel hfuel
        exact ⟨_, st2, by show postComment fuel st user body newId = _; rw [he, hs]; rfl⟩
  | editComment user id body now =>
    constructor
    · intro fuel r st1 h
      have h1 : some (editComment st user id body now) = some (r, st1) := h
      injection h1 with h1
      have h2 : (editComment st user id body now).2 = st1 := by rw [h1]
      rw [← h2]
      unfold editComment
      split
      · exact hinv
      · split
        · exact hinv
        · simp only
          split
          · exact hinv
          · exact DepthInv_updateById st id _ (fun _ => rfl) hinv
    · intro fuel _
      exact ⟨_, _, rfl⟩
  | deleteComment user id =>
    constructor
    · intro fuel r st1 h
      have h1 : some (deleteComment st user id) = some (r, st1) := h
      injection h1 with h1
      have h2 : (deleteComment st user id).2 = st1 := by rw [h1]
      rw [← h2]
      unfold deleteComment
      split
      · exact hinv
      · exact DepthInv_updateById st id _ (fun _ => rfl) hinv
    · intro fuel _
      exact ⟨_, _, rfl⟩
  | toggleLike user id =>
    constructor
    · intro fuel r st1 h
      have h1 : toggleLike fuel st user id = some (r, st1) := h
      rcases toggleLike_cases fuel st user id with he | ⟨comment, hfind, _, he⟩
      · rw [he] at h1
        have : st = st1 := by
          injection h1 with h1
          exact (Prod.mk.inj h1).2
        rw [← this]; exact hinv
      · rw [he] at h1
        have hid := findComment_id hfind
        rw [← hid] at hfind
        have hsv := @save_existing_DepthInv st (comment.toggleLike user.id) comment hfind
          (skel_toggleLike comment user.id) hinv
        cases hs : save fuel st (comment.toggleLike user.id) with
        | none => simp [hs] at h1
        | some st2 =>
          simp only [hs, Option.map_some', Option.some.injEq, Prod.mk.injEq] at h1
          rw [← h1.2]; exact hsv.1 fuel st2 hs
    · intro fuel hfuel
      rcases toggleLike_cases fuel st user id with he | ⟨comment, hfind, _, he⟩
      · exact ⟨_, _, he⟩
      · have hid := findComment_id hfind
        rw [← hid] at hfind
        obtain ⟨st2, hs⟩ := (@save_existing_DepthInv st (comment.toggleLike user.id) comment
          hfind (skel_toggleLike comment user.id) hinv).2 fuel hfuel
        exact ⟨_, st2, by show toggleLike fuel st user id = _; rw [he, hs]; rfl⟩
  | reportComment user id body =>
    constructor
    · intro fuel r st1 h
      have h1 : reportComment fuel st user id body = some (r, st1) := h
      rcases reportComment_cases fuel st user id body with ⟨s, c, he⟩ | ⟨comment, hfind, _, _, he⟩
      · rw [he] at h1
        have : st = st1 := by
          injection h1 with h1
          exact (Prod.mk.inj h1).2
        rw [← this]; exact hinv
      · rw [he] at h1
        have hid := findComment_id hfind
        rw [← hid] at hfind
        have hsv := @save_existing_DepthInv st
          (comment.addReport user.id body.reason body.description) comment hfind
          (skel_addReport comment user.id body.reason body.description) hinv
        cases hs : save fuel st (comment.addReport user.id body.reason body.description) with
        | none => simp [hs] at h1
        | some st2 =>
          simp only [hs, Option.map_some', Option.some.injEq, Prod.mk.injEq] at h1
          rw [← h1.2]; exact hsv.1 fuel st2 hs
    · intro fuel hfuel
      rcases reportComment_cases fuel st user id body with ⟨s, c, he⟩ | ⟨comment, hfind, _, _, he⟩
      · exact ⟨_, _, he⟩
      · have hid := findComment_id hfind
        rw [← hid] at hfind
        obtain ⟨st2, hs⟩ := (@save_existing_DepthInv st
          (comment.addReport user.id body.reason body.description) comment hfind
          (skel_addReport comment user.id body.reason body.description) hinv).2 fuel hfuel
        exact ⟨_, st2, by show reportComment fuel st user id body = _; rw [he, hs]; rfl⟩

theorem depth_invariant_preserved_witness :
    DepthInv storeA ∧ DepthInv storeAReplied ∧
    ∃ r st1, step 4 storeA (Op.toggleLike ⟨2, "user"⟩ 10) = some (r, st1) :=
  ⟨by decide,
   (depth_invariant_preserved storeA
      (Op.postComment ⟨2, "user"⟩ (mkBody 1 (some 10) (some 7)) 11) (by decide)).1
      5 (Response.created replyB) storeAReplied (by decide),
   (depth_invariant_preserved storeA (Op.toggleLike ⟨2, "user"⟩ 10) (by decide)).2 4
      (Nat.le_refl 4)⟩

/-! ## Soft deletion -/

theorem updateById_split (id : Nat) (f : Comment → Comment) (l : List Comment) (c : Comment)
    (h : l.find? (fun x => x.id == id) = some c) :
    ∃ pre post, l = pre ++ c :: post ∧ (∀ x ∈ pre, x.id ≠ id) ∧
      updateById id f l = pre ++ f c :: post := by
  induction l with
  | nil => simp at h
  | cons x xs ih =>
    by_cases hx : x.id = id
    · have h1 : x = c := by simpa [List.find?_cons, hx] using h
      subst h1
      exact ⟨[], xs, rfl, by simp, by simp [updateById, hx]⟩
    · have h1 : xs.find? (fun x => x.id == id) = some c := by
        simpa [List.find?_cons, hx] using h
      obtain ⟨pre, post, hl, hpre, hu⟩ := ih h1
      refine ⟨x :: pre, post, by rw [hl]; rfl, ?_, ?_⟩
      · intro y hy
        rcases List.mem_cons.mp hy with e | e
        · rw [e]; exact hx
        · exact hpre y e
      · simp only [updateById, hx, if_false, hu, List.cons_append]

theorem find_updateById_self (id : Nat) (f : Comment → Comment) (l : List Comment)
    (c : Comment) (h : l.find? (fun x => x.id == id) = some c) (hf : (f c).id = id) :
    (updateById id f l).find? (fun x => x.id == id) = some (f c) := by
  induction l with
  | nil => simp at h
  | cons x xs ih =>
    by_cases hx : x.id = id
    · have h1 : x = c := by simpa [List.find?_cons, hx] using h
      subst h1
      simp [updateById, hx, List.find?_cons, hf]
    · have h1 : xs.find? (fun x => x.id == id) = some c := by
        simpa [List.find?_cons, hx] using h
      have hb : (x.id == id) = false := by simpa using hx
      simp only [updateById, hx, if_false, List.find?_cons, hb]
      exact ih h1

theorem find_updateById_ne (id j : Nat) (f : Comment → Comment) (l : List Comment)
    (hf : ∀ c, (f c).id = c.id) (hj : j ≠ id) :
    (updateById id f l).find? (fun x => x.id == j) = l.find? (fun x => x.id == j) := by
  induction l with
  | nil => rfl
  | cons x xs ih =>
    by_cases hx : x.id = id
    · have h1 : ¬ x.id = j := fun e => hj (e.symm.trans hx)
      have hb : (x.id == j) = false := by simpa using h1
      have hb2 : ((f x).id == j) = false := by rw [hf x]; exact hb
      rw [updateById, if_pos hx]
      simp only [List.find?_cons, hb, hb2]
    · simp only [updateById, hx, if_false, List.find?_cons, ih]

/-- C8: for a stored comment and an actor who is an admin or its author, `deleteComment`
answers COMMENT_DELETED and the store afterwards is the store before with that one
document's `status` set to `deleted`: the document stays in the collection with every
other field as it was, every other comment and every post is unchanged. -/
theorem deleteComment_soft (st : Store) (user : User) (id : Nat) (c : Comment)
    (hfind : st.findComment id = some c)
    (hauth : user.role = "admin" ∨ c.author = user.id) :
    ∃ pre post, st.comments = pre ++ c :: post ∧ (∀ x ∈ pre, x.id ≠ id) ∧
      deleteComment st user id
        = (Response.commentDeleted,
            { comments := pre ++ { c with status := CommentStatus.deleted } :: post
              posts := st.posts }) ∧
      (deleteComment st user id).2.findComment id
        = some { c with status := CommentStatus.deleted } ∧
      ∀ j, j ≠ id → (deleteComment st user id).2.findComment j = st.findComment j := by
  have hown : checkOwnership st user id = none := by
    unfold checkOwnership
    rw [hfind]
    rcases hauth with h | h
    · simp [h]
    · simp [h]
  obtain ⟨pre, post, hl, hpre, hu⟩ :=
    updateById_split id (fun c => { c with status := CommentStatus.deleted }) st.comments c hfind
  have hdel : deleteComment st user id
      = (Response.commentDeleted,
          { comments := pre ++ { c with status := CommentStatus.deleted } :: post
            posts := st.posts }) := by
    unfold deleteComment
    rw [hown]
    simp only [hu]
  have hdel2 : (deleteComment st user id).2.comments
      = updateById id (fun c => { c with status := CommentStatus.deleted }) st.comments := by
    rw [hdel, hu]
  refine ⟨pre, post, hl, hpre, hdel, ?_, ?_⟩
  · unfold Store.findComment
    rw [hdel2]
    exact find_updateById_self id (fun c => { c with status := CommentStatus.deleted })
      st.comments c hfind (show c.id = id from findComment_id hfind)
  · intro j hj
    unfold Store.findComment
    rw [hdel2]
    exact find_updateById_ne id j _ st.comments (fun _ => rfl) hj

theorem deleteComment_soft_witness :
    ∃ pre post, storeAReplied.comments = pre ++ replyB :: post ∧ (∀ x ∈ pre, x.id ≠ 11) ∧
      deleteComment storeAReplied ⟨2, "user"⟩ 11
        = (Response.commentDeleted,
            { comments := pre ++ { replyB with status := CommentStatus.deleted } :: post
              posts := storeAReplied.posts }) ∧
      (deleteComment storeAReplied ⟨2, "user"⟩ 11).2.findComment 11
        = some { replyB with status := CommentStatus.deleted } ∧
      ∀ j, j ≠ 11 →
        (deleteComment storeAReplied ⟨2, "user"⟩ 11).2.findComment j
          = storeAReplied.findComment j :=
  deleteComment_soft storeAReplied ⟨2, "user"⟩ 11 replyB (by decide) (Or.inr (by decide))

/-! ## Counters against the specification -/

/-- C5 at a concrete request: in `storeA` post 1 has `commentCount` 1; after user 2
replies to the active root comment 10 the stored `commentCount` is 3, because the save
of the reply and the save of the parent inside `updateReplyCount` each run the
`post('save')` increment. -/
theorem postComment_reply_commentCount :
    postComment 5 storeA ⟨2, "user"⟩ (mkBody 1 (some 10) none) 11
      = some (Response.created replyB, storeAReplied) ∧
    (storeA.findPost 1).map Post.commentCount = some 1 ∧
    (storeAReplied.findPost 1).map Post.commentCount = some 3 := by
  decide

/-- C7 at a concrete request: in `storeAB` post 1 counts 2 comments and comment 10 counts
1 reply; after the author deletes reply 11 the response is COMMENT_DELETED, yet
`commentCount` is still 2 and `replyCount` of comment 10 is still 1, while one active
comment is left on the post and comment 10 has no active child. -/
theorem deleteComment_counters_stale :
    deleteComment storeAB ⟨2, "user"⟩ 11 = (Response.commentDeleted, storeABDeleted) ∧
    (storeAB.findPost 1).map Post.commentCount = some 2 ∧
    (storeABDeleted.findPost 1).map Post.commentCount = some 2 ∧
    (storeABDeleted.findComment 10).map Comment.replyCount = some 1 ∧
    storeABDeleted.countActiveOnPost 1 = 1 ∧
    storeABDeleted.countActiveChildren 10 = 0 := by
  decide

/-- C9 at concrete requests: `storeA` satisfies the `commentCount` invariant; after user
2 likes comment 10 the post counts 2 comments with one active comment stored, and after
the author deletes comment 10 the post still counts 1 with no active comment stored. -/
theorem commentCount_invariant_broken :
    CountInv storeA ∧
    toggleLike 5 storeA ⟨2, "user"⟩ 10 = some (Response.liked true 1, storeALiked) ∧
    ¬ CountInv storeALiked ∧
    ¬ CountInv (deleteComment storeA ⟨1, "user"⟩ 10).2 := by
  decide

/-- C10 at concrete requests: `storeAB` and `storeAB4` satisfy the `replyCount`
invariant; after reply 11 is deleted, and after a fifth report moves reply 11 to
`reported`, comment 10 still carries `replyCount` 1 with no active child stored. -/
theorem replyCount_invariant_broken :
    ReplyInv storeAB ∧ ¬ ReplyInv (deleteComment storeAB ⟨2, "user"⟩ 11).2 ∧
    ReplyInv storeAB4 ∧
    reportComment 5 storeAB4 ⟨7, "user"⟩ 11 ⟨"spam", none⟩
      = some (Response.commentReported, storeAB4Reported) ∧
    (storeAB4Reported.findComment 11).map Comment.status = some CommentStatus.reported ∧
    ¬ ReplyInv storeAB4Reported := by
  decide

/-! ## Likes -/

theorem isLikedBy_iff (c : Comment) (u : Nat) :
    c.isLikedBy u = true ↔ u ∈ c.likes.map Like.user := by
  unfold Comment.isLikedBy
  simp only [List.any_eq_true, beq_iff_eq, List.mem_map]

theorem toggleLike_of_not_liked (c : Comment) (u : Nat) (h : c.isLikedBy u = false) :
    c.toggleLike u
      = { c with likes := c.likes ++ [{ user := u }], likeCount := c.likeCount + 1 } := by
  have hf : c.likes.find? (fun like => like.user == u) = none := by
    rw [List.find?_eq_none]
    intro x hx hxu
    have : c.isLikedBy u = true := by
      unfold Comment.isLikedBy
      exact List.any_eq_true.mpr ⟨x, hx, hxu⟩
    rw [h] at this
    exact Bool.noConfusion this
  unfold Comment.toggleLike
  rw [hf]

theorem toggleLike_of_liked (c : Comment) (u : Nat) (h : c.isLikedBy u = true) :
    c.toggleLike u
      = { c with
          likes := c.likes.filter (fun like => like.user != u)
          likeCount := max 0 (c.likeCount - 1) } := by
  unfold Comment.isLikedBy at h
  obtain ⟨x, hx, hxu⟩ := List.any_eq_true.mp h
  cases hf : c.likes.find? (fun like => like.user == u) with
  | none =>
    rw [List.find?_eq_none] at hf
    exact absurd hxu (hf x hx)
  | some y =>
    unfold Comment.toggleLike
    rw [hf]

/-- Membership in the like set after one toggle: flipped for the actor, kept for
everybody else. -/
theorem isLikedBy_toggleLike (c : Comment) (u v : Nat) :
    (c.toggleLike u).isLikedBy v = if v = u then !c.isLikedBy u else c.isLikedBy v := by
  cases h : c.isLikedBy u with
  | false =>
    rw [toggleLike_of_not_liked c u h]
    unfold Comment.isLikedBy
    simp only [List.any_append, List.any_cons, List.any_nil, Bool.or_false]
    by_cases hv : v = u
    · subst hv
      simp
    · have : (u == v) = false := by simpa using fun e : u = v => hv e.symm
      simp only [this, Bool.or_false, hv, if_false]
  | true =>
    rw [toggleLike_of_liked c u h]
    unfold Comment.isLikedBy
    by_cases hv : v = u
    · subst hv
      simp only [if_true, Bool.not_true]
      rw [Bool.eq_false_iff]
      intro hany
      obtain ⟨x, hx, hxv⟩ := List.any_eq_true.mp hany
      have hx2 := (List.mem_filter.mp hx).2
      simp at hx2 hxv
      exact hx2 hxv
    · simp only [hv, if_false]
      rw [Bool.eq_iff_iff]
      simp only [List.any_eq_true, List.mem_filter, beq_iff_eq]
      constructor
      · rintro ⟨x, ⟨hx, _⟩, e⟩; exact ⟨x, hx, e⟩
      · rintro ⟨x, hx, e⟩
        refine ⟨x, ⟨hx, ?_⟩, e⟩
        simp only [bne_iff_ne, ne_eq]
        intro e2
        exact hv (e.symm.trans e2)

theorem id_toggleLike (c : Comment) (u : Nat) : (c.toggleLike u).id = c.id := by
  have := congrArg (fun s : Nat × Option Nat × Int => s.1) (skel_toggleLike c u)
  exact this

theorem status_toggleLike (c : Comment) (u : Nat) : (c.toggleLike u).status = c.status := by
  unfold Comment.toggleLike
  split <;> rfl

/-- The method `toggleLike` never looks at or touches `replyCount`. -/
theorem core_toggleLike (c : Comment) (u : Nat) :
    (c.toggleLike u).core = (c.core).toggleLike u := by
  unfold Comment.toggleLike Comment.core
  simp only
  split <;> rfl

theorem core_toggleLike_congr {a b : Comment} (u : Nat) (h : a.core = b.core) :
    (a.toggleLike u).core = (b.toggleLike u).core := by
  rw [core_toggleLike, core_toggleLike, h]

theorem core_likeCount {a b : Comment} (h : a.core = b.core) : a.likeCount = b.likeCount := by
  have h1 := congrArg Comment.likeCount h
  exact h1

theorem core_likes {a b : Comment} (h : a.core = b.core) : a.likes = b.likes := by
  have h1 := congrArg Comment.likes h
  exact h1

theorem core_isLikedBy {a b : Comment} (h : a.core = b.core) (v : Nat) :
    a.isLikedBy v = b.isLikedBy v := by
  unfold Comment.isLikedBy
  rw [core_likes h]

/-- The like list invariant survives the method `toggleLike`. -/
theorem likesOk_toggleLike (c : Comment) (u : Nat) (h : LikesOk c) :
    LikesOk (c.toggleLike u) := by
  obtain ⟨hnd, hcount⟩ := h
  cases hl : c.isLikedBy u with
  | false =>
    rw [toggleLike_of_not_liked c u hl]
    have hnot : u ∉ c.likes.map Like.user := by
      intro hm
      have := (isLikedBy_iff c u).mpr hm
      rw [hl] at this
      exact Bool.noConfusion this
    constructor
    · show ((c.likes ++ [Like.mk u]).map Like.user).Nodup
      rw [List.map_append]
      refine List.Nodup.append hnd (by simp) ?_
      intro x hx hx2
      have : x = u := by simpa using hx2
      exact hnot (this ▸ hx)
    · show c.likeCount + 1 = ((c.likes ++ [Like.mk u]).length : Int)
      rw [hcount]
      simp
  | true =>
    rw [toggleLike_of_liked c u hl]
    have hmem : u ∈ c.likes.map Like.user := (isLikedBy_iff c u).mp hl
    have hfm : (c.likes.filter (fun like => like.user != u)).map Like.user
        = (c.likes.map Like.user).filter (fun x => x != u) := by
      rw [List.filter_map]
      rfl
    constructor
    · show ((c.likes.filter (fun like => like.user != u)).map Like.user).Nodup
      rw [hfm]
      exact List.Nodup.filter _ hnd
    · show max 0 (c.likeCount - 1)
          = ((c.likes.filter (fun like => like.user != u)).length : Int)
      have hlen : (c.likes.filter (fun like => like.user != u)).length
          = c.likes.length - 1 := by
        have h1 : (c.likes.filter (fun like => like.user != u)).length
            = ((c.likes.map Like.user).filter (fun x => x != u)).length := by
          rw [← hfm, List.length_map]
        rw [h1, ← List.Nodup.erase_eq_filter hnd u, List.length_erase_of_mem hmem,
          List.length_map]
      have hpos : 1 ≤ c.likes.length := by
        have := List.length_pos_of_mem hmem
        rw [List.length_map] at this
        exact this
      rw [hlen, hcount]
      omega

/-- What the like route answers and stores for an active stored comment. -/
theorem toggleLike_route {fuel : Nat} {st st1 : Store} {user : User} {id : Nat}
    {c : Comment} {r : Response}
    (hfind : st.findComment id = some c) (hact : c.status = CommentStatus.active)
    (h : toggleLike fuel st user id = some (r, st1)) :
    r = Response.liked ((c.toggleLike user.id).isLikedBy user.id)
          (c.toggleLike user.id).likeCount ∧
    save fuel st (c.toggleLike user.id) = some st1 ∧
    ∃ stored, st1.findComment id = some stored ∧
      stored.core = (c.toggleLike user.id).core := by
  unfold toggleLike at h
  simp only [hfind, hact, ne_eq, not_true_eq_false, if_false] at h
  cases hs : save fuel st (c.toggleLike user.id) with
  | none => simp [hs] at h
  | some st2 =>
    simp only [hs, Option.some.injEq, Prod.mk.injEq] at h
    obtain ⟨hr, hst⟩ := h
    subst hst
    refine ⟨hr.symm, rfl, ?_⟩
    obtain ⟨stored, hstored, hcore⟩ := save_findComment_self hs
    rw [id_toggleLike, findComment_id hfind] at hstored
    exact ⟨stored, hstored, hcore⟩

/-- Under the depth invariant the like route returns within four saves and keeps the
invariant. -/
theorem toggleLike_returns (st : Store) (user : User) (id : Nat) (hinv : DepthInv st)
    (fuel : Nat) (hfuel : 4 ≤ fuel) :
    ∃ r st1, toggleLike fuel st user id = some (r, st1) ∧ DepthInv st1 := by
  rcases toggleLike_cases fuel st user id with he | ⟨comment, hfind, _, he⟩
  · exact ⟨_, _, he, hinv⟩
  · have hid := findComment_id hfind
    rw [← hid] at hfind
    have hsv := @save_existing_DepthInv st (comment.toggleLike user.id) comment
      hfind (skel_toggleLike comment user.id) hinv
    obtain ⟨st2, hs⟩ := hsv.2 fuel hfuel
    exact ⟨_, st2, by rw [he, hs]; rfl, hsv.1 fuel st2 hs⟩

/-- C13: for an active stored comment, whenever the like route returns, the stored like
list is the old one with the actor appended and `likeCount + 1` if the actor was not in
it, and the old one without the actor and `max 0 (likeCount - 1)` if the actor was in it;
the response carries the actor's membership and the `likeCount` as stored after the
toggle. Under the depth invariant the route returns with fuel for four saves. -/
theorem toggleLike_behaviour (st : Store) (user : User) (id : Nat) (c : Comment)
    (hfind : st.findComment id = some c) (hact : c.status = CommentStatus.active) :
    (∀ fuel r st1, toggleLike fuel st user id = some (r, st1) →
      ∃ stored, st1.findComment id = some stored ∧
        (c.isLikedBy user.id = false →
          stored.likes = c.likes ++ [{ user := user.id }] ∧
          stored.isLikedBy user.id = true ∧
          stored.likeCount = c.likeCount + 1) ∧
        (c.isLikedBy user.id = true →
          stored.likes = c.likes.filter (fun like => like.user != user.id) ∧
          stored.isLikedBy user.id = false ∧
          stored.likeCount = max 0 (c.likeCount - 1)) ∧
        r = Response.liked (stored.isLikedBy user.id) stored.likeCount) ∧
    (DepthInv st → ∀ fuel, 4 ≤ fuel → ∃ r st1, toggleLike fuel st user id = some (r, st1)) := by
  constructor
  · intro fuel r st1 h
    obtain ⟨hr, _, stored, hstored, hcore⟩ := toggleLike_route hfind hact h
    refine ⟨stored, hstored, ?_, ?_, ?_⟩
    · intro hl
      have hm := isLikedBy_toggleLike c user.id user.id
      rw [hl] at hm
      simp only [if_true, Bool.not_false] at hm
      rw [core_likes hcore, core_likeCount hcore, core_isLikedBy hcore, hm,
        toggleLike_of_not_liked c user.id hl]
      exact ⟨rfl, rfl, rfl⟩
    · intro hl
      have hm := isLikedBy_toggleLike c user.id user.id
      rw [hl] at hm
      simp only [if_true, Bool.not_true] at hm
      rw [core_likes hcore, core_likeCount hcore, core_isLikedBy hcore, hm,
        toggleLike_of_liked c user.id hl]
      exact ⟨rfl, rfl, rfl⟩
    · rw [core_likeCount hcore, core_isLikedBy hcore]
      exact hr
  · intro hinv fuel hfuel
    obtain ⟨r, st1, h, _⟩ := toggleLike_returns st user id hinv fuel hfuel
    exact ⟨r, st1, h⟩

theorem toggleLike_behaviour_witness :
    storeA.findComment 10 = some (mkComment 10 1 1 none 0 CommentStatus.active 0) ∧
    ∃ stored, storeALiked.findComment 10 = some stored ∧
      ((mkComment 10 1 1 none 0 CommentStatus.active 0).isLikedBy 2 = false →
        stored.likes = [] ++ [{ user := 2 }] ∧
        stored.isLikedBy 2 = true ∧
        stored.likeCount = 0 + 1) ∧
      ((mkComment 10 1 1 none 0 CommentStatus.active 0).isLikedBy 2 = true →
        stored.likes = ([] : List Like).filter (fun like => like.user != 2) ∧
        stored.isLikedBy 2 = false ∧
        stored.likeCount = max 0 (0 - 1)) ∧
      Response.liked true 1 = Response.liked (stored.isLikedBy 2) stored.likeCount :=
  ⟨by decide,
   (toggleLike_behaviour storeA ⟨2, "user"⟩ 10
      (mkComment 10 1 1 none 0 CommentStatus.active 0) (by decide) (by decide)).1
      5 (Response.liked true 1) storeALiked (by decide)⟩

/-- C12: if a stored comment's like list holds each user at most once and `likeCount`
is its length, the same is true of the comment the method `toggleLike` produces for any
actor, and of the stored comment after the like route returned, whatever it answered. -/
theorem toggleLike_keeps_likes_invariant (st : Store) (user : User) (id : Nat) (c : Comment)
    (hfind : st.findComment id = some c) (hok : LikesOk c) :
    LikesOk (c.toggleLike user.id) ∧
    (∀ fuel r st1, toggleLike fuel st user id = some (r, st1) →
      ∃ stored, st1.findComment id = some stored ∧ LikesOk stored) ∧
    (DepthInv st → ∀ fuel, 4 ≤ fuel → ∃ r st1, toggleLike fuel st user id = some (r, st1)) := by
  refine ⟨likesOk_toggleLike c user.id hok, ?_, ?_⟩
  · intro fuel r st1 h
    by_cases hact : c.status = CommentStatus.active
    · obtain ⟨_, _, stored, hstored, hcore⟩ := toggleLike_route hfind hact h
      refine ⟨stored, hstored, ?_⟩
      have h2 := likesOk_toggleLike c user.id hok
      unfold LikesOk at h2 ⊢
      rw [core_likes hcore, core_likeCount hcore]
      exact h2
    · have he : toggleLike fuel st user id
          = some (Response.error 404 Code.COMMENT_NOT_FOUND, st) := by
        unfold toggleLike
        simp only [hfind, ne_eq, hact, not_false_eq_true, if_true]
      rw [he] at h
      have : st = st1 := by
        injection h with h
        exact (Prod.mk.inj h).2
      rw [← this]
      exact ⟨c, hfind, hok⟩
  · intro hinv fuel hfuel
    obtain ⟨r, st1, h, _⟩ := toggleLike_returns st user id hinv fuel hfuel
    exact ⟨r, st1, h⟩

theorem toggleLike_keeps_likes_invariant_witness :
    LikesOk (mkComment 10 1 1 none 0 CommentStatus.active 0) ∧
    LikesOk ((mkComment 10 1 1 none 0 CommentStatus.active 0).toggleLike 2) ∧
    ∃ stored, storeALiked.findComment 10 = some stored ∧ LikesOk stored :=
  ⟨by decide,
   (toggleLike_keeps_likes_invariant storeA ⟨2, "user"⟩ 10
      (mkComment 10 1 1 none 0 CommentStatus.active 0) (by decide) (by decide)).1,
   (toggleLike_keeps_likes_invariant storeA ⟨2, "user"⟩ 10
      (mkComment 10 1 1 none 0 CommentStatus.active 0) (by decide) (by decide)).2.1
      5 (Response.liked true 1) storeALiked (by decide)⟩

theorem isLikedBy_toggleLike_twice (c : Comment) (u v : Nat) :
    ((c.toggleLike u).toggleLike u).isLikedBy v = c.isLikedBy v := by
  rw [isLikedBy_toggleLike (c.toggleLike u) u v, isLikedBy_toggleLike c u u,
    isLikedBy_toggleLike c u v]
  by_cases hv : v = u
  · subst hv; simp
  · simp [hv]

theorem likeCount_toggleLike_twice (c : Comment) (u : Nat) (h : LikesOk c) :
    ((c.toggleLike u).toggleLike u).likeCount = c.likeCount := by
  have hself := isLikedBy_toggleLike c u u
  simp only [if_true] at hself
  cases hl : c.isLikedBy u with
  | false =>
    rw [hl] at hself
    rw [toggleLike_of_liked (c.toggleLike u) u hself, toggleLike_of_not_liked c u hl]
    show max 0 (c.likeCount + 1 - 1) = c.likeCount
    have := h.2
    omega
  | true =>
    rw [hl] at hself
    rw [toggleLike_of_not_liked (c.toggleLike u) u hself, toggleLike_of_liked c u hl]
    show max 0 (c.likeCount - 1) + 1 = c.likeCount
    have hmem : u ∈ c.likes.map Like.user := (isLikedBy_iff c u).mp hl
    have hpos := List.length_pos_of_mem hmem
    rw [List.length_map] at hpos
    have := h.2
    omega

/-- C11: for an active stored comment whose like list holds each user at most once and
whose `likeCount` is the length of that list, two calls of the like route by the same
actor, whenever they return, leave the stored `likeCount` and every user's membership in
the like list as they were, and the second response reports the original `isLiked` and
`likeCount`. Under the depth invariant both calls return with fuel for four saves. -/
theorem toggleLike_twice_restores (st : Store) (user : User) (id : Nat) (c : Comment)
    (hfind : st.findComment id = some c) (hact : c.status = CommentStatus.active)
    (hok : LikesOk c) :
    (∀ fuel1 fuel2 r1 st1 r2 st2,
      toggleLike fuel1 st user id = some (r1, st1) →
      toggleLike fuel2 st1 user id = some (r2, st2) →
      ∃ stored, st2.findComment id = some stored ∧
        stored.likeCount = c.likeCount ∧
        (∀ v, stored.isLikedBy v = c.isLikedBy v) ∧
        r2 = Response.liked (c.isLikedBy user.id) c.likeCount) ∧
    (DepthInv st → ∀ fuel, 4 ≤ fuel →
      ∃ r1 st1 r2 st2, toggleLike fuel st user id = some (r1, st1) ∧
        toggleLike fuel st1 user id = some (r2, st2)) := by
  constructor
  · intro fuel1 fuel2 r1 st1 r2 st2 h1 h2
    obtain ⟨_, _, stored1, hstored1, hcore1⟩ := toggleLike_route hfind hact h1
    have hact1 : stored1.status = CommentStatus.active := by
      rw [core_status hcore1, status_toggleLike, hact]
    obtain ⟨hr2, _, stored2, hstored2, hcore2⟩ := toggleLike_route hstored1 hact1 h2
    have hcore : stored2.core = ((c.toggleLike user.id).toggleLike user.id).core := by
      rw [hcore2]; exact core_toggleLike_congr user.id hcore1
    have hcc := core_toggleLike_congr user.id hcore1
    refine ⟨stored2, hstored2, ?_, ?_, ?_⟩
    · rw [core_likeCount hcore]
      exact likeCount_toggleLike_twice c user.id hok
    · intro v
      rw [core_isLikedBy hcore v]
      exact isLikedBy_toggleLike_twice c user.id v
    · rw [hr2, core_isLikedBy hcc, core_likeCount hcc,
        isLikedBy_toggleLike_twice, likeCount_toggleLike_twice c user.id hok]
  · intro hinv fuel hfuel
    obtain ⟨r1, st1, h1, hinv1⟩ := toggleLike_returns st user id hinv fuel hfuel
    obtain ⟨r2, st2, h2, _⟩ := toggleLike_returns st1 user id hinv1 fuel hfuel
    exact ⟨r1, st1, r2, st2, h1, h2⟩

theorem toggleLike_twice_restores_witness :
    LikesOk (mkComment 10 1 1 none 0 CommentStatus.active 0) ∧
    ∃ stored, storeAUnliked.findComment 10 = some stored ∧
      stored.likeCount = (mkComment 10 1 1 none 0 CommentStatus.active 0).likeCount ∧
      (∀ v, stored.isLikedBy v
        = (mkComment 10 1 1 none 0 CommentStatus.active 0).isLikedBy v) ∧
      Response.liked false 0
        = Response.liked ((mkComment 10 1 1 none 0 CommentStatus.active 0).isLikedBy 2)
            (mkComment 10 1 1 none 0 CommentStatus.active 0).likeCount :=
  ⟨by decide,
   (toggleLike_twice_restores storeA ⟨2, "user"⟩ 10
      (mkComment 10 1 1 none 0 CommentStatus.active 0)
      (by decide) (by decide) (by decide)).1
      5 5 (Response.liked true 1) storeALiked (Response.liked false 0) storeAUnliked
      (by decide) (by decide)⟩

/-! ## Reports -/

theorem addReport_of_reported (c : Comment) (u : Nat) (reason : String)
    (d : Option String) (h : u ∈ c.reporters) : c.addReport u reason d = c := by
  unfold Comment.reporters at h
  obtain ⟨x, hx, hxu⟩ := List.mem_map.mp h
  cases hf : c.reports.find? (fun report => report.reportedBy == u) with
  | none =>
    rw [List.find?_eq_none] at hf
    exact absurd (by simpa using hxu) (hf x hx)
  | some y =>
    unfold Comment.addReport
    rw [hf]

theorem addReport_of_new (c : Comment) (u : Nat) (reason : String)
    (d : Option String) (h : u ∉ c.reporters) :
    c.addReport u reason d
      = if c.reportCount + 1 ≥ 5 then
          { c with
            reports := c.reports ++ [{ reportedBy := u, reason := reason, description := d }]
            reportCount := c.reportCount + 1
            status := CommentStatus.reported }
        else
          { c with
            reports := c.reports ++ [{ reportedBy := u, reason := reason, description := d }]
            reportCount := c.reportCount + 1 } := by
  have hf : c.reports.find? (fun report => report.reportedBy == u) = none := by
    rw [List.find?_eq_none]
    intro x hx hxu
    apply h
    unfold Comment.reporters
    exact List.mem_map.mpr ⟨x, hx, by simpa using hxu⟩
  unfold Comment.addReport
  rw [hf]

/-- The fields of the comment that `addReport` produces for a reporter without a prior
record. -/
theorem addReport_new_fields (c : Comment) (u : Nat) (reason : String)
    (d : Option String) (h : u ∉ c.reporters) :
    (c.addReport u reason d).reports
      = c.reports ++ [{ reportedBy := u, reason := reason, description := d }] ∧
    (c.addReport u reason d).reportCount = c.reportCount + 1 ∧
    (c.reportCount + 1 ≥ 5 → (c.addReport u reason d).status = CommentStatus.reported) ∧
    (c.reportCount + 1 < 5 → (c.addReport u reason d).status = c.status) := by
  rw [addReport_of_new c u reason d h]
  by_cases h5 : c.reportCount + 1 ≥ 5
  · rw [if_pos h5]
    exact ⟨rfl, rfl, fun _ => rfl, fun hlt => absurd h5 (by omega)⟩
  · rw [if_neg h5]
    exact ⟨rfl, rfl, fun hge => absurd hge h5, fun _ => rfl⟩

theorem id_addReport (c : Comment) (u : Nat) (reason : String) (d : Option String) :
    (c.addReport u reason d).id = c.id := by
  have := congrArg (fun s : Nat × Option Nat × Int => s.1) (skel_addReport c u reason d)
  exact this

theorem author_addReport (c : Comment) (u : Nat) (reason : String) (d : Option String) :
    (c.addReport u reason d).author = c.author := by
  unfold Comment.addReport
  split
  · rfl
  · simp only
    split <;> rfl

theorem core_reports {a b : Comment} (h : a.core = b.core) : a.reports = b.reports := by
  have h1 := congrArg Comment.reports h
  exact h1

theorem core_reportCount {a b : Comment} (h : a.core = b.core) :
    a.reportCount = b.reportCount := by
  have h1 := congrArg Comment.reportCount h
  exact h1

theorem core_author {a b : Comment} (h : a.core = b.core) : a.author = b.author := by
  have h1 := congrArg Comment.author h
  exact h1

theorem core_reporters {a b : Comment} (h : a.core = b.core) : a.reporters = b.reporters := by
  unfold Comment.reporters
  rw [core_reports h]

/-- The report list invariant survives the method `addReport`. -/
theorem reportsOk_addReport (c : Comment) (u : Nat) (reason : String) (d : Option String)
    (h : ReportsOk c) : ReportsOk (c.addReport u reason d) := by
  by_cases hm : u ∈ c.reporters
  · rw [addReport_of_reported c u reason d hm]; exact h
  · obtain ⟨hr, hc, _, _⟩ := addReport_new_fields c u reason d hm
    obtain ⟨hnd, hcount⟩ := h
    unfold ReportsOk Comment.reporters
    rw [hr, hc, List.map_append]
    constructor
    · refine List.Nodup.append hnd (by simp) ?_
      intro x hx hx2
      have : x = u := by simpa using hx2
      exact hm (this ▸ hx)
    · rw [hcount]; simp

theorem reportCount_addReport_le (c : Comment) (u : Nat) (reason : String)
    (d : Option String) : c.reportCount ≤ (c.addReport u reason d).reportCount := by
  by_cases hm : u ∈ c.reporters
  · rw [addReport_of_reported c u reason d hm]
  · rw [(addReport_new_fields c u reason d hm).2.1]
    omega

/-- C16: for a reporter without a prior record, `addReport` appends exactly one record
keyed by that reporter, raises `reportCount` by one, sets `status` to `reported` when the
new `reportCount` is at least 5 and leaves `status` as it was when it is below 5; a save
of the result that finishes stores exactly these values under the comment's id. -/
theorem addReport_new_reporter (c : Comment) (u : Nat) (reason : String)
    (d : Option String) (hnew : u ∉ c.reporters) :
    (c.addReport u reason d).reports
      = c.reports ++ [{ reportedBy := u, reason := reason, description := d }] ∧
    (c.addReport u reason d).reportCount = c.reportCount + 1 ∧
    ((c.addReport u reason d).reportCount ≥ 5 →
      (c.addReport u reason d).status = CommentStatus.reported) ∧
    ((c.addReport u reason d).reportCount < 5 →
      (c.addReport u reason d).status = c.status) ∧
    (c.status ≠ CommentStatus.reported →
      ((c.addReport u reason d).status = CommentStatus.reported ↔
        (c.addReport u reason d).reportCount ≥ 5)) ∧
    (∀ fuel st st1, save fuel st (c.addReport u reason d) = some st1 →
      ∃ stored, st1.findComment c.id = some stored ∧
        stored.reports = (c.addReport u reason d).reports ∧
        stored.reportCount = (c.addReport u reason d).reportCount ∧
        stored.status = (c.addReport u reason d).status) := by
  obtain ⟨hr, hc, hge, hlt⟩ := addReport_new_fields c u reason d hnew
  refine ⟨hr, hc, ?_, ?_, ?_, ?_⟩
  · intro h; rw [hc] at h; exact hge h
  · intro h; rw [hc] at h; exact hlt h
  · intro hne
    rw [hc]
    constructor
    · intro hs
      by_contra h5
      exact hne ((hlt (by omega)).symm.trans hs)
    · exact hge
  · intro fuel st st1 hs
    obtain ⟨stored, hstored, hcore⟩ := save_findComment_self hs
    rw [id_addReport] at hstored
    exact ⟨stored, hstored, core_reports hcore, core_reportCount hcore, core_status hcore⟩

theorem addReport_new_reporter_witness :
    (3 ∉ (mkComment 10 1 1 none 0 CommentStatus.active 0).reporters) ∧
    ((mkComment 10 1 1 none 0 CommentStatus.active 0).addReport 3 "spam" none).reportCount
      = (mkComment 10 1 1 none 0 CommentStatus.active 0).reportCount + 1 :=
  ⟨by decide,
   (addReport_new_reporter (mkComment 10 1 1 none 0 CommentStatus.active 0) 3 "spam" none
      (by decide)).2.1⟩

/-- C18: if the report records have pairwise distinct reporters and `reportCount` is
their number, the same holds after `addReport` by any actor, with or without a prior
record, and `reportCount` is not smaller than before. -/
theorem addReport_keeps_reports_invariant (c : Comment) (u : Nat) (reason : String)
    (d : Option String) (hok : ReportsOk c) :
    ReportsOk (c.addReport u reason d) ∧
    c.reportCount ≤ (c.addReport u reason d).reportCount :=
  ⟨reportsOk_addReport c u reason d hok, reportCount_addReport_le c u reason d⟩

theorem addReport_keeps_reports_invariant_witness :
    ReportsOk { replyB with reports := fourReports, reportCount := 4 } ∧
    ReportsOk (Comment.addReport { replyB with reports := fourReports, reportCount := 4 }
      7 "spam" none) ∧
    ReportsOk (Comment.addReport { replyB with reports := fourReports, reportCount := 4 }
      3 "abuse" none) :=
  ⟨by decide,
   (addReport_keeps_reports_invariant { replyB with reports := fourReports, reportCount := 4 }
      7 "spam" none (by decide)).1,
   (addReport_keeps_reports_invariant { replyB with reports := fourReports, reportCount := 4 }
      3 "abuse" none (by decide)).1⟩

/-- C19: on a comment whose status is already `reported`, `addReport` by a reporter
without a prior record raises `reportCount` by one and leaves the status `reported`. -/
theorem addReport_after_threshold (c : Comment) (u : Nat) (reason : String)
    (d : Option String) (hstatus : c.status = CommentStatus.reported)
    (hnew : u ∉ c.reporters) :
    (c.addReport u reason d).reportCount = c.reportCount + 1 ∧
    (c.addReport u reason d).status = CommentStatus.reported := by
  obtain ⟨_, hc, hge, hlt⟩ := addReport_new_fields c u reason d hnew
  refine ⟨hc, ?_⟩
  by_cases h5 : c.reportCount + 1 ≥ 5
  · exact hge h5
  · rw [hlt (by omega), hstatus]

theorem addReport_after_threshold_witness :
    (Comment.addReport
      { replyB with
        reports := fourReports ++ [{ reportedBy := 7, reason := "spam", description := none }]
        reportCount := 5
        status := CommentStatus.reported } 8 "spam" none).reportCount = 5 + 1 ∧
    (Comment.addReport
      { replyB with
        reports := fourReports ++ [{ reportedBy := 7, reason := "spam", description := none }]
        reportCount := 5
        status := CommentStatus.reported } 8 "spam" none).status
      = CommentStatus.reported :=
  addReport_after_threshold
    { replyB with
      reports := fourReports ++ [{ reportedBy := 7, reason := "spam", description := none }]
      reportCount := 5
      status := CommentStatus.reported } 8 "spam" none (by decide) (by decide)

/-- What the report route answers and stores for an active stored comment, a valid
body and an actor other than the author. -/
theorem reportComment_route {fuel : Nat} {st st1 : Store} {user : User} {id : Nat}
    {body : ReportBody} {c : Comment} {r : Response}
    (hfind : st.findComment id = some c) (hact : c.status = CommentStatus.active)
    (hauth : c.author ≠ user.id) (hvalid : reportValid body = true)
    (h : reportComment fuel st user id body = some (r, st1)) :
    r = Response.commentReported ∧
    save fuel st (c.addReport user.id body.reason body.description) = some st1 ∧
    ∃ stored, st1.findComment id = some stored ∧
      stored.core = (c.addReport user.id body.reason body.description).core := by
  unfold reportComment at h
  simp only [hvalid, Bool.not_true, Bool.false_eq_true, if_false, hfind, hact, ne_eq,
    not_true_eq_false, hauth] at h
  cases hs : save fuel st (c.addReport user.id body.reason body.description) with
  | none => simp [hs] at h
  | some st2 =>
    simp only [hs, Option.some.injEq, Prod.mk.injEq] at h
    obtain ⟨hr, hst⟩ := h
    subst hst
    refine ⟨hr.symm, rfl, ?_⟩
    obtain ⟨stored, hstored, hcore⟩ := save_findComment_self hs
    rw [id_addReport, findComment_id hfind] at hstored
    exact ⟨stored, hstored, hcore⟩

/-- Under the depth invariant the report route returns within four saves and keeps the
invariant. -/
theorem reportComment_returns (st : Store) (user : User) (id : Nat) (body : ReportBody)
    (hinv : DepthInv st) (fuel : Nat) (hfuel : 4 ≤ fuel) :
    ∃ r st1, reportComment fuel st user id body = some (r, st1) ∧ DepthInv st1 := by
  rcases reportComment_cases fuel st user id body with ⟨s, c, he⟩ | ⟨comment, hfind, _, _, he⟩
  · exact ⟨_, _, he, hinv⟩
  · have hid := findComment_id hfind
    rw [← hid] at hfind
    have hsv := @save_existing_DepthInv st
      (comment.addReport user.id body.reason body.description) comment hfind
      (skel_addReport comment user.id body.reason body.description) hinv
    obtain ⟨st2, hs⟩ := hsv.2 fuel hfuel
    exact ⟨_, st2, by rw [he, hs]; rfl, hsv.1 fuel st2 hs⟩

/-- C14: when the id names no stored comment, or a stored comment whose status is not
`active`, the like route answers 404 COMMENT_NOT_FOUND and the report route answers an
error, 404 COMMENT_NOT_FOUND once its body passes validation; both leave the whole store
(likes, reports, counters, status, post counters) as it was. -/
theorem like_report_not_found (fuel : Nat) (st : Store) (user : User) (id : Nat)
    (body : ReportBody)
    (h : ∀ c, st.findComment id = some c → c.status ≠ CommentStatus.active) :
    toggleLike fuel st user id = some (Response.error 404 Code.COMMENT_NOT_FOUND, st) ∧
    (∃ status code,
      reportComment fuel st user id body = some (Response.error status code, st)) ∧
    (reportValid body = true →
      reportComment fuel st user id body
        = some (Response.error 404 Code.COMMENT_NOT_FOUND, st)) := by
  have hr : reportValid body = true →
      reportComment fuel st user id body
        = some (Response.error 404 Code.COMMENT_NOT_FOUND, st) := by
    intro hv
    unfold reportComment
    cases hf : st.findComment id with
    | none => simp [hv]
    | some c => simp [hv, h c hf]
  refine ⟨?_, ?_, hr⟩
  · unfold toggleLike
    cases hf : st.findComment id with
    | none => rfl
    | some c => simp [h c hf]
  · by_cases hv : reportValid body = true
    · exact ⟨_, _, hr hv⟩
    · exact ⟨400, Code.VALIDATION_ERROR, by simp [reportComment, hv]⟩

theorem like_report_not_found_witness :
    toggleLike 5 storeADeleted ⟨2, "user"⟩ 10
      = some (Response.error 404 Code.COMMENT_NOT_FOUND, storeADeleted) ∧
    (∃ status code,
      reportComment 5 storeADeleted ⟨2, "user"⟩ 10 ⟨"spam", none⟩
        = some (Response.error status code, storeADeleted)) ∧
    (reportValid ⟨"spam", none⟩ = true →
      reportComment 5 storeADeleted ⟨2, "user"⟩ 10 ⟨"spam", none⟩
        = some (Response.error 404 Code.COMMENT_NOT_FOUND, storeADeleted)) :=
  like_report_not_found 5 storeADeleted ⟨2, "user"⟩ 10 ⟨"spam", none⟩ (by decide)

/-- C20: for an active stored comment and an actor whose id is the comment's author,
whatever the actor's role, the report route answers an error, 400
CANNOT_REPORT_OWN_COMMENT once the body passes validation, and leaves the whole store
(report records, `reportCount`, status) as it was. -/
theorem reportComment_own_comment (fuel : Nat) (st : Store) (user : User) (id : Nat)
    (body : ReportBody) (c : Comment)
    (hfind : st.findComment id = some c) (hact : c.status = CommentStatus.active)
    (hself : c.author = user.id) :
    (∃ status code,
      reportComment fuel st user id body = some (Response.error status code, st)) ∧
    (reportValid body = true →
      reportComment fuel st user id body
        = some (Response.error 400 Code.CANNOT_REPORT_OWN_COMMENT, st)) := by
  have hr : reportValid body = true →
      reportComment fuel st user id body
        = some (Response.error 400 Code.CANNOT_REPORT_OWN_COMMENT, st) := by
    intro hv
    simp [reportComment, hv, hfind, hact, hself]
  refine ⟨?_, hr⟩
  by_cases hv : reportValid body = true
  · exact ⟨_, _, hr hv⟩
  · exact ⟨400, Code.VALIDATION_ERROR, by simp [reportComment, hv]⟩

theorem reportComment_own_comment_witness :
    (∃ status code,
      reportComment 5 storeA ⟨1, "admin"⟩ 10 ⟨"spam", none⟩
        = some (Response.error status code, storeA)) ∧
    (reportValid ⟨"spam", none⟩ = true →
      reportComment 5 storeA ⟨1, "admin"⟩ 10 ⟨"spam", none⟩
        = some (Response.error 400 Code.CANNOT_REPORT_OWN_COMMENT, storeA)) :=
  reportComment_own_comment 5 storeA ⟨1, "admin"⟩ 10 ⟨"spam", none⟩
    (mkComment 10 1 1 none 0 CommentStatus.active 0) (by decide) (by decide) (by decide)

/-- C15 at a concrete request: in `storeR` user 3 already has a report record on the
active comment 10 and post 1 has `commentCount` 1; a second report by user 3 answers
COMMENT_REPORTED and leaves the comment as it was, yet post 1 then has `commentCount` 2,
because `addReport` ends in `save()` and the `post('save')` middleware increments. -/
theorem reportComment_duplicate_counts :
    reportComment 5 storeR ⟨3, "user"⟩ 10 ⟨"spam", none⟩
      = some (Response.commentReported, storeRAgain) ∧
    storeRAgain.findComment 10 = storeR.findComment 10 ∧
    (storeR.findPost 1).map Post.commentCount = some 1 ∧
    (storeRAgain.findPost 1).map Post.commentCount = some 2 ∧
    storeRAgain.countActiveOnPost 1 = 1 := by
  decide

/-! ## Five reports -/

theorem runReports_cons {fuel id : Nat} {st st2 : Store} {q : User × ReportBody}
    {rest : List (User × ReportBody)} {rs : List Response}
    (h : runReports fuel id st (q :: rest) = some (rs, st2)) :
    ∃ r st1 rs1, reportComment fuel st q.1 id q.2 = some (r, st1) ∧
      runReports fuel id st1 rest = some (rs1, st2) ∧ rs = r :: rs1 := by
  obtain ⟨user, body⟩ := q
  unfold runReports at h
  cases h1 : reportComment fuel st user id body with
  | none => simp [h1] at h
  | some p =>
    obtain ⟨r, st1⟩ := p
    simp only [h1] at h
    cases h2 : runReports fuel id st1 rest with
    | none => simp [h2] at h
    | some p2 =>
      obtain ⟨rs1, st3⟩ := p2
      simp only [h2, Option.some.injEq, Prod.mk.injEq] at h
      obtain ⟨hrs, hst⟩ := h
      subst hst
      exact ⟨r, st1, rs1, rfl, h2, hrs.symm⟩

theorem runReports_cons_intro {fuel id : Nat} {st st1 st2 : Store} {q : User × ReportBody}
    {rest : List (User × ReportBody)} {r : Response} {rs1 : List Response}
    (h1 : reportComment fuel st q.1 id q.2 = some (r, st1))
    (h2 : runReports fuel id st1 rest = some (rs1, st2)) :
    runReports fuel id st (q :: rest) = some (r :: rs1, st2) := by
  obtain ⟨user, body⟩ := q
  unfold runReports
  simp only [h1, h2]

theorem runReports_append {fuel id : Nat} :
    ∀ (l1 l2 : List (User × ReportBody)) (st st2 : Store) (rs : List Response),
      runReports fuel id st (l1 ++ l2) = some (rs, st2) →
      ∃ rs1 st1 rs2, runReports fuel id st l1 = some (rs1, st1) ∧
        runReports fuel id st1 l2 = some (rs2, st2) ∧ rs = rs1 ++ rs2 := by
  intro l1
  induction l1 with
  | nil =>
    intro l2 st st2 rs h
    exact ⟨[], st, rs, rfl, h, rfl⟩
  | cons q rest ih =>
    intro l2 st st2 rs h
    obtain ⟨r, st1, rs1, h1, h2, hrs⟩ := runReports_cons h
    obtain ⟨rs3, st3, rs4, h3, h4, hrs2⟩ := ih l2 st1 st2 rs1 h2
    exact ⟨r :: rs3, st3, rs4, runReports_cons_intro h1 h3, h4, by rw [hrs, hrs2]; rfl⟩

theorem reportsOk_core {a b : Comment} (h : a.core = b.core) (hb : ReportsOk b) :
    ReportsOk a := by
  unfold ReportsOk at hb ⊢
  rw [core_reporters h, core_reportCount h, core_reports h]
  exact hb

theorem card_step (l : List Nat) (u : Nat) (rest : List Nat) (hnd : l.Nodup) (hu : u ∉ l)
    (h : (l ++ u :: rest).toFinset.card ≤ 4) : l.length + 1 ≤ 4 := by
  have hnd2 : (l ++ [u]).Nodup := by
    refine List.Nodup.append hnd (by simp) ?_
    intro x hx hx2
    have : x = u := by simpa using hx2
    exact hu (this ▸ hx)
  have hcard : (l ++ [u]).toFinset.card = l.length + 1 := by
    rw [List.toFinset_card_of_nodup hnd2]
    simp
  have hsub : (l ++ [u]).toFinset ⊆ (l ++ u :: rest).toFinset := by
    intro x hx
    simp only [List.mem_toFinset, List.mem_append, List.mem_cons, List.mem_singleton,
      List.not_mem_nil, or_false] at hx ⊢
    rcases hx with hx | hx
    · exact Or.inl hx
    · exact Or.inr (Or.inl hx)
  have := Finset.card_le_card hsub
  omega

/-- While at most four distinct users have reported, every valid report by a user other
than the author is answered COMMENT_REPORTED and the comment stays active, its report
records being one per distinct reporter so far. -/
theorem runReports_active (fuel id : Nat) :
    ∀ (reqs : List (User × ReportBody)) (st st1 : Store) (c : Comment) (rs : List Response),
      st.findComment id = some c → c.status = CommentStatus.active → ReportsOk c →
      (∀ q ∈ reqs, reportValid q.2 = true ∧ c.author ≠ q.1.id) →
      (c.reporters ++ actors reqs).toFinset.card ≤ 4 →
      runReports fuel id st reqs = some (rs, st1) →
      (∀ r ∈ rs, r = Response.commentReported) ∧
      ∃ c1, st1.findComment id = some c1 ∧ c1.status = CommentStatus.active ∧
        ReportsOk c1 ∧ c1.author = c.author ∧
        c1.reporters.toFinset = (c.reporters ++ actors reqs).toFinset := by
  intro reqs
  induction reqs with
  | nil =>
    intro st st1 c rs hfind hact hok _ _ h
    have h1 : some (([] : List Response), st) = some (rs, st1) := h
    simp only [Option.some.injEq, Prod.mk.injEq] at h1
    obtain ⟨hrs, hst⟩ := h1
    subst hrs hst
    refine ⟨by simp, c, hfind, hact, hok, rfl, ?_⟩
    simp [actors]
  | cons q rest ih =>
    intro st st1 c rs hfind hact hok hreqs hcard h
    obtain ⟨r, st2, rs1, h1, h2, hrs⟩ := runReports_cons h
    have hq := hreqs q (List.mem_cons_self q rest)
    obtain ⟨hr, _, stored, hstored, hcore⟩ := reportComment_route hfind hact hq.2 hq.1 h1
    have hok1 : ReportsOk stored :=
      reportsOk_core hcore (reportsOk_addReport c q.1.id q.2.reason q.2.description hok)
    have hauthor : stored.author = c.author := by
      rw [core_author hcore, author_addReport]
    have hactors : actors (q :: rest) = q.1.id :: actors rest := rfl
    rw [hactors] at hcard
    have hstate : stored.status = CommentStatus.active ∧
        stored.reporters.toFinset = insert q.1.id c.reporters.toFinset := by
      by_cases hm : q.1.id ∈ c.reporters
      · have he := addReport_of_reported c q.1.id q.2.reason q.2.description hm
        rw [he] at hcore
        refine ⟨by rw [core_status hcore]; exact hact, ?_⟩
        rw [core_reporters hcore]
        ext x
        simp only [List.mem_toFinset, Finset.mem_insert]
        constructor
        · intro hx; exact Or.inr hx
        · rintro (hx | hx)
          · rw [hx]; exact hm
          · exact hx
      · obtain ⟨hrep, hcnt, _, hlt⟩ :=
          addReport_new_fields c q.1.id q.2.reason q.2.description hm
        have hlen : c.reporters.length + 1 ≤ 4 :=
          card_step c.reporters q.1.id (actors rest) hok.1 hm hcard
        have hrc : c.reportCount = (c.reporters.length : Int) := by
          rw [hok.2]
          unfold Comment.reporters
          rw [List.length_map]
        refine ⟨?_, ?_⟩
        · rw [core_status hcore, hlt (by omega)]
          exact hact
        · rw [core_reporters hcore]
          unfold Comment.reporters
          rw [hrep, List.map_append]
          ext x
          simp only [List.map_cons, List.map_nil, List.mem_toFinset, List.mem_append,
            List.mem_singleton, Finset.mem_insert]
          constructor
          · rintro (hx | hx)
            · exact Or.inr hx
            · exact Or.inl hx
          · rintro (hx | hx)
            · exact Or.inr hx
            · exact Or.inl hx
    have hset : (stored.reporters ++ actors rest).toFinset
        = (c.reporters ++ q.1.id :: actors rest).toFinset := by
      rw [List.toFinset_append, hstate.2]
      ext x
      simp only [Finset.mem_union, Finset.mem_insert, List.mem_toFinset, List.mem_append,
        List.mem_cons]
      constructor
      · rintro ((hx | hx) | hx)
        · exact Or.inr (Or.inl hx)
        · exact Or.inl hx
        · exact Or.inr (Or.inr hx)
      · rintro (hx | hx | hx)
        · exact Or.inl (Or.inr hx)
        · exact Or.inl (Or.inl hx)
        · exact Or.inr hx
    have hreqs1 : ∀ q1 ∈ rest, reportValid q1.2 = true ∧ stored.author ≠ q1.1.id := by
      intro q1 hq1
      rw [hauthor]
      exact hreqs q1 (List.mem_cons_of_mem q hq1)
    obtain ⟨hall, c1, hc1, hact1, hok2, hauth1, hrep1⟩ :=
      ih st2 st1 stored rs1 hstored hstate.1 hok1 hreqs1 (by rw [hset]; exact hcard) h2
    refine ⟨?_, c1, hc1, hact1, hok2, by rw [hauth1, hauthor], ?_⟩
    · intro r1 hr1
      rw [hrs] at hr1
      rcases List.mem_cons.mp hr1 with e | e
      · rw [e]; exact hr
      · exact hall r1 e
    · rw [hrep1, hset, hactors]

/-- Under the depth invariant any list of report requests runs to the end with fuel for
four saves. -/
theorem runReports_returns (fuel id : Nat) (hfuel : 4 ≤ fuel) :
    ∀ (reqs : List (User × ReportBody)) (st : Store), DepthInv st →
      ∃ rs st1, runReports fuel id st reqs = some (rs, st1) := by
  intro reqs
  induction reqs with
  | nil => intro st _; exact ⟨[], st, rfl⟩
  | cons q rest ih =>
    intro st hinv
    obtain ⟨r, st1, h1, hinv1⟩ := reportComment_returns st q.1 id q.2 hinv fuel hfuel
    obtain ⟨rs, st2, h2⟩ := ih st1 hinv1
    exact ⟨r :: rs, st2, runReports_cons_intro h1 h2⟩

/-- C17: on an active stored comment without reports, let valid report requests by
users other than the author be run in any order, duplicates included, the last request
coming from the fifth distinct user. Whenever the run returns, every request was
answered COMMENT_REPORTED, the comment was still active after each request before the
last, and at the end its status is `reported` with `reportCount` 5. Under the depth
invariant the run returns with fuel for four saves. -/
theorem five_distinct_reports (st : Store) (id : Nat) (c : Comment)
    (pre : List (User × ReportBody)) (last : User × ReportBody)
    (hfind : st.findComment id = some c) (hact : c.status = CommentStatus.active)
    (hreports : c.reports = []) (hcount : c.reportCount = 0)
    (hreqs : ∀ q ∈ pre ++ [last], reportValid q.2 = true ∧ c.author ≠ q.1.id)
    (hfour : (actors pre).toFinset.card = 4) (hlast : last.1.id ∉ actors pre) :
    (∀ fuel rs st2, runReports fuel id st (pre ++ [last]) = some (rs, st2) →
      (∀ r ∈ rs, r = Response.commentReported) ∧
      (∃ c2, st2.findComment id = some c2 ∧ c2.status = CommentStatus.reported ∧
        c2.reportCount = 5) ∧
      (∀ k, k ≤ pre.length →
        ∃ rs1 st1 c1, runReports fuel id st (pre.take k) = some (rs1, st1) ∧
          st1.findComment id = some c1 ∧ c1.status = CommentStatus.active)) ∧
    (DepthInv st → ∀ fuel, 4 ≤ fuel →
      ∃ rs st2, runReports fuel id st (pre ++ [last]) = some (rs, st2)) := by
  have hok : ReportsOk c := by
    unfold ReportsOk Comment.reporters
    rw [hreports, hcount]
    exact ⟨List.nodup_nil, rfl⟩
  have hnil : c.reporters = [] := by
    unfold Comment.reporters
    rw [hreports]; rfl
  constructor
  · intro fuel rs st2 h
    obtain ⟨rs1, st1, rs2, h1, h2, hrs⟩ := runReports_append pre [last] st st2 rs h
    have hpre : ∀ q ∈ pre, reportValid q.2 = true ∧ c.author ≠ q.1.id :=
      fun q hq => hreqs q (List.mem_append_left _ hq)
    obtain ⟨hall, c1, hc1, hact1, hok1, hauth1, hrep1⟩ :=
      runReports_active fuel id pre st st1 c rs1 hfind hact hok hpre
        (by rw [hnil, List.nil_append, hfour]) h1
    rw [hnil, List.nil_append] at hrep1
    have hlen : c1.reporters.length = 4 := by
      rw [← List.toFinset_card_of_nodup hok1.1, hrep1, hfour]
    have hc1count : c1.reportCount = 4 := by
      rw [hok1.2]
      have : c1.reports.length = 4 := by
        unfold Comment.reporters at hlen
        rw [List.length_map] at hlen
        exact hlen
      rw [this]; rfl
    have hnew : last.1.id ∉ c1.reporters := by
      intro hm
      have : last.1.id ∈ c1.reporters.toFinset := List.mem_toFinset.mpr hm
      rw [hrep1] at this
      exact hlast (List.mem_toFinset.mp this)
    obtain ⟨r, st3, rs3, h3, h4, hrs2⟩ := runReports_cons h2
    have h5 : some (([] : List Response), st3) = some (rs3, st2) := h4
    simp only [Option.some.injEq, Prod.mk.injEq] at h5
    obtain ⟨hrs3, hst3⟩ := h5
    rw [hst3] at h3
    have hq := hreqs last (List.mem_append_right _ (List.mem_singleton_self last))
    obtain ⟨hr, _, c2, hc2, hcore2⟩ :=
      reportComment_route hc1 hact1 (by rw [hauth1]; exact hq.2) hq.1 h3
    obtain ⟨_, hcnt, hge, _⟩ :=
      addReport_new_fields c1 last.1.id last.2.reason last.2.description hnew
    refine ⟨?_, ⟨c2, hc2, ?_, ?_⟩, ?_⟩
    · intro r1 hr1
      rw [hrs, hrs2, ← hrs3] at hr1
      rcases List.mem_append.mp hr1 with e | e
      · exact hall r1 e
      · have : r1 = r := by simpa using e
        rw [this]; exact hr
    · rw [core_status hcore2]
      exact hge (by omega)
    · rw [core_reportCount hcore2, hcnt, hc1count]; rfl
    · intro k hk
      have hsplit : pre ++ [last] = pre.take k ++ (pre.drop k ++ [last]) := by
        rw [← List.append_assoc, List.take_append_drop]
      rw [hsplit] at h
      obtain ⟨rsa, sta, rsb, ha, _, _⟩ :=
        runReports_append (pre.take k) (pre.drop k ++ [last]) st st2 rs h
      have hsub : (actors (pre.take k)).toFinset ⊆ (actors pre).toFinset := by
        intro x hx
        rw [List.mem_toFinset] at hx ⊢
        unfold actors at hx ⊢
        obtain ⟨q, hq1, hq2⟩ := List.mem_map.mp hx
        exact List.mem_map.mpr ⟨q, List.mem_of_mem_take hq1, hq2⟩
      have hcardk : (c.reporters ++ actors (pre.take k)).toFinset.card ≤ 4 := by
        rw [hnil, List.nil_append, ← hfour]
        exact Finset.card_le_card hsub
      obtain ⟨_, ca, hca, hacta, _⟩ :=
        runReports_active fuel id (pre.take k) st sta c rsa hfind hact hok
          (fun q hq => hpre q (List.mem_of_mem_take hq)) hcardk ha
      exact ⟨rsa, sta, ca, ha, hca, hacta⟩
  · intro hinv fuel hfuel
    exact runReports_returns fuel id hfuel (pre ++ [last]) st hinv

theorem five_distinct_reports_witness :
    runReports 5 10 storeA ([spamBy 3, spamBy 4, spamBy 3, spamBy 5, spamBy 6] ++ [spamBy 7])
      = some ([Response.commentReported, Response.commentReported,
          Response.commentReported, Response.commentReported, Response.commentReported,
          Response.commentReported], storeAFive) ∧
    (∃ c2, storeAFive.findComment 10 = some c2 ∧ c2.status = CommentStatus.reported ∧
      c2.reportCount = 5) :=
  ⟨by decide,
   ((five_distinct_reports storeA 10 (mkComment 10 1 1 none 0 CommentStatus.active 0)
      [spamBy 3, spamBy 4, spamBy 3, spamBy 5, spamBy 6] (spamBy 7)
      (by decide) (by decide) (by decide) (by decide) (by decide) (by decide)
      (by decide)).1 5
      [Response.commentReported, Response.commentReported, Response.commentReported,
        Response.commentReported, Response.commentReported, Response.commentReported]
      storeAFive (by decide)).2.1⟩

/-! ## Ownership, edits and validation -/

theorem checkOwnership_of_missing {st : Store} {user : User} {id : Nat}
    (h : st.findComment id = none) :
    checkOwnership st user id = some (Response.error 404 Code.RESOURCE_NOT_FOUND) := by
  unfold checkOwnership
  rw [h]

theorem checkOwnership_of_stranger {st : Store} {user : User} {id : Nat} {c : Comment}
    (h : st.findComment id = some c) (hrole : user.role ≠ "admin")
    (hauthor : c.author ≠ user.id) :
    checkOwnership st user id = some (Response.error 403 Code.ACCESS_DENIED) := by
  unfold checkOwnership
  rw [h]
  simp [hrole, hauthor]

theorem checkOwnership_of_owner {st : Store} {user : User} {id : Nat} {c : Comment}
    (h : st.findComment id = some c) (hauth : user.role = "admin" ∨ c.author = user.id) :
    checkOwnership st user id = none := by
  unfold checkOwnership
  rw [h]
  rcases hauth with h1 | h1
  · simp [h1]
  · simp [h1]

/-- The middleware lets a request through exactly for a stored comment and an actor who
is an admin or the author. -/
theorem checkOwnership_none {st : Store} {user : User} {id : Nat}
    (h : checkOwnership st user id = none) :
    ∃ c, st.findComment id = some c ∧ (user.role = "admin" ∨ c.author = user.id) := by
  cases hf : st.findComment id with
  | none => rw [checkOwnership_of_missing hf] at h; exact Option.noConfusion h
  | some c =>
    refine ⟨c, rfl, ?_⟩
    by_cases hrole : user.role = "admin"
    · exact Or.inl hrole
    · by_cases hauthor : c.author = user.id
      · exact Or.inr hauthor
      · rw [checkOwnership_of_stranger hf hrole hauthor] at h
        exact Option.noConfusion h

theorem checkOwnership_some {st : Store} {user : User} {id : Nat} {r : Response}
    (h : checkOwnership st user id = some r) : ∃ s code, r = Response.error s code := by
  unfold checkOwnership at h
  split at h
  · injection h with h; exact ⟨_, _, h.symm⟩
  · split at h
    · exact Option.noConfusion h
    · split at h
      · injection h with h; exact ⟨_, _, h.symm⟩
      · exact Option.noConfusion h

/-- C22: `editComment` and `deleteComment` answer 404 RESOURCE_NOT_FOUND for a missing
comment and 403 ACCESS_DENIED for an actor who is neither admin nor the author, the
store being unchanged in both cases; for an admin or the author the ownership check
passes, `deleteComment` answers COMMENT_DELETED and `editComment` answers neither of the
two errors. -/
theorem ownership_gate (st : Store) (user : User) (id : Nat) (body : EditCommentBody)
    (now : Nat) :
    (st.findComment id = none →
      editComment st user id body now
        = (Response.error 404 Code.RESOURCE_NOT_FOUND, st) ∧
      deleteComment st user id = (Response.error 404 Code.RESOURCE_NOT_FOUND, st)) ∧
    (∀ c, st.findComment id = some c → ¬ (user.role = "admin" ∨ c.author = user.id) →
      editComment st user id body now = (Response.error 403 Code.ACCESS_DENIED, st) ∧
      deleteComment st user id = (Response.error 403 Code.ACCESS_DENIED, st)) ∧
    (∀ c, st.findComment id = some c → (user.role = "admin" ∨ c.author = user.id) →
      checkOwnership st user id = none ∧
      (deleteComment st user id).1 = Response.commentDeleted ∧
      (editComment st user id body now).1 ≠ Response.error 404 Code.RESOURCE_NOT_FOUND ∧
      (editComment st user id body now).1 ≠ Response.error 403 Code.ACCESS_DENIED) := by
  refine ⟨?_, ?_, ?_⟩
  · intro h
    have ho := @checkOwnership_of_missing st user id h
    constructor
    · unfold editComment; rw [ho]
    · unfold deleteComment; rw [ho]
  · intro c h hna
    have hrole : user.role ≠ "admin" := fun e => hna (Or.inl e)
    have hauthor : c.author ≠ user.id := fun e => hna (Or.inr e)
    have ho := checkOwnership_of_stranger h hrole hauthor
    constructor
    · unfold editComment; rw [ho]
    · unfold deleteComment; rw [ho]
  · intro c h hauth
    have ho := checkOwnership_of_owner h hauth
    refine ⟨ho, ?_, ?_, ?_⟩
    · unfold deleteComment; rw [ho]
    · unfold editComment
      rw [ho]
      simp only
      split
      · simp
      · split <;> simp
    · unfold editComment
      rw [ho]
      simp only
      split
      · simp
      · split <;> simp

theorem ownership_gate_witness :
    (editComment storeA ⟨2, "user"⟩ 10 ⟨"new", none⟩ 7
        = (Response.error 403 Code.ACCESS_DENIED, storeA) ∧
      deleteComment storeA ⟨2, "user"⟩ 10 = (Response.error 403 Code.ACCESS_DENIED, storeA)) ∧
    (editComment storeA ⟨2, "user"⟩ 99 ⟨"new", none⟩ 7
        = (Response.error 404 Code.RESOURCE_NOT_FOUND, storeA) ∧
      deleteComment storeA ⟨2, "user"⟩ 99
        = (Response.error 404 Code.RESOURCE_NOT_FOUND, storeA)) ∧
    (deleteComment storeA ⟨2, "admin"⟩ 10).1 = Response.commentDeleted :=
  ⟨(ownership_gate storeA ⟨2, "user"⟩ 10 ⟨"new", none⟩ 7).2.1
      (mkComment 10 1 1 none 0 CommentStatus.active 0) (by decide) (by decide),
   (ownership_gate storeA ⟨2, "user"⟩ 99 ⟨"new", none⟩ 7).1 (by decide),
   ((ownership_gate storeA ⟨2, "admin"⟩ 10 ⟨"new", none⟩ 7).2.2
      (mkComment 10 1 1 none 0 CommentStatus.active 0) (by decide)
      (Or.inl (by decide))).2.1⟩

/-- C23: when `editComment` answers with the updated comment, the stored comment has the
trimmed request content as `content`, `isEdited` true and the old edit history with one
entry appended; its status, likes, `likeCount`, reports, `reportCount` and `replyCount`,
every other comment and every post (so every `commentCount`) are as before. -/
theorem editComment_effect (st st1 : Store) (user : User) (id : Nat)
    (body : EditCommentBody) (now : Nat) (oc : Option Comment)
    (h : editComment st user id body now = (Response.updated oc, st1)) :
    ∃ c c1, st.findComment id = some c ∧ st1.findComment id = some c1 ∧ oc = some c1 ∧
      c1.content = jsTrim body.content ∧ c1.isEdited = true ∧
      (∃ entry, c1.editHistory = c.editHistory ++ [entry]) ∧
      c1.status = c.status ∧ c1.likes = c.likes ∧ c1.likeCount = c.likeCount ∧
      c1.reports = c.reports ∧ c1.reportCount = c.reportCount ∧
      c1.replyCount = c.replyCount ∧ c1.post = c.post ∧ c1.author = c.author ∧
      c1.parentComment = c.parentComment ∧ c1.depth = c.depth ∧
      st1.posts = st.posts ∧ ∀ j, j ≠ id → st1.findComment j = st.findComment j := by
  unfold editComment at h
  split at h
  · rename_i r ho
    obtain ⟨s, code, hr⟩ := checkOwnership_some ho
    rw [hr] at h
    simp at h
  · rename_i ho
    obtain ⟨c, hfind, _⟩ := checkOwnership_none ho
    split at h
    · simp at h
    · simp only at h
      split at h
      · simp at h
      · simp only [Prod.mk.injEq, Response.updated.injEq] at h
        obtain ⟨hoc, hst⟩ := h
        have hself := find_updateById_self id
          (fun c : Comment =>
            { c with
              content := jsTrim body.content
              isEdited := true
              lastEditedAt := some now
              editHistory := c.editHistory ++
                [{ editedAt := now, reason := orDefault body.editReason "내용 수정" }] })
          st.comments c hfind (show c.id = id from findComment_id hfind)
        have hself1 : st1.findComment id = some
            { c with
              content := jsTrim body.content
              isEdited := true
              lastEditedAt := some now
              editHistory := c.editHistory ++
                [{ editedAt := now, reason := orDefault body.editReason "내용 수정" }] } := by
          rw [← hst]; exact hself
        refine ⟨c, _, hfind, hself1, ?_, rfl, rfl, ⟨_, rfl⟩, rfl, rfl, rfl, rfl, rfl, rfl,
          rfl, rfl, rfl, rfl, ?_, ?_⟩
        · rw [← hoc, ← hself1, ← hst]
        · rw [← hst]
        · intro j hj
          rw [← hst]
          exact find_updateById_ne id j _ st.comments (fun _ => rfl) hj

theorem editComment_effect_witness :
    ∃ c c1, storeA.findComment 10 = some c ∧
      (editComment storeA ⟨1, "user"⟩ 10 ⟨" new ", none⟩ 7).2.findComment 10 = some c1 ∧
      (storeA.findComment 10).map
          (fun c => { c with
            content := "new", isEdited := true, lastEditedAt := some 7,
            editHistory := [{ editedAt := 7, reason := "내용 수정" }] }) = some c1 ∧
      c1.content = jsTrim " new " ∧ c1.isEdited = true ∧
      (∃ entry, c1.editHistory = c.editHistory ++ [entry]) ∧
      c1.status = c.status ∧ c1.likes = c.likes ∧ c1.likeCount = c.likeCount ∧
      c1.reports = c.reports ∧ c1.reportCount = c.reportCount ∧
      c1.replyCount = c.replyCount ∧ c1.post = c.post ∧ c1.author = c.author ∧
      c1.parentComment = c.parentComment ∧ c1.depth = c.depth ∧
      (editComment storeA ⟨1, "user"⟩ 10 ⟨" new ", none⟩ 7).2.posts = storeA.posts ∧
      ∀ j, j ≠ 10 →
        (editComment storeA ⟨1, "user"⟩ 10 ⟨" new ", none⟩ 7).2.findComment j
          = storeA.findComment j :=
  editComment_effect storeA (editComment storeA ⟨1, "user"⟩ 10 ⟨" new ", none⟩ 7).2
    ⟨1, "user"⟩ 10 ⟨" new ", none⟩ 7
    ((storeA.findComment 10).map
      (fun c => { c with
        content := "new", isEdited := true, lastEditedAt := some 7,
        editHistory := [{ editedAt := 7, reason := "내용 수정" }] }))
    (by decide)

theorem contentValid_eq_false_iff (content : String) :
    contentValid content = false ↔
      validatorLength (jsTrim content) = 0 ∨ 1000 < validatorLength (jsTrim content) := by
  unfold contentValid isLength
  rw [Bool.eq_false_iff]
  simp only [ne_eq, Bool.and_eq_true, decide_eq_true_eq]
  omega

theorem contentValid_eq_true_iff (content : String) :
    contentValid content = true ↔
      1 ≤ validatorLength (jsTrim content) ∧ validatorLength (jsTrim content) ≤ 1000 := by
  unfold contentValid isLength
  simp only [Bool.and_eq_true, decide_eq_true_eq]

set_option maxRecDepth 100000 in
/-- C25, as stated, fails: `longContent` has trimmed length 1001, in code points and in
UTF-16 code units alike, yet `postComment` with it on the active post 1 of `storeA`
answers 500 COMMENT_CREATION_ERROR after the post lookup and `editComment` by the author
answers 500 COMMENT_UPDATE_ERROR, neither of them VALIDATION_ERROR: the validation chain
counts 1000 and lets it pass, and the schema `maxlength` then rejects it. -/
theorem long_content_not_validation_error :
    (jsTrim longContent).length = 1001 ∧ utf16Length (jsTrim longContent) = 1001 ∧
    validatorLength (jsTrim longContent) = 1000 ∧
    postComment 5 storeA ⟨2, "user"⟩
        { content := longContent, post := 1, parentComment := none, language := none,
          isAnonymous := none, depth := none } 11
      = some (Response.error 500 Code.COMMENT_CREATION_ERROR, storeA) ∧
    postComment 5 storeEmpty ⟨2, "user"⟩
        { content := longContent, post := 1, parentComment := none, language := none,
          isAnonymous := none, depth := none } 11
      = some (Response.error 404 Code.POST_NOT_FOUND, storeEmpty) ∧
    editComment storeA ⟨1, "user"⟩ 10 ⟨longContent, none⟩ 7
      = (Response.error 500 Code.COMMENT_UPDATE_ERROR, storeA) := by
  decide

/-- C25 amended: content whose trimmed length as the validation chain counts it
(UTF-16 code units, a surrogate pair counted once, a variation selector U+FE0E or U+FE0F
that directly follows another code unit not counted) is 0 or above 1000 makes
`postComment` answer 400 VALIDATION_ERROR on every store, with the store unchanged, and
makes `editComment` by an admin or the author of a stored comment answer
400 VALIDATION_ERROR with the store unchanged; content for which that count is between
1 and 1000 never gets a VALIDATION_ERROR answer from either route. -/
theorem content_validation (fuel : Nat) (st : Store) (user : User)
    (body : PostCommentBody) (newId id : Nat) (edit : EditCommentBody) (now : Nat) :
    (validatorLength (jsTrim body.content) = 0 ∨
        1000 < validatorLength (jsTrim body.content) →
      postComment fuel st user body newId
        = some (Response.error 400 Code.VALIDATION_ERROR, st)) ∧
    (validatorLength (jsTrim edit.content) = 0 ∨
        1000 < validatorLength (jsTrim edit.content) →
      ∀ c, st.findComment id = some c → (user.role = "admin" ∨ c.author = user.id) →
        editComment st user id edit now = (Response.error 400 Code.VALIDATION_ERROR, st)) ∧
    (1 ≤ validatorLength (jsTrim body.content) ∧
        validatorLength (jsTrim body.content) ≤ 1000 →
      ∀ r st1 s, postComment fuel st user body newId = some (r, st1) →
        r ≠ Response.error s Code.VALIDATION_ERROR) ∧
    (1 ≤ validatorLength (jsTrim edit.content) ∧
        validatorLength (jsTrim edit.content) ≤ 1000 →
      ∀ s, (editComment st user id edit now).1 ≠ Response.error s Code.VALIDATION_ERROR) := by
  refine ⟨?_, ?_, ?_, ?_⟩
  · intro h
    have hv := (contentValid_eq_false_iff body.content).mpr h
    simp [postComment, hv]
  · intro h c hfind hauth
    have hv := (contentValid_eq_false_iff edit.content).mpr h
    have ho := checkOwnership_of_owner hfind hauth
    unfold editComment
    rw [ho]
    simp [hv]
  · intro h r st1 s hpost hr
    have hv := (contentValid_eq_true_iff body.content).mpr h
    rw [hr] at hpost
    unfold postComment at hpost
    simp only [hv, Bool.not_true, Bool.false_eq_true, if_false] at hpost
    split at hpost
    · simp at hpost
    · split at hpost
      · simp at hpost
      · split at hpost
        · rename_i status code hres
          simp only [Option.some.injEq, Prod.mk.injEq, Response.error.injEq] at hpost
          obtain ⟨⟨_, hcode⟩, _⟩ := hpost
          subst hcode
          unfold resolveDepth at hres
          split at hres
          · simp at hres
          · split at hres
            · simp at hres
            · split at hres
              · simp at hres
              · split at hres
                · simp at hres
                · simp at hres
        · split at hpost
          · simp at hpost
          · split at hpost
            · simp at hpost
            · simp at hpost
  · intro h s hr
    have hv := (contentValid_eq_true_iff edit.content).mpr h
    unfold editComment at hr
    split at hr
    · rename_i r ho
      unfold checkOwnership at ho
      split at ho
      · injection ho with ho
        rw [← ho] at hr
        simp at hr
      · split at ho
        · exact Option.noConfusion ho
        · split at ho
          · injection ho with ho
            rw [← ho] at hr
            simp at hr
          · exact Option.noConfusion ho
    · simp only [hv, Bool.not_true, Bool.false_eq_true, if_false] at hr
      split at hr
      · simp at hr
      · simp at hr

theorem content_validation_witness :
    postComment 0 storeEmpty ⟨2, "user"⟩
        { content := "  ", post := 1, parentComment := none, language := none,
          isAnonymous := none, depth := none } 11
      = some (Response.error 400 Code.VALIDATION_ERROR, storeEmpty) ∧
    editComment storeA ⟨1, "user"⟩ 10 ⟨"  ", none⟩ 7
      = (Response.error 400 Code.VALIDATION_ERROR, storeA) ∧
    Response.created replyB ≠ Response.error 400 Code.VALIDATION_ERROR ∧
    (editComment storeA ⟨1, "user"⟩ 10 ⟨"hi", none⟩ 7).1
      ≠ Response.error 400 Code.VALIDATION_ERROR :=
  ⟨(content_validation 0 storeEmpty ⟨2, "user"⟩
      { content := "  ", post := 1, parentComment := none, language := none,
        isAnonymous := none, depth := none } 11 10 ⟨"  ", none⟩ 7).1 (Or.inl (by decide)),
   (content_validation 0 storeA ⟨1, "user"⟩ (mkBody 1 none none) 11 10 ⟨"  ", none⟩ 7).2.1
      (Or.inl (by decide)) (mkComment 10 1 1 none 0 CommentStatus.active 0) (by decide)
      (Or.inr (by decide)),
   (content_validation 5 storeA ⟨2, "user"⟩ (mkBody 1 (some 10) none) 11 10
      ⟨"hi", none⟩ 7).2.2.1 ⟨by decide, by decide⟩ (Response.created replyB) storeAReplied
      400 (by decide),
   (content_validation 5 storeA ⟨1, "user"⟩ (mkBody 1 (some 10) none) 11 10
      ⟨"hi", none⟩ 7).2.2.2 ⟨by decide, by decide⟩ 400⟩

/-! ## Missing and non-active targets -/

/-- C26, as stated, fails: a comment posted on the closed post 1 of `storeClosed` and
one posted on a post that does not exist get the same answer 404 POST_NOT_FOUND, and a
report on the deleted comment 10 of `storeADeleted` gets the same answer 404
COMMENT_NOT_FOUND as a report on a comment that does not exist. -/
theorem not_active_same_answer_as_missing :
    (storeClosed.findPost 1).map Post.status = some PostStatus.closed ∧
    storeEmpty.findPost 1 = none ∧
    (postComment 5 storeClosed ⟨2, "user"⟩ (mkBody 1 none none) 11).map Prod.fst
      = (postComment 5 storeEmpty ⟨2, "user"⟩ (mkBody 1 none none) 11).map Prod.fst ∧
    (storeADeleted.findComment 10).map Comment.status = some CommentStatus.deleted ∧
    storeEmpty.findComment 10 = none ∧
    (reportComment 5 storeADeleted ⟨2, "user"⟩ 10 ⟨"spam", none⟩).map Prod.fst
      = (reportComment 5 storeEmpty ⟨2, "user"⟩ 10 ⟨"spam", none⟩).map Prod.fst := by
  decide

/-- C26 amended: for a request that passes validation, `postComment` answers 404
POST_NOT_FOUND both when the post is missing and when it is stored with a status other
than active, and 404 PARENT_COMMENT_NOT_FOUND both when the named parent is missing and
when it is not active; `reportComment` answers 404 COMMENT_NOT_FOUND both when the
comment is missing and when it is not active. The store is unchanged in every case. -/
theorem not_active_answered_as_not_found (fuel : Nat) (st : Store) (user : User)
    (body : PostCommentBody) (newId id : Nat) (report : ReportBody)
    (hv : contentValid body.content = true) (hrv : reportValid report = true) :
    ((∀ post, st.findPost body.post = some post → post.status ≠ PostStatus.active) →
      postComment fuel st user body newId
        = some (Response.error 404 Code.POST_NOT_FOUND, st)) ∧
    (∀ post pid, st.findPost body.post = some post → post.status = PostStatus.active →
      body.parentComment = some pid →
      (∀ parent, st.findComment pid = some parent →
        parent.status ≠ CommentStatus.active) →
      postComment fuel st user body newId
        = some (Response.error 404 Code.PARENT_COMMENT_NOT_FOUND, st)) ∧
    ((∀ c, st.findComment id = some c → c.status ≠ CommentStatus.active) →
      reportComment fuel st user id report
        = some (Response.error 404 Code.COMMENT_NOT_FOUND, st)) := by
  refine ⟨?_, ?_, ?_⟩
  · intro h
    unfold postComment
    cases hf : st.findPost body.post with
    | none => simp [hv]
    | some post => simp [hv, h post hf]
  · intro post pid hpost hpa hp h
    unfold postComment
    cases hf : st.findComment pid with
    | none => simp [hv, hpost, hpa, resolveDepth, hp, hf]
    | some parent => simp [hv, hpost, hpa, resolveDepth, hp, hf, h parent hf]
  · intro h
    unfold reportComment
    cases hf : st.findComment id with
    | none => simp [hrv]
    | some c => simp [hrv, h c hf]

theorem not_active_answered_as_not_found_witness :
    postComment 5 storeClosed ⟨2, "user"⟩ (mkBody 1 none none) 11
      = some (Response.error 404 Code.POST_NOT_FOUND, storeClosed) ∧
    reportComment 5 storeADeleted ⟨2, "user"⟩ 10 ⟨"spam", none⟩
      = some (Response.error 404 Code.COMMENT_NOT_FOUND, storeADeleted) :=
  ⟨(not_active_answered_as_not_found 5 storeClosed ⟨2, "user"⟩ (mkBody 1 none none) 11 10
      ⟨"spam", none⟩ (by decide) (by decide)).1 (by decide),
   (not_active_answered_as_not_found 5 storeADeleted ⟨2, "user"⟩ (mkBody 1 none none) 11 10
      ⟨"spam", none⟩ (by decide) (by decide)).2.2 (by decide)⟩

/-! ## Frame of the like route and post references -/

/-- C28 at a concrete request: in `storeAB` post 1 has `commentCount` 2; after user 1
likes the active reply 11 the route answers `isLiked` true and `likeCount` 1, the reply
differs from before only in `likes` and `likeCount`, comment 10 is as before, yet
post 1 has `commentCount` 4 while still two active comments are stored on it. -/
theorem toggleLike_changes_commentCount :
    toggleLike 5 storeAB ⟨1, "user"⟩ 11 = some (Response.liked true 1, storeABLiked) ∧
    storeABLiked.findComment 11
      = (storeAB.findComment 11).map
          (fun c => { c with likes := [{ user := 1 }], likeCount := 1 }) ∧
    storeABLiked.findComment 10 = storeAB.findComment 10 ∧
    (storeAB.findPost 1).map Post.commentCount = some 2 ∧
    (storeABLiked.findPost 1).map Post.commentCount = some 4 ∧
    storeABLiked.countActiveOnPost 1 = 2 := by
  decide

/-- C29, as stated, fails: in `storeTwoPosts` comment 10 is on post 1; a comment posted
on post 2 with parent 10 is created, and the stored reply 11 refers to post 2 while its
parent still refers to post 1. -/
theorem postComment_reply_across_posts :
    postComment 5 storeTwoPosts ⟨2, "user"⟩ (mkBody 2 (some 10) none) 11
      = some (Response.created (mkComment 11 2 2 (some 10) 1 CommentStatus.active 0),
          storeTwoPostsReplied) ∧
    (storeTwoPostsReplied.findComment 11).map Comment.post = some 2 ∧
    (storeTwoPostsReplied.findComment 11).map Comment.parentComment = some (some 10) ∧
    (storeTwoPostsReplied.findComment 10).map Comment.post = some 1 := by
  decide

/-- C29 amended: after a successful `postComment` that names a parent, the stored new
comment refers to the post named in the request and to that parent, and the parent
refers to the post it referred to before; the two post references agree exactly when
the request names the parent's post. -/
theorem postComment_post_reference (fuel : Nat) (st st1 : Store) (user : User)
    (body : PostCommentBody) (newId pid : Nat) (comment : Comment)
    (h : postComment fuel st user body newId = some (Response.created comment, st1))
    (hp : body.parentComment = some pid) :
    ∃ stored parent parent1, st1.findComment newId = some stored ∧
      stored.post = body.post ∧ stored.parentComment = some pid ∧
      st.findComment pid = some parent ∧ st1.findComment pid = some parent1 ∧
      parent1.post = parent.post ∧
      (stored.post = parent1.post ↔ body.post = parent.post) := by
  obtain ⟨_, _, hdepth, hid, hpost, hpc, _, _, _, hnew, hsave⟩ := postComment_created h
  rw [hp] at hdepth hpc
  obtain ⟨parent, hparent, _, _, _⟩ := hdepth
  have hne : pid ≠ comment.id := by
    intro e
    rw [e, hid, hnew] at hparent
    exact Option.noConfusion hparent
  obtain ⟨stored, hstored, hcore⟩ := save_findComment_self hsave
  rw [hid] at hstored
  obtain ⟨parent1, hp1, hc1⟩ := save_findComment_other hsave hne hparent
  have hsp : stored.post = body.post := by rw [core_post hcore, hpost]
  have hpp : parent1.post = parent.post := core_post hc1
  refine ⟨stored, parent, parent1, hstored, hsp, ?_, hparent, hp1, hpp, ?_⟩
  · rw [core_parentComment hcore, hpc]
  · rw [hsp, hpp]

theorem postComment_post_reference_witness :
    ∃ stored parent parent1, storeTwoPostsReplied.findComment 11 = some stored ∧
      stored.post = (mkBody 2 (some 10) none).post ∧ stored.parentComment = some 10 ∧
      storeTwoPosts.findComment 10 = some parent ∧
      storeTwoPostsReplied.findComment 10 = some parent1 ∧
      parent1.post = parent.post ∧
      (stored.post = parent1.post ↔ (mkBody 2 (some 10) none).post = parent.post) :=
  postComment_post_reference 5 storeTwoPosts storeTwoPostsReplied ⟨2, "user"⟩
    (mkBody 2 (some 10) none) 11 10 (mkComment 11 2 2 (some 10) 1 CommentStatus.active 0)
    (by decide) (by decide)

/-! ## What one request can do to a stored comment -/

theorem post_toggleLike (c : Comment) (u : Nat) : (c.toggleLike u).post = c.post := by
  unfold Comment.toggleLike
  split <;> rfl

theorem post_addReport (c : Comment) (u : Nat) (reason : String) (d : Option String) :
    (c.addReport u reason d).post = c.post := by
  unfold Comment.addReport
  split
  · rfl
  · simp only
    split <;> rfl

theorem status_addReport (c : Comment) (u : Nat) (reason : String) (d : Option String) :
    (c.addReport u reason d).status = c.status ∨
      (c.addReport u reason d).status = CommentStatus.reported := by
  unfold Comment.addReport
  split
  · exact Or.inl rfl
  · simp only
    split
    · exact Or.inr rfl
    · exact Or.inl rfl

/-- A stored comment after a finished save: untouched up to `replyCount`, or it is the
saved document itself. -/
theorem save_find {fuel : Nat} {st st1 : Store} {doc c : Comment} {id : Nat}
    (h : save fuel st doc = some st1) (hfind : st.findComment id = some c) :
    ∃ c1, st1.findComment id = some c1 ∧
      (c1.core = c.core ∨ (id = doc.id ∧ c1.core = doc.core)) := by
  by_cases hid : id = doc.id
  · obtain ⟨c1, hc1, hcore⟩ := save_findComment_self h
    rw [← hid] at hc1
    exact ⟨c1, hc1, Or.inr ⟨hid, hcore⟩⟩
  · obtain ⟨c1, hc1, hcore⟩ := save_findComment_other h hid hfind
    exact ⟨c1, hc1, Or.inl hcore⟩

theorem find_updateById (id j : Nat) (f : Comment → Comment) (l : List Comment)
    (c : Comment) (hf : ∀ x, (f x).id = x.id)
    (h : l.find? (fun x => x.id == j) = some c) :
    (updateById id f l).find? (fun x => x.id == j) = some (if j = id then f c else c) := by
  have hcid : c.id = j := by
    have := List.find?_some h
    simpa using this
  by_cases hj : j = id
  · subst hj
    rw [if_pos rfl]
    exact find_updateById_self j f l c h (by rw [hf, hcid])
  · rw [if_neg hj, find_updateById_ne id j f l hf hj]
    exact h

/-- After any one request, a stored comment is still stored under its id with the same
post reference, and its status is the old one, or went from active to reported, or was
set to deleted by a delete request for that id. -/
theorem step_find {fuel : Nat} {st st1 : Store} {op : Op} {r : Response} {id : Nat}
    {c : Comment} (h : step fuel st op = some (r, st1))
    (hfind : st.findComment id = some c) :
    ∃ c1, st1.findComment id = some c1 ∧ c1.post = c.post ∧
      (c1.status = c.status ∨
        (c.status = CommentStatus.active ∧ c1.status = CommentStatus.reported) ∨
        ((∃ user, op = Op.deleteComment user id) ∧ c1.status = CommentStatus.deleted)) := by
  have hsame : ∀ {s : Store}, s = st → ∃ c1, s.findComment id = some c1 ∧ c1.post = c.post ∧
      (c1.status = c.status ∨
        (c.status = CommentStatus.active ∧ c1.status = CommentStatus.reported) ∨
        ((∃ user, op = Op.deleteComment user id) ∧ c1.status = CommentStatus.deleted)) := by
    intro s hs
    rw [hs]
    exact ⟨c, hfind, rfl, Or.inl rfl⟩
  cases op with
  | postComment user body newId =>
    have h1 : postComment fuel st user body newId = some (r, st1) := h
    rcases postComment_cases fuel st user body newId with ⟨s, code, he⟩ | ⟨d, _, hn, he⟩
    · rw [he] at h1
      injection h1 with h1
      exact hsame (Prod.mk.inj h1).2.symm
    · rw [he] at h1
      cases hs : save fuel st (commentData user body newId d) with
      | none => simp [hs] at h1
      | some st2 =>
        simp only [hs, Option.map_some', Option.some.injEq, Prod.mk.injEq] at h1
        rw [← h1.2]
        obtain ⟨c1, hc1, hcore | ⟨hid, _⟩⟩ := save_find hs hfind
        · exact ⟨c1, hc1, core_post hcore, Or.inl (core_status hcore)⟩
        · have hid2 : id = newId := hid
          rw [hid2, hn] at hfind
          exact Option.noConfusion hfind
  | editComment user id1 body now =>
    have h1 : some (editComment st user id1 body now) = some (r, st1) := h
    injection h1 with h1
    have h2 : (editComment st user id1 body now).2 = st1 := by rw [h1]
    rw [← h2]
    unfold editComment
    split
    · exact hsame rfl
    · split
      · exact hsame rfl
      · simp only
        split
        · exact hsame rfl
        · refine ⟨_, find_updateById id1 id _ st.comments c (fun _ => rfl) hfind, ?_, ?_⟩
          · split <;> rfl
          · left
            split <;> rfl
  | deleteComment user id1 =>
    have h1 : some (deleteComment st user id1) = some (r, st1) := h
    injection h1 with h1
    have h2 : (deleteComment st user id1).2 = st1 := by rw [h1]
    rw [← h2]
    unfold deleteComment
    split
    · exact hsame rfl
    · refine ⟨_, find_updateById id1 id _ st.comments c (fun _ => rfl) hfind, ?_, ?_⟩
      · split <;> rfl
      · by_cases hid : id = id1
        · right; right
          rw [if_pos hid]
          exact ⟨⟨user, by rw [hid]⟩, rfl⟩
        · left
          rw [if_neg hid]
  | toggleLike user id1 =>
    have h1 : toggleLike fuel st user id1 = some (r, st1) := h
    rcases toggleLike_cases fuel st user id1 with he | ⟨comment, hf, _, he⟩
    · rw [he] at h1
      injection h1 with h1
      exact hsame (Prod.mk.inj h1).2.symm
    · rw [he] at h1
      cases hs : save fuel st (comment.toggleLike user.id) with
      | none => simp [hs] at h1
      | some st2 =>
        simp only [hs, Option.map_some', Option.some.injEq, Prod.mk.injEq] at h1
        rw [← h1.2]
        obtain ⟨c1, hc1, hcore | ⟨hid, hcore⟩⟩ := save_find hs hfind
        · exact ⟨c1, hc1, core_post hcore, Or.inl (core_status hcore)⟩
        · rw [id_toggleLike, findComment_id hf] at hid
          rw [hid, hf] at hfind
          injection hfind with hfind
          subst hfind
          refine ⟨c1, hc1, ?_, Or.inl ?_⟩
          · rw [core_post hcore, post_toggleLike]
          · rw [core_status hcore, status_toggleLike]
  | reportComment user id1 body =>
    have h1 : reportComment fuel st user id1 body = some (r, st1) := h
    rcases reportComment_cases fuel st user id1 body with
      ⟨s, code, he⟩ | ⟨comment, hf, hact, _, he⟩
    · rw [he] at h1
      injection h1 with h1
      exact hsame (Prod.mk.inj h1).2.symm
    · rw [he] at h1
      cases hs : save fuel st (comment.addReport user.id body.reason body.description) with
      | none => simp [hs] at h1
      | some st2 =>
        simp only [hs, Option.map_some', Option.some.injEq, Prod.mk.injEq] at h1
        rw [← h1.2]
        obtain ⟨c1, hc1, hcore | ⟨hid, hcore⟩⟩ := save_find hs hfind
        · exact ⟨c1, hc1, core_post hcore, Or.inl (core_status hcore)⟩
        · rw [id_addReport, findComment_id hf] at hid
          rw [hid, hf] at hfind
          injection hfind with hfind
          subst hfind
          refine ⟨c1, hc1, ?_, ?_⟩
          · rw [core_post hcore, post_addReport]
          · rw [core_status hcore]
            rcases status_addReport comment user.id body.reason body.description with e | e
            · exact Or.inl e
            · exact Or.inr (Or.inl ⟨hact, e⟩)

/-- Under the depth invariant `postComment` returns within four saves. -/
theorem postComment_returns (st : Store) (user : User) (body : PostCommentBody)
    (newId : Nat) (hinv : DepthInv st) (fuel : Nat) (hfuel : 4 ≤ fuel) :
    ∃ r st1, postComment fuel st user body newId = some (r, st1) := by
  rcases postComment_cases fuel st user body newId with ⟨s, c, he⟩ | ⟨d, hd, hn, he⟩
  · exact ⟨_, _, he⟩
  · obtain ⟨st2, hs⟩ := (@save_new_DepthInv st (commentData user body newId d)
      hn (depthOk_commentData hd) hinv).2 fuel hfuel
    exact ⟨_, st2, by rw [he, hs]; rfl⟩

/-- Under the depth invariant every request returns within four saves. -/
theorem step_returns (st : Store) (op : Op) (hinv : DepthInv st) (fuel : Nat)
    (hfuel : 4 ≤ fuel) : ∃ r st1, step fuel st op = some (r, st1) := by
  cases op with
  | postComment user body newId => exact postComment_returns st user body newId hinv fuel hfuel
  | editComment user id body now => exact ⟨_, _, rfl⟩
  | deleteComment user id => exact ⟨_, _, rfl⟩
  | toggleLike user id =>
    obtain ⟨r, st1, h, _⟩ := toggleLike_returns st user id hinv fuel hfuel
    exact ⟨r, st1, h⟩
  | reportComment user id body =>
    obtain ⟨r, st1, h, _⟩ := reportComment_returns st user id body hinv fuel hfuel
    exact ⟨r, st1, h⟩

/-! ## Terminal states and the post reference -/

/-- C21, as stated, fails: reply 11 of `storeAB4Reported` has status `reported`, and a
delete request by its author, user 2, is answered COMMENT_DELETED and leaves it with
status `deleted`. -/
theorem deleteComment_leaves_reported_state :
    (storeAB4Reported.findComment 11).map Comment.status = some CommentStatus.reported ∧
    step 5 storeAB4Reported (Op.deleteComment ⟨2, "user"⟩ 11)
      = some (Response.commentDeleted, storeAB4ReportedDeleted) ∧
    (storeAB4ReportedDeleted.findComment 11).map Comment.status
      = some CommentStatus.deleted := by
  decide

/-- C21 amended: for a stored comment whose status is not active (hidden, reported or
deleted), every request other than a delete request for that comment leaves its status
as it was, whoever sends it; a delete request for it sets the status to `deleted` when
the actor is an admin or the author and leaves it as it was otherwise. Under the depth
invariant every request returns with fuel for four saves. -/
theorem terminal_status_frame (st : Store) (op : Op) (id : Nat) (c : Comment)
    (hfind : st.findComment id = some c) (hterm : c.status ≠ CommentStatus.active) :
    (∀ fuel r st1, step fuel st op = some (r, st1) →
      ∃ c1, st1.findComment id = some c1 ∧
        ((∀ user, op ≠ Op.deleteComment user id) → c1.status = c.status) ∧
        (∀ user, op = Op.deleteComment user id →
          ((user.role = "admin" ∨ c.author = user.id) →
            c1.status = CommentStatus.deleted) ∧
          (¬ (user.role = "admin" ∨ c.author = user.id) → c1.status = c.status))) ∧
    (DepthInv st → ∀ fuel, 4 ≤ fuel → ∃ r st1, step fuel st op = some (r, st1)) := by
  constructor
  · intro fuel r st1 h
    obtain ⟨c1, hc1, _, hstatus⟩ := step_find h hfind
    refine ⟨c1, hc1, ?_, ?_⟩
    · intro hnd
      rcases hstatus with e | ⟨e, _⟩ | ⟨⟨user, e⟩, _⟩
      · exact e
      · exact absurd e hterm
      · exact absurd e (hnd user)
    · intro user hop
      subst hop
      have h1 : some (deleteComment st user id) = some (r, st1) := h
      injection h1 with h1
      have h2 : (deleteComment st user id).2 = st1 := by rw [h1]
      constructor
      · intro hauth
        have ho := checkOwnership_of_owner hfind hauth
        have hst : st1.findComment id = some { c with status := CommentStatus.deleted } := by
          rw [← h2]
          unfold deleteComment
          rw [ho]
          exact find_updateById_self id
            (fun c => { c with status := CommentStatus.deleted }) st.comments c hfind
            (show c.id = id from findComment_id hfind)
        rw [hst] at hc1
        injection hc1 with hc1
        rw [← hc1]
      · intro hna
        have hrole : user.role ≠ "admin" := fun e => hna (Or.inl e)
        have hauthor : c.author ≠ user.id := fun e => hna (Or.inr e)
        have ho := checkOwnership_of_stranger hfind hrole hauthor
        have hst : st1 = st := by
          rw [← h2]
          unfold deleteComment
          rw [ho]
        rw [hst, hfind] at hc1
        injection hc1 with hc1
        rw [← hc1]
  · intro hinv fuel hfuel
    exact step_returns st op hinv fuel hfuel

theorem terminal_status_frame_witness :
    (∃ c1, storeAB4ReportedDeleted.findComment 11 = some c1 ∧
      c1.status = CommentStatus.deleted) ∧
    (∃ c1, storeAB4Reported.findComment 11 = some c1 ∧
      c1.status = CommentStatus.reported) :=
  ⟨by
    obtain ⟨c1, hc1, _, hdel⟩ :=
      (terminal_status_frame storeAB4Reported (Op.deleteComment ⟨2, "user"⟩ 11) 11
        { replyB with
          reports := fourReports ++ [{ reportedBy := 7, reason := "spam", description := none }]
          reportCount := 5
          status := CommentStatus.reported }
        (by decide) (by decide)).1 5 Response.commentDeleted storeAB4ReportedDeleted
        (by decide)
    exact ⟨c1, hc1, (hdel ⟨2, "user"⟩ rfl).1 (Or.inr (by decide))⟩,
   by
    obtain ⟨c1, hc1, hsame, _⟩ :=
      (terminal_status_frame storeAB4Reported (Op.toggleLike ⟨1, "user"⟩ 11) 11
        { replyB with
          reports := fourReports ++ [{ reportedBy := 7, reason := "spam", description := none }]
          reportCount := 5
          status := CommentStatus.reported }
        (by decide) (by decide)).1 5 (Response.error 404 Code.COMMENT_NOT_FOUND)
        storeAB4Reported (by decide)
    exact ⟨c1, hc1, hsame (fun user e => Op.noConfusion e)⟩⟩

/-- C24: for every stored comment and every request of the engine, the comment is still
stored under its id after the request, whatever the response, and refers to the same
post as before. Under the depth invariant every request returns with fuel for four
saves. -/
theorem post_reference_immutable (st : Store) (op : Op) (id : Nat) (c : Comment)
    (hfind : st.findComment id = some c) :
    (∀ fuel r st1, step fuel st op = some (r, st1) →
      ∃ c1, st1.findComment id = some c1 ∧ c1.post = c.post) ∧
    (DepthInv st → ∀ fuel, 4 ≤ fuel → ∃ r st1, step fuel st op = some (r, st1)) := by
  constructor
  · intro fuel r st1 h
    obtain ⟨c1, hc1, hpost, _⟩ := step_find h hfind
    exact ⟨c1, hc1, hpost⟩
  · intro hinv fuel hfuel
    exact step_returns st op hinv fuel hfuel

theorem post_reference_immutable_witness :
    ∃ c1, storeAReplied.findComment 10 = some c1 ∧
      c1.post = (mkComment 10 1 1 none 0 CommentStatus.active 0).post :=
  (post_reference_immutable storeA
    (Op.postComment ⟨2, "user"⟩ (mkBody 1 (some 10) (some 7)) 11) 10
    (mkComment 10 1 1 none 0 CommentStatus.active 0) (by decide)).1
    5 (Response.created replyB) storeAReplied (by decide)

/-! ## The cascade of saves -/

theorem saveLog_snd : ∀ (fuel : Nat) (st : Store) (doc : Comment),
    (saveLog fuel st doc).map Prod.snd = save fuel st doc := by
  intro fuel
  induction fuel with
  | zero => intro st doc; rfl
  | succ n ih =>
    intro st doc
    unfold saveLog save
    simp only
    split
    · split
      · rfl
      · split
        · rfl
        · rename_i parent hfind
          rw [← ih]
          cases saveLog n ((st.writeComment doc).incCommentCount doc.post 1)
              { parent with
                replyCount :=
                  ((st.writeComment doc).incCommentCount doc.post 1).countActiveChildren
                    parent.id } with
          | none => rfl
          | some p => rfl
    · rfl

theorem stored_congr {st1 st2 : Store}
    (h : st1.comments.map Comment.core = st2.comments.map Comment.core) (id : Nat) :
    st1.stored id = st2.stored id := by
  have h1 := findComment_core_congr h id
  unfold Store.stored
  cases h2 : st1.findComment id <;> cases h3 : st2.findComment id <;>
    simp [h2, h3] at h1 ⊢

theorem activeAt_congr {st1 st2 : Store}
    (h : st1.comments.map Comment.core = st2.comments.map Comment.core) (id : Nat) :
    st1.activeAt id = st2.activeAt id := by
  have h1 := findComment_core_congr h id
  unfold Store.activeAt
  cases h2 : st1.findComment id with
  | none =>
    cases h3 : st2.findComment id with
    | none => rfl
    | some b => simp [h2, h3] at h1
  | some a =>
    cases h3 : st2.findComment id with
    | none => simp [h2, h3] at h1
    | some b =>
      have hc : a.core = b.core := by simpa [h2, h3] using h1
      simp only [core_status hc]

theorem parentAt_congr {st1 st2 : Store}
    (h : st1.comments.map Comment.core = st2.comments.map Comment.core) (id : Nat) :
    st1.parentAt id = st2.parentAt id := by
  have h1 := findComment_core_congr h id
  unfold Store.parentAt
  cases h2 : st1.findComment id with
  | none =>
    cases h3 : st2.findComment id with
    | none => rfl
    | some b => simp [h2, h3] at h1
  | some a =>
    cases h3 : st2.findComment id with
    | none => simp [h2, h3] at h1
    | some b =>
      have hc : a.core = b.core := by simpa [h2, h3] using h1
      simp only [Option.some_bind, core_parentComment hc]

theorem cascadeOk_congr {st1 st2 : Store}
    (h : st1.comments.map Comment.core = st2.comments.map Comment.core) :
    ∀ ids : List Nat, cascadeOk st1 ids = cascadeOk st2 ids := by
  intro ids
  induction ids with
  | nil => rfl
  | cons x rest ih =>
    cases rest with
    | nil =>
      unfold cascadeOk
      rw [stored_congr h x, activeAt_congr h x, parentAt_congr h x]
      cases st2.parentAt x with
      | none => rfl
      | some p => simp only [stored_congr h p]
    | cons y rest2 =>
      unfold cascadeOk
      rw [activeAt_congr h x, parentAt_congr h x, stored_congr h y, ih]

theorem Ranked_congr {rank : Nat → Nat} {st1 st2 : Store}
    (h : st1.comments.map Comment.core = st2.comments.map Comment.core)
    (hr : Ranked rank st2) : Ranked rank st1 := by
  intro id p hp hs
  rw [parentAt_congr h id] at hp
  rw [stored_congr h p] at hs
  exact hr id p hp hs

/-- On a store with acyclic parent chains a save finishes as soon as the fuel exceeds the
rank of the saved comment; it writes at most `rank + 1` documents and the log is a
cascade along the parent chain of the saved comment. -/
theorem saveLog_ranked (rank : Nat → Nat) : ∀ (fuel : Nat) (st : Store) (doc : Comment),
    Ranked rank (st.writeComment doc) → rank doc.id < fuel →
    ∃ ids st1, saveLog fuel st doc = some (doc.id :: ids, st1) ∧
      ids.length ≤ rank doc.id ∧
      cascadeOk (st.writeComment doc) (doc.id :: ids) = true := by
  intro fuel
  induction fuel with
  | zero => intro st doc _ hlt; exact absurd hlt (Nat.not_lt_zero _)
  | succ n ih =>
    intro st doc hr hlt
    have hself : (st.writeComment doc).findComment doc.id = some doc :=
      findComment_write_self st doc
    have hstored : (st.writeComment doc).stored doc.id = true := by
      unfold Store.stored; rw [hself]; rfl
    have hparentAt : (st.writeComment doc).parentAt doc.id = doc.parentComment := by
      unfold Store.parentAt; rw [hself]; rfl
    have hactiveAt : (st.writeComment doc).activeAt doc.id
        = decide (doc.status = CommentStatus.active) := by
      unfold Store.activeAt; rw [hself]
    unfold saveLog
    simp only
    split
    · rename_i hact
      split
      · rename_i hnone
        refine ⟨[], _, rfl, Nat.zero_le _, ?_⟩
        unfold cascadeOk
        rw [hstored, hparentAt, hnone]
        simp
      · rename_i pid hpid
        split
        · rename_i hfind
          refine ⟨[], _, rfl, Nat.zero_le _, ?_⟩
          have hns : (st.writeComment doc).stored pid = false := by
            unfold Store.stored
            have : (st.writeComment doc).findComment pid = none := hfind
            rw [this]; rfl
          unfold cascadeOk
          rw [hstored, hparentAt, hpid]
          simp [hns]
        · rename_i parent hfind
          have hfind0 : (st.writeComment doc).findComment pid = some parent := hfind
          have hid : parent.id = pid := findComment_id hfind0
          have hps : (st.writeComment doc).stored pid = true := by
            unfold Store.stored; rw [hfind0]; rfl
          have hrank : rank pid < rank doc.id :=
            hr doc.id pid (by rw [hparentAt, hpid]) hps
          have hmap : (Store.writeComment ((st.writeComment doc).incCommentCount doc.post 1)
              { parent with
                replyCount :=
                  ((st.writeComment doc).incCommentCount doc.post 1).countActiveChildren
                    parent.id }).comments.map Comment.core
              = (st.writeComment doc).comments.map Comment.core := by
            refine map_upsert_of_find Comment.core _ parent _ ?_ rfl
            have h2 := hfind0
            rw [← hid] at h2
            exact h2
          obtain ⟨ids, st3, hlog, hlen, hok⟩ :=
            ih ((st.writeComment doc).incCommentCount doc.post 1)
              { parent with
                replyCount :=
                  ((st.writeComment doc).incCommentCount doc.post 1).countActiveChildren
                    parent.id }
              (Ranked_congr hmap hr)
              (by show rank parent.id < n; rw [hid]; omega)
          rw [cascadeOk_congr hmap] at hok
          have hlog2 : saveLog n ((st.writeComment doc).incCommentCount doc.post 1)
              { parent with
                replyCount :=
                  ((st.writeComment doc).incCommentCount doc.post 1).countActiveChildren
                    parent.id } = some (pid :: ids, st3) := by
            rw [hlog]
            show some (parent.id :: ids, st3) = some (pid :: ids, st3)
            rw [hid]
          have hok2 : cascadeOk (st.writeComment doc) (pid :: ids) = true := by
            have : cascadeOk (st.writeComment doc) (parent.id :: ids) = true := hok
            rw [hid] at this
            exact this
          refine ⟨pid :: ids, st3, ?_, ?_, ?_⟩
          · rw [hlog2]
          · show ids.length + 1 ≤ rank doc.id
            have : ids.length ≤ rank pid := by
              have h3 : ids.length ≤ rank parent.id := hlen
              rw [hid] at h3
              exact h3
            omega
          · unfold cascadeOk
            rw [hactiveAt, hparentAt, hpid, hps, hok2]
            simp [hact]
    · rename_i hact
      refine ⟨[], _, rfl, Nat.zero_le _, ?_⟩
      unfold cascadeOk
      rw [hstored, hactiveAt]
      simp [hact]

/-- Under the depth invariant the depth is a rank for the parent chains. -/
theorem Ranked_of_DepthInv (st : Store) (hinv : DepthInv st) : Ranked st.depthAt st := by
  intro id p hp hs
  unfold Store.parentAt at hp
  unfold Store.stored at hs
  cases hc : st.findComment id with
  | none => rw [hc] at hp; exact Option.noConfusion hp
  | some c =>
    rw [hc] at hp
    have hpc : c.parentComment = some p := hp
    cases hpar : st.findComment p with
    | none => rw [hpar] at hs; exact Bool.noConfusion hs
    | some par =>
      have hcm : c ∈ st.comments := List.mem_of_find?_eq_some hc
      have hpm : par ∈ st.comments := List.mem_of_find?_eq_some hpar
      have hd := ((depthOk_iff st c).mp (hinv c hcm)).2
      rw [hpc] at hd
      obtain ⟨parent, hparent, hdep⟩ := hd
      rw [hpar] at hparent
      injection hparent with hparent
      subst hparent
      have hnn := DepthInv_nonneg st hinv par hpm
      unfold Store.depthAt
      rw [hc, hpar]
      simp only
      omega

theorem ancestor_add (st : Store) : ∀ (i j x : Nat),
    st.ancestor (i + j) x = (st.ancestor i x).bind (st.ancestor j) := by
  intro i
  induction i with
  | zero => intro j x; simp [Store.ancestor]
  | succ n ih =>
    intro j x
    have hn : n + 1 + j = (n + j) + 1 := by omega
    rw [hn]
    show (st.next x).bind (st.ancestor (n + j))
      = ((st.next x).bind (st.ancestor n)).bind (st.ancestor j)
    cases st.next x with
    | none => rfl
    | some p => simp [ih]

theorem ancestor_one (st : Store) (x : Nat) : st.ancestor 1 x = st.next x := by
  show (st.next x).bind (st.ancestor 0) = st.next x
  cases st.next x with
  | none => rfl
  | some p => rfl

theorem next_mem {st : Store} {x p : Nat} (h : st.next x = some p) :
    p ∈ st.comments.map Comment.id := by
  unfold Store.next at h
  split at h
  · exact Option.noConfusion h
  · rename_i q _
    split at h
    · rename_i hs
      injection h with h
      subst h
      unfold Store.stored at hs
      cases hf : st.findComment q with
      | none => rw [hf] at hs; exact Bool.noConfusion hs
      | some c =>
        have hid := findComment_id hf
        exact List.mem_map.mpr ⟨c, List.mem_of_find?_eq_some hf, hid⟩
    · exact Option.noConfusion h

theorem ancestor_succ_mem {st : Store} {k x y : Nat}
    (h : st.ancestor (k + 1) x = some y) : y ∈ st.comments.map Comment.id := by
  rw [ancestor_add st k 1 x] at h
  cases hz : st.ancestor k x with
  | none => rw [hz] at h; exact Option.noConfusion h
  | some z =>
    rw [hz] at h
    have h1 : st.ancestor 1 z = some y := h
    rw [ancestor_one] at h1
    exact next_mem h1

theorem ancestor_none_add {st : Store} {i x : Nat} (h : st.ancestor i x = none) (j : Nat) :
    st.ancestor (i + j) x = none := by
  rw [ancestor_add, h]
  rfl

/-- On an acyclic store every parent chain has fewer links than there are comments. -/
theorem ancestor_none_of_acyclic (st : Store) (hac : Acyclic st) (x : Nat) :
    st.ancestor (st.comments.length + 1) x = none := by
  by_contra hne
  have hsome : ∀ i, i ≤ st.comments.length → ∃ y, st.ancestor (i + 1) x = some y := by
    intro i hi
    cases hy : st.ancestor (i + 1) x with
    | none =>
      have := ancestor_none_add hy (st.comments.length - i)
      have he : i + 1 + (st.comments.length - i) = st.comments.length + 1 := by omega
      rw [he] at this
      exact absurd this hne
    | some y => exact ⟨y, rfl⟩
  have key : ∀ i j, i < j → j ≤ st.comments.length →
      (st.ancestor (i + 1) x).getD 0 = (st.ancestor (j + 1) x).getD 0 → False := by
    intro i j hij hj heq
    obtain ⟨a, ha⟩ := hsome i (by omega)
    obtain ⟨b, hb⟩ := hsome j hj
    rw [ha, hb] at heq
    have hab : a = b := heq
    have hsplit : j + 1 = (i + 1) + ((j - i - 1) + 1) := by omega
    rw [hsplit, ancestor_add, ha] at hb
    have hcyc : st.ancestor ((j - i - 1) + 1) a = some b := hb
    rw [← hab] at hcyc
    exact hac a (j - i - 1) hcyc
  have hcard : (st.comments.map Comment.id).toFinset.card
      < (Finset.range (st.comments.length + 1)).card := by
    rw [Finset.card_range]
    have := List.toFinset_card_le (st.comments.map Comment.id)
    rw [List.length_map] at this
    omega
  obtain ⟨i, hi, j, hj, hij, heq⟩ :=
    Finset.exists_ne_map_eq_of_card_lt_of_maps_to hcard
      (f := fun i => (st.ancestor (i + 1) x).getD 0)
      (by
        intro i hi
        rw [Finset.mem_range] at hi
        obtain ⟨y, hy⟩ := hsome i (by omega)
        show (st.ancestor (i + 1) x).getD 0 ∈ (st.comments.map Comment.id).toFinset
        rw [hy]
        exact List.mem_toFinset.mpr (ancestor_succ_mem hy))
  rw [Finset.mem_range] at hi hj
  rcases Nat.lt_or_gt_of_ne hij with hlt | hgt
  · exact key i j hlt (by omega) heq
  · exact key j i hgt (by omega) heq.symm

theorem height_stable (st : Store) : ∀ (m y : Nat), st.ancestor m y = none →
    st.height (m + 1) y = st.height m y := by
  intro m
  induction m with
  | zero => intro y h; exact Option.noConfusion h
  | succ n ih =>
    intro y h
    have h1 : (st.next y).bind (st.ancestor n) = none := h
    show (match st.next y with
        | none => 0
        | some p => st.height (n + 1) p + 1)
      = (match st.next y with
        | none => 0
        | some p => st.height n p + 1)
    cases hq : st.next y with
    | none => rfl
    | some q =>
      rw [hq] at h1
      have h2 : st.ancestor n q = none := h1
      simp only [ih q h2]

/-- On an acyclic store the number of links of the parent chain is a rank. -/
theorem Ranked_of_Acyclic (st : Store) (hac : Acyclic st) :
    Ranked (st.height (st.comments.length + 1)) st := by
  intro id p hp hs
  have hnext : st.next id = some p := by
    unfold Store.next
    rw [hp]
    simp [hs]
  have hx := ancestor_none_of_acyclic st hac id
  have hpn : st.ancestor st.comments.length p = none := by
    have h1 : (st.next id).bind (st.ancestor st.comments.length) = none := hx
    rw [hnext] at h1
    exact h1
  have h1 : st.height (st.comments.length + 1) id
      = st.height st.comments.length p + 1 := by
    show (match st.next id with
        | none => 0
        | some q => st.height st.comments.length q + 1) = _
    rw [hnext]
  rw [h1, height_stable st _ p hpn]
  omega

theorem height_le (st : Store) : ∀ (n x : Nat), st.height n x ≤ n := by
  intro n
  induction n with
  | zero => intro x; exact Nat.le_refl 0
  | succ m ih =>
    intro x
    show (match st.next x with
        | none => 0
        | some p => st.height m p + 1) ≤ m + 1
    cases st.next x with
    | none => exact Nat.zero_le _
    | some p => exact Nat.succ_le_succ (ih p)

theorem next_spec {st : Store} {x p : Nat} (h : st.next x = some p) :
    st.parentAt x = some p ∧ st.stored p = true := by
  unfold Store.next at h
  split at h
  · exact Option.noConfusion h
  · rename_i q hq
    split at h
    · rename_i hs
      injection h with h
      subst h
      exact ⟨hq, hs⟩
    · exact Option.noConfusion h

theorem rank_ancestor_lt {rank : Nat → Nat} {st : Store} (hr : Ranked rank st) :
    ∀ (k x y : Nat), st.ancestor (k + 1) x = some y → rank y < rank x := by
  intro k
  induction k with
  | zero =>
    intro x y h
    rw [ancestor_one] at h
    obtain ⟨hp, hs⟩ := next_spec h
    exact hr x y hp hs
  | succ n ih =>
    intro x y h
    have h1 : (st.next x).bind (st.ancestor (n + 1)) = some y := h
    cases hq : st.next x with
    | none => rw [hq] at h1; exact Option.noConfusion h1
    | some q =>
      rw [hq] at h1
      obtain ⟨hp, hs⟩ := next_spec hq
      have h2 := ih q y h1
      have h3 := hr x q hp hs
      omega

/-- A store with a rank along its parent links is acyclic; in particular every store that
satisfies the depth invariant. -/
theorem Acyclic_of_Ranked {rank : Nat → Nat} {st : Store} (hr : Ranked rank st) :
    Acyclic st := by
  intro id k h
  exact Nat.lt_irrefl _ (rank_ancestor_lt hr k id id h)

theorem Acyclic_of_parentsBelow (st : Store) (h : parentsBelow st = true) : Acyclic st := by
  apply @Acyclic_of_Ranked (fun id => id)
  intro id p hp hs
  unfold Store.parentAt at hp
  cases hc : st.findComment id with
  | none => rw [hc] at hp; exact Option.noConfusion hp
  | some c =>
    rw [hc] at hp
    have hpc : c.parentComment = some p := hp
    have hmem : c ∈ st.comments := List.mem_of_find?_eq_some hc
    have hid : c.id = id := findComment_id hc
    unfold parentsBelow at h
    have h1 := List.all_eq_true.mp h c hmem
    rw [hpc] at h1
    have h2 : p < c.id := by simpa using h1
    show p < id
    omega

/-- C30, as stated, fails: `storeFlat` has the acyclic parent chain 3, 2, 1 with every
depth 0; saving the active comment 3 writes comments 3, 2 and 1, three saves where
`depth + 1` is 1. -/
theorem save_cascade_exceeds_depth :
    Acyclic (storeFlat.writeComment (mkComment 3 1 1 (some 2) 0 CommentStatus.active 0)) ∧
    (mkComment 3 1 1 (some 2) 0 CommentStatus.active 0).status = CommentStatus.active ∧
    (mkComment 3 1 1 (some 2) 0 CommentStatus.active 0).depth = 0 ∧
    (saveLog 5 storeFlat (mkComment 3 1 1 (some 2) 0 CommentStatus.active 0)).map Prod.fst
      = some [3, 2, 1] ∧
    ¬ (([3, 2, 1] : List Nat).length : Int)
        ≤ (mkComment 3 1 1 (some 2) 0 CommentStatus.active 0).depth + 1 :=
  ⟨Acyclic_of_parentsBelow _ (by decide), by decide, by decide, by decide, by decide⟩

/-- C30 amended: saving a comment on a store whose parent chains are acyclic (no chain
leads from a comment back to itself) finishes once the fuel exceeds the number of stored
comments plus one: the saves are logged as a cascade along the parent chain that starts
at the saved comment, goes on from an active comment to its stored parent and ends at
the first comment that is not active, names no parent or names a missing one. On a store
that satisfies the depth invariant (depth 0 for a root, `parent.depth + 1` for a reply,
at most 3) the cascade consists of at most `depth + 1` saves, so at most 4. The logged
run is the run of `save`. -/
theorem save_cascade_bounded (st : Store) (doc : Comment) :
    (Acyclic (st.writeComment doc) →
      ∀ fuel, (st.writeComment doc).comments.length + 1 < fuel →
      ∃ ids st1, saveLog fuel st doc = some (ids, st1) ∧ save fuel st doc = some st1 ∧
        ids.head? = some doc.id ∧
        cascadeOk (st.writeComment doc) ids = true) ∧
    (DepthInv (st.writeComment doc) → ∀ fuel : Nat, doc.depth < fuel →
      ∃ ids st1, saveLog fuel st doc = some (ids, st1) ∧ save fuel st doc = some st1 ∧
        ids.head? = some doc.id ∧ (ids.length : Int) ≤ doc.depth + 1 ∧ ids.length ≤ 4 ∧
        cascadeOk (st.writeComment doc) ids = true) := by
  have hgen : ∀ rank, Ranked rank (st.writeComment doc) → ∀ fuel, rank doc.id < fuel →
      ∃ ids st1, saveLog fuel st doc = some (ids, st1) ∧ save fuel st doc = some st1 ∧
        ids.head? = some doc.id ∧ ids.length ≤ rank doc.id + 1 ∧
        cascadeOk (st.writeComment doc) ids = true := by
    intro rank hr fuel hlt
    obtain ⟨ids, st1, hlog, hlen, hok⟩ := saveLog_ranked rank fuel st doc hr hlt
    refine ⟨doc.id :: ids, st1, hlog, ?_, rfl, ?_, hok⟩
    · rw [← saveLog_snd, hlog]; rfl
    · show ids.length + 1 ≤ rank doc.id + 1
      omega
  constructor
  · intro hac fuel hlt
    have hh := height_le (st.writeComment doc)
      ((st.writeComment doc).comments.length + 1) doc.id
    obtain ⟨ids, st1, hlog, hsave, hhead, _, hok⟩ :=
      hgen _ (Ranked_of_Acyclic _ hac) fuel (by omega)
    exact ⟨ids, st1, hlog, hsave, hhead, hok⟩
  · intro hinv fuel hlt
    have hmem : doc ∈ (st.writeComment doc).comments := mem_upsert_self doc st.comments
    have hnn := DepthInv_nonneg _ hinv doc hmem
    have hle := ((depthOk_iff _ doc).mp (hinv doc hmem)).1
    have hrank : (st.writeComment doc).depthAt doc.id = doc.depth.toNat := by
      unfold Store.depthAt
      rw [findComment_write_self]
    obtain ⟨ids, st1, hlog, hsave, hhead, hlen, hok⟩ :=
      hgen (st.writeComment doc).depthAt (Ranked_of_DepthInv _ hinv) fuel
        (by rw [hrank]; omega)
    rw [hrank] at hlen
    exact ⟨ids, st1, hlog, hsave, hhead, by omega, by omega, hok⟩

theorem save_cascade_bounded_witness :
    DepthInv (storeDeep.writeComment (mkComment 4 1 1 (some 3) 3 CommentStatus.active 0)) ∧
    (∃ ids st1,
      saveLog 4 storeDeep (mkComment 4 1 1 (some 3) 3 CommentStatus.active 0)
        = some (ids, st1) ∧
      save 4 storeDeep (mkComment 4 1 1 (some 3) 3 CommentStatus.active 0) = some st1 ∧
      ids.head? = some 4 ∧ (ids.length : Int) ≤ 3 + 1 ∧ ids.length ≤ 4 ∧
      cascadeOk (storeDeep.writeComment (mkComment 4 1 1 (some 3) 3 CommentStatus.active 0))
        ids = true) ∧
    (∃ ids st1,
      saveLog 6 storeDeep (mkComment 4 1 1 (some 3) 3 CommentStatus.active 0)
        = some (ids, st1) ∧
      save 6 storeDeep (mkComment 4 1 1 (some 3) 3 CommentStatus.active 0) = some st1 ∧
      ids.head? = some 4 ∧
      cascadeOk (storeDeep.writeComment (mkComment 4 1 1 (some 3) 3 CommentStatus.active 0))
        ids = true) :=
  ⟨by decide,
   (save_cascade_bounded storeDeep (mkComment 4 1 1 (some 3) 3 CommentStatus.active 0)).2
      (by decide) 4 (by decide),
   (save_cascade_bounded storeDeep (mkComment 4 1 1 (some 3) 3 CommentStatus.active 0)).1
      (Acyclic_of_Ranked (Ranked_of_DepthInv _ (by decide))) 6 (by decide)⟩

end Busan
